import Mathlib

/-!
# Verification of the Lux 2021 game core (`src/Game/index.ts`)

A shallow embedding of the game-state manipulation functions of the `Game`
class, together with proofs about command validation, movement conflict
resolution, resource distribution, and city formation/merging/destruction.

JavaScript numbers are modelled as `ℚ` (every arithmetic operation performed
by the embedded code — addition, subtraction, multiplication, division by a
worker count, `Math.floor`, comparisons — is exact on the values the engine
manipulates).  Fallible operations return `Option`/sum types.
-/

namespace Lux

/-- The two teams, `Unit.TEAM.A` and `Unit.TEAM.B`. -/
inductive Team where
  | A
  | B
deriving DecidableEq, Repr, Inhabited

/-- `Resource.Types`: the three resource kinds. -/
inductive ResourceType where
  | wood
  | coal
  | uranium
deriving DecidableEq, Repr

/-- A unit's cargo record `{wood, coal, uranium}`. -/
structure Cargo where
  wood : ℚ
  coal : ℚ
  uranium : ℚ
deriving DecidableEq, Repr, Inhabited

/-- `unit.cargo[type]`. -/
def Cargo.get (c : Cargo) : ResourceType → ℚ
  | ResourceType.wood => c.wood
  | ResourceType.coal => c.coal
  | ResourceType.uranium => c.uranium

/-- `unit.cargo[type] += q`. -/
def Cargo.addTo (c : Cargo) (t : ResourceType) (q : ℚ) : Cargo :=
  match t with
  | ResourceType.wood => { c with wood := c.wood + q }
  | ResourceType.coal => { c with coal := c.coal + q }
  | ResourceType.uranium => { c with uranium := c.uranium + q }

/-- Modelled from the spec: the external `Unit` collaborator as consumed by
`handleResourceRelease` — a unit has an id, a team, a kind (`unit.type`,
worker or cart), a cargo record and a cargo capacity, and exposes
`getCargoSpaceLeft()`.  Only these capabilities are read by the resource
distributor. -/
structure RUnit where
  id : String
  team : Team
  isWorkerType : Bool
  cargo : Cargo
  capacity : ℚ
deriving DecidableEq, Repr, Inhabited

/-- Modelled from the spec: `unit.getCargoSpaceLeft()` — remaining cargo
space, i.e. capacity minus the total amount carried (cargo is per-resource,
each `≥ 0` and bounded by capacity). -/
def RUnit.getCargoSpaceLeft (u : RUnit) : ℚ :=
  u.capacity - (u.cargo.wood + u.cargo.coal + u.cargo.uranium)

/-! ## Stable ascending sort

`handleResourceRelease` sorts the eligible workers with
`workersToReceiveResources.sort((a, b) => a.getCargoSpaceLeft() - b.getCargoSpaceLeft())`.
`Array.prototype.sort` is a stable sort, and the comparator orders by the
`getCargoSpaceLeft` key, ascending.  A stable sort by a fixed key is unique
as a function of the input list, so we model it by stable insertion sort. -/
/-- Insert `x` into a list that is already sorted ascending by `key`,
before the first element with a strictly larger — or equal — key
(stability: `x`, coming from earlier in the original list, stays before
elements with an equal key that were inserted before it ... equal-key
elements inserted later are placed in front, matching `foldr`). -/
def insertSorted (key : α → ℚ) (x : α) : List α → List α
  | [] => [x]
  | y :: ys => if key x ≤ key y then x :: y :: ys else y :: insertSorted key x ys

/-- Stable ascending sort by `key`. -/
def stableSortByKey (key : α → ℚ) (l : List α) : List α :=
  l.foldr (insertSorted key) []

/-! ## `handleResourceRelease` (lines 580–653)

The distribution loop (lines 626–643) runs `forEach` over the sorted worker
array with index `i`; the divisor `workersToReceiveResources.length - i` is
the number of workers remaining, including the current one, which in the
recursive model below is the length of the remaining list. -/
/-- The `forEach` loop of `handleResourceRelease`: threads
`amountToDistribute` and `amountDistributed`, and records, for each worker
in order, the floored amount credited to `worker.cargo[type]` (and to the
team statistics).  Returns the final `(amountToDistribute, amountDistributed,
credits)`. -/
def goDistribute (rate : ℚ) : List RUnit → ℚ → ℚ → List (RUnit × ℚ) →
    ℚ × ℚ × List (RUnit × ℚ)
  | [], amountToDistribute, amountDistributed, credits =>
      (amountToDistribute, amountDistributed, credits)
  | w :: ws, amountToDistribute, amountDistributed, credits =>
      let spaceLeft := w.getCargoSpaceLeft
      let maxReceivable := amountToDistribute / ((ws.length + 1 : ℕ) : ℚ)
      let distributeAmount := min (min spaceLeft maxReceivable) rate
      goDistribute rate ws (amountToDistribute - distributeAmount)
        (amountDistributed + distributeAmount)
        (credits ++ [(w, ((⌊distributeAmount⌋ : ℤ) : ℚ))])

/-- Result of `handleResourceRelease` on a resource-bearing cell: the node's
new amount, the per-worker floored credits in distribution order, and the
total (un-floored) `amountDistributed` subtracted from the node. -/
structure ReleaseOutcome where
  newAmount : ℚ
  credits : List (RUnit × ℚ)
  amountDistributed : ℚ
deriving DecidableEq, Repr

/-- `handleResourceRelease` (lines 580–653), for a cell that passes the
`originalCell.hasResource()` guard, carrying resource `rtype` with `amount`
remaining.  `cellUnitLists` are the unit collections of
`[originalCell, ...this.map.getAdjacentCells(originalCell)]` in that order
(grid geometry is an external collaborator); `researched` is the per-team
`teamStates[team].researched[type]` flag and `rateOf` the configured
`WORKER_COLLECTION_RATE`. -/
def handleResourceRelease (researched : Team → ResourceType → Bool)
    (rateOf : ResourceType → ℚ) (rtype : ResourceType) (amount : ℚ)
    (cellUnitLists : List (List RUnit)) : ReleaseOutcome :=
  let workersToReceiveResources :=
    cellUnitLists.foldl (fun acc units =>
      acc ++ units.filter (fun u => u.isWorkerType && researched u.team rtype)) []
  let rate := rateOf rtype
  let amountToDistribute :=
    min (rate * (workersToReceiveResources.length : ℚ)) amount
  let sortedWorkers := stableSortByKey RUnit.getCargoSpaceLeft workersToReceiveResources
  let r := goDistribute rate sortedWorkers amountToDistribute 0 []
  let raw := amount - r.2.1
  { newAmount := if raw < 1 / 10 ^ 10 then 0 else raw
    credits := r.2.2
    amountDistributed := r.2.1 }

/-- The eligible receivers gathered by lines 585–596: worker-type units on
the cell or an orthogonal neighbour whose team has researched the resource,
in cell order. -/
def eligibleWorkers (researched : Team → ResourceType → Bool)
    (rtype : ResourceType) (cellUnitLists : List (List RUnit)) : List RUnit :=
  cellUnitLists.foldl (fun acc units =>
    acc ++ units.filter (fun u => u.isWorkerType && researched u.team rtype)) []

/-- Entitlement formula as worded by the claim:
`min(its free space, the rate, remaining pool / k)`. -/
def claimEntitlement (rate space pool : ℚ) (k : ℕ) : ℚ :=
  min space (min rate (pool / (k : ℚ)))

/-- The remaining pool before the `i`-th (0-indexed) worker is processed, as
worded by the claim: the un-floored entitlement of each earlier worker is
subtracted, the divisor for worker `j` being `n - j` where `n` is the total
worker count (`spaces.length`). -/
def claimPools (rate : ℚ) (spaces : List ℚ) (pool0 : ℚ) : ℕ → ℚ
  | 0 => pool0
  | i + 1 =>
      let p := claimPools rate spaces pool0 i
      p - claimEntitlement rate (spaces.getD i 0) p (spaces.length - i)

/-- Accumulator-free form of the distribution loop: the list of
`(worker, floored credit)` pairs, and the per-step un-floored entitlement. -/
def credList (rate : ℚ) : List RUnit → ℚ → List (RUnit × ℚ)
  | [], _ => []
  | w :: ws, pool =>
      let e := min (min w.getCargoSpaceLeft (pool / ((ws.length + 1 : ℕ) : ℚ))) rate
      (w, ((⌊e⌋ : ℤ) : ℚ)) :: credList rate ws (pool - e)

/-- The value of `amountToDistribute` after the loop. -/
def poolAfter (rate : ℚ) : List RUnit → ℚ → ℚ
  | [], pool => pool
  | w :: ws, pool =>
      let e := min (min w.getCargoSpaceLeft (pool / ((ws.length + 1 : ℕ) : ℚ))) rate
      poolAfter rate ws (pool - e)

/-! ## Command validation (`validateCommand`, lines 135–459)

The data model below carries every piece of game state that
`validateCommand` reads (plus the fields the frame claim ranges over), and
the per-turn accumulator `_AccumulatedActionStats`. -/
/-- Modelled from the spec: the `CityTile` collaborator capabilities
consumed here — owning team, city id, cooldown, `canBuildUnit()`,
`canResearch()` and `getTileID()`. -/
structure VCityTile where
  team : Team
  cityid : String
  cooldown : ℚ
  canBuildUnit : Bool
  canResearch : Bool
  tileId : String
deriving DecidableEq, Repr

/-- Modelled from the spec: the `Cell` collaborator — an optional city tile
and a `hasResource()` flag (resource nodes live on cells). -/
structure VCell where
  citytile : Option VCityTile
  hasResource : Bool
deriving DecidableEq, Repr

/-- Modelled from the spec: the `Unit` collaborator capabilities consumed by
validation — position, cooldown, cargo, `canAct()` and `canMove()`. -/
structure VUnit where
  pos : Int × Int
  cooldown : ℚ
  cargo : Cargo
  canAct : Bool
  canMove : Bool
deriving DecidableEq, Repr

/-- `Game.TeamState`: research points, the unit registry (a `Map` in
insertion order) and per-resource researched flags. -/
structure VTeamState where
  researchPoints : ℚ
  units : List (String × VUnit)
  researchedWood : Bool
  researchedCoal : Bool
  researchedUranium : Bool
deriving DecidableEq, Repr

/-- The `City` data read by the unit-cap predicates: owning team and
`citycells.length`. -/
structure VCity where
  team : Team
  citycellsCount : ℕ
deriving DecidableEq, Repr

/-- `Game.TeamStats`. -/
structure VTeamStats where
  fuelGenerated : ℚ
  resourcesCollected : Cargo
  cityTilesBuilt : ℕ
  workersBuilt : ℕ
  cartsBuilt : ℕ
  roadsBuilt : ℕ
  roadsPillaged : ℕ
deriving DecidableEq, Repr

/-- Modelled from the spec: the `GameMap` collaborator — `inMap` and cell
lookup by coordinates. -/
structure VGameMap where
  inMap : Int × Int → Bool
  cellAt : Int × Int → VCell

/-- The `Game` state read (and, per the frame claim, never written) by
`validateCommand`: map, per-team states, city registry, aggregate stats,
the two id counters, the turn counter, and the configured
`CITY_WOOD_COST`. -/
structure VGame where
  map : VGameMap
  teamStateA : VTeamState
  teamStateB : VTeamState
  cities : List (String × VCity)
  statsA : VTeamStats
  statsB : VTeamStats
  globalCityIDCount : ℕ
  globalUnitIDCount : ℕ
  turn : ℕ
  cityWoodCost : ℚ

/-- `this.state.teamStates[team]`. -/
def VGame.teamState (g : VGame) : Team → VTeamState
  | Team.A => g.teamStateA
  | Team.B => g.teamStateB

/-- `getUnit(team, unitid)`. -/
def VGame.getUnit (g : VGame) (team : Team) (unitid : String) : Option VUnit :=
  (g.teamState team).units.lookup unitid

/-- One team's slot of `_AccumulatedActionStats`: in-turn built-worker and
built-cart counts and the set (insertion-ordered) of unit/tile ids that
already committed an action this turn. -/
structure TeamAcc where
  workersBuilt : ℕ
  cartsBuilt : ℕ
  actionsPlaced : List String
deriving DecidableEq, Repr

/-- `_AccumulatedActionStats`: one slot per team. -/
structure VAcc where
  A : TeamAcc
  B : TeamAcc
deriving DecidableEq, Repr

def VAcc.get (acc : VAcc) : Team → TeamAcc
  | Team.A => acc.A
  | Team.B => acc.B

def VAcc.setTeam (acc : VAcc) : Team → TeamAcc → VAcc
  | Team.A, t => { acc with A := t }
  | Team.B, t => { acc with B := t }

/-- `Set.add`: no-op when the id is already present. -/
def TeamAcc.addPlaced (t : TeamAcc) (s : String) : TeamAcc :=
  if t.actionsPlaced.contains s then t else { t with actionsPlaced := t.actionsPlaced ++ [s] }

/-- `_genInitialAccumulatedActionStats()`. -/
def genInitialAcc : VAcc :=
  { A := { workersBuilt := 0, cartsBuilt := 0, actionsPlaced := [] }
    B := { workersBuilt := 0, cartsBuilt := 0, actionsPlaced := [] } }

/-- The typed `Action` variants produced by validation. -/
inductive VAction where
  | move (team : Team) (unitid : String) (direction : String) (newcellPos : Int × Int)
  | spawnWorker (team : Team) (x y : Int)
  | spawnCart (team : Team) (x y : Int)
  | spawnCity (team : Team) (unitid : String)
  | research (team : Team) (x y : Int)
  | transfer (team : Team) (srcID destID : String) (resourceType : String) (amount : Int)
  | pillage (team : Team) (unitid : String)
deriving DecidableEq, Repr

/-- Outcome of validating one command: a typed action, the `null` returned
for debug-annotation commands, or a thrown `MatchWarn` diagnostic. -/
inductive VResult where
  | action : VAction → VResult
  | debug : VResult
  | warn : String → VResult
deriving DecidableEq, Repr

/-- `MatchEngine.Command`: the caller-supplied team id plus the raw
command text. -/
structure VCommand where
  agentID : Team
  command : String
deriving DecidableEq, Repr

/-- Modelled from the spec: JavaScript `String.prototype.split(' ')` — cut
the text at every single space; adjacent separators and leading/trailing
separators produce empty fields, and the result is never the empty list. -/
def jsSplitSpacesAux : List Char → List Char → List (List Char)
  | [], acc => [acc.reverse]
  | c :: cs, acc =>
      if c = ' ' then acc.reverse :: jsSplitSpacesAux cs []
      else jsSplitSpacesAux cs (c :: acc)

/-- `cmd.command.split(' ')`. -/
def jsSplitSpaces (s : String) : List String :=
  (jsSplitSpacesAux s.data []).map (fun l => String.mk l)

/-- Modelled from the spec: JavaScript `parseInt` on a command token —
ignores leading whitespace, accepts an optional sign, reads leading decimal
digits (trailing junk ignored), and is `NaN` (here `none`) when no digit is
read. -/
def jsParseInt (s : String) : Option Int :=
  let t := s.data.dropWhile (fun c => c = ' ' || c = '\t' || c = '\n' || c = '\r')
  let signAndRest : Int × List Char :=
    match t with
    | '-' :: r => (-1, r)
    | '+' :: r => (1, r)
    | r => (1, r)
  let ds := signAndRest.2.takeWhile (fun c => '0' ≤ c && c ≤ '9')
  if ds.isEmpty then none
  else some (signAndRest.1 * ((ds.foldl (fun n c => n * 10 + (c.toNat - 48)) 0 : ℕ) : Int))

/-- Modelled from the spec: `Position.translate(direction, 1)` on the grid
(north decreases `y`, south increases it; `c` is the identity). -/
def translateDir (p : Int × Int) (d : String) : Int × Int :=
  if d = "n" then (p.1, p.2 - 1)
  else if d = "e" then (p.1 + 1, p.2)
  else if d = "s" then (p.1, p.2 + 1)
  else if d = "w" then (p.1 - 1, p.2)
  else p

/-- Modelled from the spec: `Position.isAdjacent` — orthogonal neighbour or
the same cell. -/
def posIsAdjacent (p q : Int × Int) : Bool :=
  (p.1 - q.1).natAbs + (p.2 - q.2).natAbs ≤ 1

/-- `workerUnitCapReached(team, offset)` (lines 437–447): live units plus
`offset` at least the total city-tile count over the team's cities. -/
def workerUnitCapReached (g : VGame) (team : Team) (offset : ℕ) : Bool :=
  let teamCityTilesCount :=
    g.cities.foldl (fun n c => if c.2.team = team then n + c.2.citycellsCount else n) 0
  (g.teamState team).units.length + offset ≥ teamCityTilesCount

/-- `cartUnitCapReached(team, offset)` (lines 449–459): the same formula,
but fed `cartsBuilt` by the caller. -/
def cartUnitCapReached (g : VGame) (team : Team) (offset : ℕ) : Bool :=
  let teamCityTilesCount :=
    g.cities.foldl (fun n c => if c.2.team = team then n + c.2.citycellsCount else n) 0
  (g.teamState team).units.length + offset ≥ teamCityTilesCount

/-- The team's total owned city-tile count (the quantity both cap
predicates accumulate). -/
def teamCityTileCount (g : VGame) (team : Team) : ℕ :=
  g.cities.foldl (fun n c => if c.2.team = team then n + c.2.citycellsCount else n) 0

/-- The `check(condition, errormsg)` helper: the first true condition
throws its diagnostic; if none fires, the accept result is produced. -/
def runChecks (g : VGame) (acc : VAcc) :
    List (Bool × String) → VGame × VResult × VAcc → VGame × VResult × VAcc
  | [], accept => accept
  | (cond, msg) :: rest, accept =>
      if cond then (g, VResult.warn msg, acc) else runChecks g acc rest accept

/-- The `case Game.ACTIONS.PILLAGE` branch (lines 169–191). -/
def validatePillage (g : VGame) (team : Team) (args : List String) (acc : VAcc) :
    VGame × VResult × VAcc :=
  if args.length ≠ 1 then (g, VResult.warn "malformed command", acc) else
  let uid := args.getD 0 ""
  match g.getUnit team uid with
  | none => (g, VResult.warn "pillage: invalid/unowned unit id", acc)
  | some u =>
    runChecks g acc
      [(!u.canAct, "pillage: unit with cooldown"),
       (((acc.get team).actionsPlaced.contains uid), "extra command for unit")]
      (g, VResult.action (VAction.pillage team uid),
        acc.setTeam team ((acc.get team).addPlaced uid))

/-- The `case Game.ACTIONS.BUILD_CITY` branch (lines 193–231). -/
def validateBuildCity (g : VGame) (team : Team) (args : List String) (acc : VAcc) :
    VGame × VResult × VAcc :=
  if args.length ≠ 1 then (g, VResult.warn "malformed command", acc) else
  let uid := args.getD 0 ""
  match g.getUnit team uid with
  | none => (g, VResult.warn "build CityTile: invalid/unowned unit id", acc)
  | some u =>
    let cell := g.map.cellAt u.pos
    runChecks g acc
      [(cell.citytile.isSome, "build CityTile on existing CityTile"),
       (cell.hasResource, "build CityTile on non-empty resource tile"),
       (!u.canAct, "build CityTile: unit with cooldown"),
       (u.cargo.wood < g.cityWoodCost, "build CityTile with insufficient wood"),
       (((acc.get team).actionsPlaced.contains uid), "extra command for unit")]
      (g, VResult.action (VAction.spawnCity team uid),
        acc.setTeam team ((acc.get team).addPlaced uid))

/-- The `case Game.ACTIONS.BUILD_CART` / `BUILD_WORKER` branch
(lines 233–283); `action` is `"bc"` or `"bw"`. -/
def validateBuildUnit (g : VGame) (team : Team) (action : String)
    (args : List String) (acc : VAcc) : VGame × VResult × VAcc :=
  if args.length ≠ 2 then (g, VResult.warn "malformed command", acc) else
  match jsParseInt (args.getD 0 ""), jsParseInt (args.getD 1 "") with
  | some x, some y =>
    if !g.map.inMap (x, y) then (g, VResult.warn "build unit: invalid coordinates", acc) else
    match (g.map.cellAt (x, y)).citytile with
    | none => (g, VResult.warn "build unit on tile that is not owned", acc)
    | some citytile =>
      runChecks g acc
        [(citytile.team ≠ team, "build unit on tile that is not owned"),
         (((acc.get team).actionsPlaced.contains citytile.tileId), "extra command for CityTile"),
         (!citytile.canBuildUnit, "build unit: CityTile still with cooldown"),
         (if action = "bc" then cartUnitCapReached g team (acc.get team).cartsBuilt
          else workerUnitCapReached g team (acc.get team).workersBuilt,
          if action = "bc" then "cart unit cap reached" else "worker unit cap reached")]
        (if action = "bc" then
          (g, VResult.action (VAction.spawnCart team x y),
            acc.setTeam team { (acc.get team).addPlaced citytile.tileId with
              cartsBuilt := (acc.get team).cartsBuilt + 1 })
        else
          (g, VResult.action (VAction.spawnWorker team x y),
            acc.setTeam team { (acc.get team).addPlaced citytile.tileId with
              workersBuilt := (acc.get team).workersBuilt + 1 }))
  | _, _ => (g, VResult.warn "build unit: invalid coordinates", acc)

/-- The `case Game.ACTIONS.MOVE` branch (lines 285–335). -/
def validateMove (g : VGame) (team : Team) (args : List String) (acc : VAcc) :
    VGame × VResult × VAcc :=
  if args.length ≠ 2 then (g, VResult.warn "malformed command", acc) else
  let uid := args.getD 0 ""
  let direction := args.getD 1 ""
  match (g.teamState team).units.lookup uid with
  | none => (g, VResult.warn "move: unit not owned", acc)
  | some u =>
    runChecks g acc
      [(!u.canMove, "move: unit with cooldown"),
       (((acc.get team).actionsPlaced.contains uid), "extra command for unit"),
       (Bool.not (["n", "e", "s", "w", "c"].contains direction), "move: invalid direction")]
      (if direction ≠ "c" then
        runChecks g acc
          [(!g.map.inMap (translateDir u.pos direction), "move: off map"),
           (((g.map.cellAt (translateDir u.pos direction)).citytile.map
               (fun ct => ct.team != team)).getD false,
             "move onto opponent CityTile")]
          (g, VResult.action (VAction.move team uid direction (translateDir u.pos direction)),
            acc.setTeam team ((acc.get team).addPlaced uid))
      else
        (g, VResult.action (VAction.move team uid direction (translateDir u.pos direction)),
          acc.setTeam team ((acc.get team).addPlaced uid)))

/-- The `case Game.ACTIONS.RESEARCH` branch (lines 337–369). -/
def validateResearch (g : VGame) (team : Team) (args : List String) (acc : VAcc) :
    VGame × VResult × VAcc :=
  if args.length ≠ 2 then (g, VResult.warn "malformed command", acc) else
  match jsParseInt (args.getD 0 ""), jsParseInt (args.getD 1 "") with
  | some x, some y =>
    if !g.map.inMap (x, y) then (g, VResult.warn "research: invalid coordinates", acc) else
    match (g.map.cellAt (x, y)).citytile with
    | none => (g, VResult.warn "research at CityTile that is not owned", acc)
    | some citytile =>
      runChecks g acc
        [(citytile.team ≠ team, "research at CityTile that is not owned"),
         (!citytile.canResearch, "research: CityTile still on cooldown"),
         (((acc.get team).actionsPlaced.contains citytile.tileId), "extra command for CityTile")]
        (g, VResult.action (VAction.research team x y),
          acc.setTeam team ((acc.get team).addPlaced citytile.tileId))
  | _, _ => (g, VResult.warn "research: invalid coordinates", acc)

/-- The `case Game.ACTIONS.TRANSFER` branch (lines 371–431). -/
def validateTransfer (g : VGame) (team : Team) (args : List String) (acc : VAcc) :
    VGame × VResult × VAcc :=
  if args.length ≠ 4 then (g, VResult.warn "malformed command", acc) else
  let srcID := args.getD 0 ""
  let destID := args.getD 1 ""
  let resourceType := args.getD 2 ""
  let amount := jsParseInt (args.getD 3 "")
  match (g.teamState team).units.lookup srcID with
  | none => (g, VResult.warn "transfer: source unit not owned", acc)
  | some srcUnit =>
    match (g.teamState team).units.lookup destID with
    | none => (g, VResult.warn "transfer: destination unit not owned", acc)
    | some destUnit =>
      runChecks g acc
        [(!srcUnit.canAct, "transfer: source with cooldown"),
         (((acc.get team).actionsPlaced.contains srcID), "extra command for unit"),
         (srcID = destID, "transfer between the same unit"),
         (!posIsAdjacent srcUnit.pos destUnit.pos, "transfer between non-adjacent units"),
         (amount.isNone || amount.getD 0 < 0, "transfer: invalid amount"),
         (Bool.not (["wood", "coal", "uranium"].contains resourceType), "transfer: invalid resource")]
        (g, VResult.action (VAction.transfer team srcID destID resourceType (amount.getD 0)),
          acc.setTeam team ((acc.get team).addPlaced srcID))

/-- The body of `validateCommand` after `cmd.command.split(' ')` produced
`action :: args` (lines 161–434): dispatch on the verb, mirroring the
source `switch`.  Value lookups that the source guards with a preceding
`check` become `match`es whose `none` branch throws that check's
diagnostic, and each remaining `check(condition, errormsg)` sequence runs
via `runChecks`.  Every accepted command updates only the acting team's
accumulator slot, as the source's final statements do. -/
def validateParsed (g : VGame) (team : Team) (action : String)
    (args : List String) (acc : VAcc) : VGame × VResult × VAcc :=
  if action = "dc" || action = "dl" || action = "dx" || action = "dt" || action = "dst" then
    -- debug annotations go directly into the replay file; `return null`
    (g, VResult.debug, acc)
  else if action = "p" then validatePillage g team args acc
  else if action = "bcity" then validateBuildCity g team args acc
  else if action = "bc" || action = "bw" then validateBuildUnit g team action args acc
  else if action = "m" then validateMove g team args acc
  else if action = "r" then validateResearch g team args acc
  else if action = "t" then validateTransfer g team args acc
  else (g, VResult.warn "malformed command", acc)

/-- `validateCommand` (lines 135–435): split the raw command text on spaces
and dispatch on the verb.  Returns the unchanged game state, the outcome,
and the (possibly updated) accumulator. -/
def validateCommand (g : VGame) (cmd : VCommand) (acc : VAcc) :
    VGame × VResult × VAcc :=
  match jsSplitSpaces cmd.command with
  | [] => (g, VResult.warn "invalid command", acc)
  | action :: args => validateParsed g cmd.agentID action args acc

/-- Frame condition for one validation call: the game state comes back
untouched, and if the outcome is a thrown diagnostic the accumulator comes
back exactly as it went in. -/
def FrameOK (g : VGame) (acc : VAcc) (r : VGame × VResult × VAcc) : Prop :=
  r.1 = g ∧ ∀ msg, r.2.1 = VResult.warn msg → r.2.2 = acc

/-- A concrete state exercising the unit cap: one team-A city with two
tiles (so a cap of 2), both ready to build, and one live team-A unit. -/
def c1Game : VGame :=
  { map :=
      { inMap := fun _ => true
        cellAt := fun p =>
          if p = ((0 : Int), (0 : Int)) then
            ⟨some ⟨Team.A, "c_1", 0, true, true, "ct_0_0"⟩, false⟩
          else if p = ((1 : Int), (0 : Int)) then
            ⟨some ⟨Team.A, "c_1", 0, true, true, "ct_1_0"⟩, false⟩
          else ⟨none, false⟩ }
    teamStateA := ⟨0, [("u_1", ⟨(0, 0), 0, ⟨0, 0, 0⟩, true, true⟩)], true, false, false⟩
    teamStateB := ⟨0, [], true, false, false⟩
    cities := [("c_1", ⟨Team.A, 2⟩)]
    statsA := ⟨0, ⟨0, 0, 0⟩, 0, 0, 0, 0, 0⟩
    statsB := ⟨0, ⟨0, 0, 0⟩, 0, 0, 0, 0, 0⟩
    globalCityIDCount := 1
    globalUnitIDCount := 1
    turn := 0
    cityWoodCost := 100 }

/-- The accumulator after the first (accepted) `bw 0 0` command. -/
def c1AccAfterWorker : VAcc :=
  (validateCommand c1Game ⟨Team.A, "bw 0 0"⟩ genInitialAcc).2.2

/-! ## Movement resolution (`handleMovementActions`, lines 736–841)

`cellsToActionsToThere : Map<Cell, Array<MoveAction>>` is modelled as an
association list keyed by cell coordinates (the engine's `Map` is keyed by
the unique per-coordinate `Cell` object), with JavaScript `Map` semantics:
`set` updates in place or appends, `delete` removes the key, iteration is
in insertion order.  The recursive `revertAction` closure is given explicit
fuel; `handleMovementActions` passes `actions.length + 1`, which is proven
sufficient because every recursive call strictly decreases the number of
live entries. -/
/-- A validated `MoveAction` as consumed by `handleMovementActions`: acting
team, acting unit id, and destination cell (`action.newcell`). -/
structure MAction where
  team : Team
  unitid : String
  newcell : Int × Int
deriving DecidableEq, Repr

/-- Modelled from the spec: the collaborator state read by
`handleMovementActions` — `cell.isCityTile()`, the acting unit's current
position `getUnit(team, unitid).pos`, and the ids of the units standing on
a cell (`cell.units`). -/
structure MCtx where
  isCityTile : Int × Int → Bool
  unitPos : Team → String → Int × Int
  cellUnits : Int × Int → List String

/-- The association-list model of `Map<Cell, Array<MoveAction>>`. -/
abbrev AMap : Type := List ((Int × Int) × List MAction)

/-- `map.get(c)`. -/
def amGet (m : AMap) (c : Int × Int) : Option (List MAction) :=
  match m.find? (fun p => p.1 = c) with
  | none => none
  | some p => some p.2

/-- `map.set(c, v)`: overwrite in place, else append. -/
def amSet : AMap → Int × Int → List MAction → AMap
  | [], c, v => [(c, v)]
  | p :: rest, c, v => if p.1 = c then (c, v) :: rest else p :: amSet rest c v

/-- `map.delete(c)`. -/
def amDelete (m : AMap) (c : Int × Int) : AMap :=
  m.filter (fun p => ¬ p.1 = c)

/-- `map.keys()` in insertion order. -/
def amKeys (m : AMap) : List (Int × Int) :=
  m.map (fun p => p.1)

/-- Lines 756–765: build the destination-cell index and the set of moving
unit ids. -/
def buildMap (actions : List MAction) : AMap :=
  actions.foldl (fun m a =>
    match amGet m a.newcell with
    | none => amSet m a.newcell [a]
    | some currActions => amSet m a.newcell (currActions ++ [a])) []

/-- The `unitThereIsStill` computation of lines 812–818: start at `true`,
and set `false` whenever a unit on the cell is in `movingUnits`. -/
def unitThereIsStill (movingUnits : List String) (us : List String) : Bool :=
  us.foldl (fun b uid => if movingUnits.contains uid then false else b) true

/-- `revertAction` (lines 768–793), with explicit fuel standing in for the
unbounded JavaScript recursion: look up the reverted unit's origin cell;
unless it is a city tile, delete its entry and recursively revert every
action that targeted it.  (The `match.throw` diagnostic emission does not
affect the returned map and is not modelled.) -/
def revertAction (ctx : MCtx) : ℕ → AMap → MAction → AMap
  | 0, m, _ => m
  | fuel + 1, m, a =>
      let origcell := ctx.unitPos a.team a.unitid
      let collidingActions := amGet m origcell
      if ctx.isCityTile origcell then m
      else
        let m1 := amDelete m origcell
        match collidingActions with
        | none => m1
        | some l => l.foldl (fun mm b => revertAction ctx fuel mm b) m1

/-- One iteration of the `for (const cell of actionedCells)` loop
(lines 796–833). -/
def movementStep (ctx : MCtx) (movingUnits : List String) (fuel : ℕ)
    (m : AMap) (cell : Int × Int) : AMap :=
  let currActions := amGet m cell
  let actionsToRevert : List MAction :=
    match currActions with
    | none => []
    | some l =>
      if l.length > 1 then
        if ctx.isCityTile cell then [] else l
      else if l.length = 1 then
        if ctx.isCityTile cell then []
        else if (ctx.cellUnits cell).length = 1 then
          if unitThereIsStill movingUnits (ctx.cellUnits cell) then l else []
        else []
      else []
  let m2 := actionsToRevert.foldl (fun mm a => revertAction ctx fuel mm a) m
  actionsToRevert.foldl (fun mm a => amDelete mm a.newcell) m2

/-- `handleMovementActions` (lines 736–841): index the actions by
destination, prune colliding actions (with recursive backward reversion),
and return the surviving actions in map iteration order. -/
def handleMovementActions (ctx : MCtx) (actions : List MAction) : List MAction :=
  let cellsToActionsToThere := buildMap actions
  let movingUnits := actions.map (fun a => a.unitid)
  let actionedCells := amKeys cellsToActionsToThere
  let mfinal := actionedCells.foldl
    (movementStep ctx movingUnits (actions.length + 1)) cellsToActionsToThere
  mfinal.foldl (fun acc p => acc ++ p.2) []

/-- The actions of the input batch that target cell `c` — the entry stored
for `c` by `buildMap`. -/
def origActs (actions : List MAction) (c : Int × Int) : List MAction :=
  actions.filter (fun a => a.newcell = c)

/-- The reverted unit's origin cell, `map.getCellByPos(getUnit(team, unitid).pos)`. -/
def morig (ctx : MCtx) (a : MAction) : Int × Int :=
  ctx.unitPos a.team a.unitid

/-- `movingUnits`. -/
def movIds (actions : List MAction) : List String :=
  actions.map (fun a => a.unitid)

/-- `removeKeys m D`: the entries of `m` whose key is not in `D`.  Every
intermediate state of the pruning pass is `removeKeys` of the initial map,
since entries are only ever deleted wholesale. -/
def removeKeys (m : AMap) (D : List (Int × Int)) : AMap :=
  m.filter (fun p => decide (p.1 ∉ D))

/-- One step of `buildMap`'s fold. -/
def buildStep (m : AMap) (a : MAction) : AMap :=
  match amGet m a.newcell with
  | none => amSet m a.newcell [a]
  | some currActions => amSet m a.newcell (currActions ++ [a])

/-- The pruning loop's static revert condition at cell `c` (lines 800–824):
`c` is not a city tile and either more than one action targets it (a bump),
or exactly one action targets it while the single unit standing on it is
not itself moving this turn. -/
def Trigger (ctx : MCtx) (actions : List MAction) (c : Int × Int) : Prop :=
  ctx.isCityTile c = false ∧
    (1 < (origActs actions c).length ∨
      ((origActs actions c).length = 1 ∧ (ctx.cellUnits c).length = 1 ∧
        unitThereIsStill (movIds actions) (ctx.cellUnits c) = true))

/-- The destination cells whose actions end up reverted: cells where the
static condition fires, closed under backward propagation — when an action
targeting a dead cell is reverted, the acting unit's origin cell (unless a
city tile) dies too. -/
inductive Dead (ctx : MCtx) (actions : List MAction) : (Int × Int) → Prop where
  | trigger (c : Int × Int) : Trigger ctx actions c → Dead ctx actions c
  | backward (a : MAction) : a ∈ actions → Dead ctx actions a.newcell →
      ctx.isCityTile (morig ctx a) = false → Dead ctx actions (morig ctx a)

/-- Propagation-closure of a deleted-key set `D`, modulo a pending list `P`
of actions whose reverts have not run yet: every action into a deleted cell
is pending, or already had its (non-city) origin deleted, or its origin
never had an entry. -/
def PCE (ctx : MCtx) (actions : List MAction) (m0 : AMap)
    (D : List (Int × Int)) (P : List MAction) : Prop :=
  ∀ b ∈ actions, b.newcell ∈ D → ctx.isCityTile (morig ctx b) = false →
    b ∈ P ∨ morig ctx b ∈ D ∨ morig ctx b ∉ amKeys m0

/-! ### City tiles, cities, and `spawnCityTile` / `destroyCity` -/
/-- Generic insertion-ordered association-list lookup (`Map.get`). -/
def alGet {α β : Type} [DecidableEq α] (m : List (α × β)) (k : α) : Option β :=
  match m.find? (fun p => p.1 = k) with
  | none => none
  | some p => some p.2

/-- `Map.set(k, v)`: overwrite in place, else append. -/
def alSet {α β : Type} [DecidableEq α] : List (α × β) → α → β → List (α × β)
  | [], k, v => [(k, v)]
  | p :: rest, k, v => if p.1 = k then (k, v) :: rest else p :: alSet rest k v

/-- `Map.delete(k)`. -/
def alDelete {α β : Type} [DecidableEq α] (m : List (α × β)) (k : α) : List (α × β) :=
  m.filter (fun p => ¬ p.1 = k)

/-- `Map.keys()` in insertion order. -/
def alKeys {α β : Type} (m : List (α × β)) : List α :=
  m.map (fun p => p.1)

/-- A city tile as stored on a cell: its team, owning city id, and the
running adjacency-bonus counter (`CityTile`). -/
structure CityTile where
  team : Team
  cityid : String
  adjacentCityTiles : ℕ
deriving DecidableEq, Repr

/-- A `City`: id, team, fuel, and its cells' positions in `addCityTile`
order (`citycells`). -/
structure City where
  id : String
  team : Team
  fuel : ℚ
  citycells : List (Int × Int)
deriving DecidableEq, Repr

/-- The city-related game state: the map's city tiles as an association
list over positions (a cell with no entry has `citytile = null`), the
`cities` registry in insertion order, and `globalCityIDCount`. -/
structure CState where
  cellCT : List ((Int × Int) × CityTile)
  cities : List (String × City)
  globalCityIDCount : ℕ
deriving DecidableEq, Repr

/-- Modelled from the spec: `getAdjacentCells` inspects the orthogonal
neighbors in a fixed canonical order (north, east, south, west), keeping
the in-bounds ones. -/
def adjacentPositions (inMap : Int × Int → Bool) (p : Int × Int) :
    List (Int × Int) :=
  [(p.1, p.2 - 1), (p.1 + 1, p.2), (p.1, p.2 + 1), (p.1 - 1, p.2)].filter inMap

/-- Decimal digit character. -/
def digitChar : ℕ → Char
  | 0 => '0' | 1 => '1' | 2 => '2' | 3 => '3' | 4 => '4'
  | 5 => '5' | 6 => '6' | 7 => '7' | 8 => '8' | _ => '9'

/-- Decimal digit value, inverse of `digitChar`. -/
def digitVal : Char → ℕ
  | '0' => 0 | '1' => 1 | '2' => 2 | '3' => 3 | '4' => 4
  | '5' => 5 | '6' => 6 | '7' => 7 | '8' => 8 | _ => 9

/-- Fuel-bounded decimal rendering, most significant digit first. -/
def natDigits : ℕ → ℕ → List Char
  | 0, _ => []
  | fuel + 1, n =>
    if n < 10 then [digitChar n] else natDigits fuel (n / 10) ++ [digitChar (n % 10)]

/-- Modelled from the spec: a fresh city id is derived from the next
counter value (its decimal rendering behind a fixed prefix). -/
def cityIdOfCount (n : ℕ) : String :=
  String.mk ('c' :: '_' :: natDigits (n + 1) n)

/-- Lines 503–512: the same-team adjacent city tiles in canonical order,
paired with their positions. -/
def adjSameTeamCityTiles (inMap : Int × Int → Bool)
    (cls : List ((Int × Int) × CityTile)) (team : Team) (pos : Int × Int) :
    List ((Int × Int) × CityTile) :=
  (adjacentPositions inMap pos).filterMap (fun q =>
    match alGet cls q with
    | some t => if t.team = team then some (q, t) else none
    | none => none)

/-- JS `Set` iteration order: first-insertion order, deduplicated. -/
def insertOrderDedupAux (seen : List String) : List String → List String
  | [] => []
  | x :: xs =>
    if seen.contains x then insertOrderDedupAux seen xs
    else x :: insertOrderDedupAux (seen ++ [x]) xs

/-- JS `Set` insertion-order dedup. -/
def insertOrderDedup (l : List String) : List String :=
  insertOrderDedupAux [] l

/-- Lines 505–512: `cityIdsFound`, in discovery order. -/
def cityIdsFound (inMap : Int × Int → Bool)
    (cls : List ((Int × Int) × CityTile)) (team : Team) (pos : Int × Int) :
    List String :=
  insertOrderDedup ((adjSameTeamCityTiles inMap cls team pos).map
    (fun q => q.2.cityid))

/-- Lines 535–537: bump each same-team neighbor's adjacency counter. -/
def bumpAdjCounters (adj : List ((Int × Int) × CityTile))
    (cls : List ((Int × Int) × CityTile)) : List ((Int × Int) × CityTile) :=
  adj.foldl (fun m q =>
    match alGet m q.1 with
    | some t => alSet m q.1 ⟨t.team, t.cityid, t.adjacentCityTiles + 1⟩
    | none => m) cls

/-- Lines 545–546: rewrite one absorbed cell's tile to the surviving city
id; `none` models the JS crash on a cell with no tile. -/
def reassignCell (survId : String)
    (mo : Option (List ((Int × Int) × CityTile))) (q : Int × Int) :
    Option (List ((Int × Int) × CityTile)) :=
  match mo with
  | none => none
  | some m =>
    match alGet m q with
    | some t => some (alSet m q ⟨t.team, survId, t.adjacentCityTiles⟩)
    | none => none

/-- The fuel of a registered city, read off the registry. -/
def lookedUpFuel (cts : List (String × City)) (id : String) : ℚ :=
  match alGet cts id with
  | some c => c.fuel
  | none => 0

/-- The cells of a registered city, read off the registry. -/
def lookedUpCells (cts : List (String × City)) (id : String) : List (Int × Int) :=
  match alGet cts id with
  | some c => c.citycells
  | none => []

/-- Lines 542–552: absorb one merge candidate: reassign its tiles to the
surviving id, append its cells to the survivor, add its fuel, and delete it
from the registry; `none` models the JS crash on a dangling reference. -/
def mergeStep (survId : String)
    (acc : Option (List ((Int × Int) × CityTile) × List (String × City) × City))
    (id : String) :
    Option (List ((Int × Int) × CityTile) × List (String × City) × City) :=
  match acc with
  | none => none
  | some (cls, cts, city) =>
    if id = survId then some (cls, cts, city)
    else
      match alGet cts id with
      | none => none
      | some oldcity =>
        match oldcity.citycells.foldl (reassignCell survId) (some cls) with
        | none => none
        | some cls2 =>
          some (cls2, alDelete cts oldcity.id,
            ⟨city.id, city.team, city.fuel + oldcity.fuel,
              city.citycells ++ oldcity.citycells⟩)

/-- Lines 494–555 (`spawnCityTile`), with the mutated state threaded
explicitly and `none` for the JS crashes on dangling registry
references. -/
def spawnCityTile (inMap : Int × Int → Bool) (st : CState) (team : Team)
    (pos : Int × Int) (cityidArg : Option String) : Option CState :=
  let adj := adjSameTeamCityTiles inMap st.cellCT team pos
  match adj with
  | [] =>
    let newId := match cityidArg with
      | some cid => cid
      | none => cityIdOfCount (st.globalCityIDCount + 1)
    let count := match cityidArg with
      | some _ => st.globalCityIDCount
      | none => st.globalCityIDCount + 1
    some ⟨alSet st.cellCT pos ⟨team, newId, 0⟩,
      alSet st.cities newId ⟨newId, team, 0, [pos]⟩, count⟩
  | a0 :: _ =>
    let survId := a0.2.cityid
    match alGet st.cities survId with
    | none => none
    | some city0 =>
      let cls2 := bumpAdjCounters adj (alSet st.cellCT pos ⟨team, survId, adj.length⟩)
      let city1 : City := ⟨city0.id, city0.team, city0.fuel, city0.citycells ++ [pos]⟩
      match (cityIdsFound inMap st.cellCT team pos).foldl (mergeStep survId)
          (some (cls2, st.cities, city1)) with
      | none => none
      | some (cls3, cts3, city3) =>
        some ⟨cls3, alSet cts3 survId city3, st.globalCityIDCount⟩

/-- Lines 717–724 (`destroyCity`): delete the city from the registry and
clear each of its cells' tiles; `none` models the JS crash when the id is
not registered. -/
def destroyCity (st : CState) (cityID : String) : Option CState :=
  match alGet st.cities cityID with
  | none => none
  | some city =>
    some ⟨city.citycells.foldl (fun m q => alDelete m q) st.cellCT,
      alDelete st.cities cityID, st.globalCityIDCount⟩

/-- The global recount of the adjacency bonus: how many orthogonally
adjacent cells currently hold a same-team city tile. -/
def recount (inMap : Int × Int → Bool)
    (cls : List ((Int × Int) × CityTile)) (team : Team) (pos : Int × Int) : ℕ :=
  ((adjacentPositions inMap pos).filter (fun q =>
    match alGet cls q with
    | some t => t.team = team
    | none => false)).length

/-- A sequence of tile placements: fold `spawnCityTile` (fresh ids, full
map, one team) over a list of positions, starting from the city-free
state. -/
def spawnSequence (ps : List (Int × Int)) : Option CState :=
  ps.foldl (fun sto p =>
    match sto with
    | none => none
    | some st => spawnCityTile (fun _ => true) st Team.A p none) (some ⟨[], [], 0⟩)

/-! The adjacency-counter invariant package. -/
/-- The recount predicate: the cell holds a same-team city tile. -/
def recountPred (cls : List ((Int × Int) × CityTile)) (team : Team)
    (r : Int × Int) : Bool :=
  match alGet cls r with
  | some t => t.team = team
  | none => false

/-- The invariant package tying the running adjacency counters, the tile
map, and the city registry together. -/
def CInv (inMap : Int × Int → Bool) (st : CState) : Prop :=
  (alKeys st.cellCT).Nodup ∧
  (alKeys st.cities).Nodup ∧
  (∀ q t, alGet st.cellCT q = some t → inMap q = true) ∧
  (∀ q t, alGet st.cellCT q = some t →
    t.adjacentCityTiles = recount inMap st.cellCT t.team q) ∧
  (∀ q t, alGet st.cellCT q = some t →
    ∃ c, alGet st.cities t.cityid = some c ∧ q ∈ c.citycells ∧ c.team = t.team) ∧
  (∀ id c, alGet st.cities id = some c → c.id = id ∧
    ∀ q ∈ c.citycells, ∃ t, alGet st.cellCT q = some t ∧ t.cityid = id ∧
      t.team = c.team) ∧
  (∀ q t q2 t2, alGet st.cellCT q = some t → alGet st.cellCT q2 = some t2 →
    q2 ∈ adjacentPositions inMap q → t.team = t2.team → t.cityid = t2.cityid) ∧
  (∀ id c, alGet st.cities id = some c →
    ∃ k, k ≤ st.globalCityIDCount ∧ id = cityIdOfCount k)

/-- States reachable from the city-free state by gameplay tile spawns (on
cells without a city tile, with generated ids) and city destructions. -/
inductive CReach (inMap : Int × Int → Bool) : CState → Prop where
  | init : CReach inMap ⟨[], [], 0⟩
  | spawn (st st' : CState) (team : Team) (pos : Int × Int)
      (hin : inMap pos = true) (hempty : alGet st.cellCT pos = none)
      (hre : CReach inMap st)
      (hs : spawnCityTile inMap st team pos none = some st') : CReach inMap st'
  | destroy (st st' : CState) (id : String) (hre : CReach inMap st)
      (hd : destroyCity st id = some st') : CReach inMap st'

theorem insertSorted_perm (key : α → ℚ) (x : α) (l : List α) :
    List.Perm (insertSorted key x l) (x :: l) := by
  induction l with
  | nil => simp [insertSorted]
  | cons y ys ih =>
    simp only [insertSorted]
    split
    · exact List.Perm.refl _
    · exact ((ih.cons y).trans (List.Perm.swap x y ys))

theorem stableSortByKey_perm (key : α → ℚ) (l : List α) :
    List.Perm (stableSortByKey key l) l := by
  induction l with
  | nil => simp [stableSortByKey]
  | cons x xs ih =>
    simpa [stableSortByKey] using ((insertSorted_perm key x _).trans (ih.cons x))

theorem insertSorted_sorted (key : α → ℚ) (x : α) (l : List α)
    (h : l.Pairwise (fun a b => key a ≤ key b)) :
    (insertSorted key x l).Pairwise (fun a b => key a ≤ key b) := by
  induction l with
  | nil => simp [insertSorted]
  | cons y ys ih =>
    rcases List.pairwise_cons.mp h with ⟨hy, hys⟩
    by_cases hxy : key x ≤ key y
    · simp only [insertSorted, if_pos hxy]
      refine List.pairwise_cons.mpr ⟨?_, h⟩
      intro b hb
      rcases List.mem_cons.mp hb with rfl | hb
      · exact hxy
      · exact le_trans hxy (hy _ hb)
    · simp only [insertSorted, if_neg hxy]
      refine List.pairwise_cons.mpr ⟨?_, ih hys⟩
      intro b hb
      rcases List.mem_cons.mp ((insertSorted_perm key x ys).mem_iff.mp hb) with rfl | hb
      · exact le_of_not_le hxy
      · exact hy _ hb

theorem stableSortByKey_sorted (key : α → ℚ) (l : List α) :
    (stableSortByKey key l).Pairwise (fun a b => key a ≤ key b) := by
  induction l with
  | nil => simp [stableSortByKey]
  | cons x xs ih => exact insertSorted_sorted key x _ ih

theorem goDistribute_credits (rate : ℚ) (ws : List RUnit) (pool d : ℚ)
    (acc : List (RUnit × ℚ)) :
    (goDistribute rate ws pool d acc).2.2 = acc ++ credList rate ws pool := by
  induction ws generalizing pool d acc with
  | nil => simp [goDistribute, credList]
  | cons w ws ih => simp [goDistribute, credList, ih]

theorem goDistribute_amount (rate : ℚ) (ws : List RUnit) (pool d : ℚ)
    (acc : List (RUnit × ℚ)) :
    (goDistribute rate ws pool d acc).2.1 =
      d + (pool - (goDistribute rate ws pool d acc).1) := by
  induction ws generalizing pool d acc with
  | nil => simp [goDistribute]
  | cons w ws ih =>
    simp only [goDistribute]
    rw [ih]
    ring

theorem credList_workers (rate : ℚ) (ws : List RUnit) (pool : ℚ) :
    (credList rate ws pool).map Prod.fst = ws := by
  induction ws generalizing pool with
  | nil => simp [credList]
  | cons w ws ih => simp [credList, ih]

theorem claimPools_cons (rate : ℚ) (s : ℚ) (ss : List ℚ) (p : ℚ) (i : ℕ) :
    claimPools rate (s :: ss) p (i + 1) =
      claimPools rate ss (p - claimEntitlement rate s p (ss.length + 1)) i := by
  induction i with
  | zero =>
    simp [claimPools, claimEntitlement]
  | succ i ih =>
    rw [claimPools, ih]
    conv_rhs => rw [claimPools]
    simp [Nat.succ_sub_succ]

/-- The floored credit handed to the `i`-th worker equals the claim's
indexed formula. -/
theorem credList_claim_formula (rate : ℚ) (ws : List RUnit) (pool : ℚ)
    (i : ℕ) (hi : i < ws.length) :
    ((credList rate ws pool).getD i default).2 =
      ((⌊claimEntitlement rate ((ws.map RUnit.getCargoSpaceLeft).getD i 0)
        (claimPools rate (ws.map RUnit.getCargoSpaceLeft) pool i)
        (ws.length - i)⌋ : ℤ) : ℚ) := by
  induction ws generalizing pool i with
  | nil => simp at hi
  | cons w ws ih =>
    have hmin : min (min w.getCargoSpaceLeft (pool / ((ws.length + 1 : ℕ) : ℚ))) rate
        = claimEntitlement rate w.getCargoSpaceLeft pool (ws.length + 1) := by
      simp only [claimEntitlement]
      rw [min_comm rate _, ← min_assoc]
    have hmap : (w :: ws).map RUnit.getCargoSpaceLeft =
        w.getCargoSpaceLeft :: ws.map RUnit.getCargoSpaceLeft := rfl
    cases i with
    | zero =>
      have e1 : ((credList rate (w :: ws) pool).getD 0 default).2 =
          ((⌊min (min w.getCargoSpaceLeft (pool / ((ws.length + 1 : ℕ) : ℚ)))
            rate⌋ : ℤ) : ℚ) := rfl
      rw [e1, hmin]
      simp [claimPools, claimEntitlement]
    | succ i =>
      have hi2 : i < ws.length := Nat.lt_of_succ_lt_succ hi
      have h1 : ((credList rate (w :: ws) pool).getD (i + 1) default).2 =
          ((credList rate ws (pool - min (min w.getCargoSpaceLeft
            (pool / ((ws.length + 1 : ℕ) : ℚ))) rate)).getD i default).2 := rfl
      rw [h1, ih _ _ hi2, hmin, hmap, claimPools_cons]
      simp [Nat.succ_sub_succ]

theorem goDistribute_pool (rate : ℚ) (ws : List RUnit) (pool d : ℚ)
    (acc : List (RUnit × ℚ)) :
    (goDistribute rate ws pool d acc).1 = poolAfter rate ws pool := by
  induction ws generalizing pool d acc with
  | nil => simp [goDistribute, poolAfter]
  | cons w ws ih => simp [goDistribute, poolAfter, ih]

/-- Induction workhorse for the conservation claim: with a non-negative rate,
pool and cargo spaces, the pool stays non-negative and only shrinks, the
floored credits sum to at most the un-floored total taken from the pool, and
each credit is bounded by the receiving worker's free space and by the
rate. -/
theorem credList_bounds (rate : ℚ) (hrate : 0 ≤ rate) :
    ∀ (ws : List RUnit) (pool : ℚ), 0 ≤ pool →
      (∀ u ∈ ws, 0 ≤ u.getCargoSpaceLeft) →
      0 ≤ poolAfter rate ws pool ∧ poolAfter rate ws pool ≤ pool ∧
      ((credList rate ws pool).map Prod.snd).sum ≤ pool - poolAfter rate ws pool ∧
      ∀ p ∈ credList rate ws pool, p.2 ≤ p.1.getCargoSpaceLeft ∧ p.2 ≤ rate := by
  intro ws
  induction ws with
  | nil =>
    intro pool hpool _
    simp [poolAfter, credList, hpool]
  | cons w ws ih =>
    intro pool hpool hsp
    have hw : 0 ≤ w.getCargoSpaceLeft := hsp w (List.mem_cons_self w ws)
    have hdiv : (0 : ℚ) ≤ pool / ((ws.length + 1 : ℕ) : ℚ) :=
      div_nonneg hpool (by positivity)
    set e := min (min w.getCargoSpaceLeft (pool / ((ws.length + 1 : ℕ) : ℚ))) rate with he
    have he0 : 0 ≤ e := le_min (le_min hw hdiv) hrate
    have hediv : e ≤ pool / ((ws.length + 1 : ℕ) : ℚ) :=
      le_trans (min_le_left _ _) (min_le_right _ _)
    have hepool : e ≤ pool := le_trans hediv (div_le_self hpool (by
      have : (1 : ℚ) ≤ ((ws.length + 1 : ℕ) : ℚ) := by exact_mod_cast Nat.succ_le_succ (Nat.zero_le _)
      exact this))
    have hrest : 0 ≤ pool - e := sub_nonneg.mpr hepool
    obtain ⟨h1, h2, h3, h4⟩ := ih (pool - e) hrest (fun u hu => hsp u (List.mem_cons_of_mem _ hu))
    have hfl : ((⌊e⌋ : ℤ) : ℚ) ≤ e := Int.floor_le e
    refine ⟨?_, ?_, ?_, ?_⟩
    · simpa [poolAfter, he] using h1
    · have : poolAfter rate ws (pool - e) ≤ pool - e := h2
      have := le_trans this (by linarith : pool - e ≤ pool)
      simpa [poolAfter, he] using this
    · have hsum : ((credList rate (w :: ws) pool).map Prod.snd).sum =
          ((⌊e⌋ : ℤ) : ℚ) + ((credList rate ws (pool - e)).map Prod.snd).sum := by
        simp [credList, he]
      rw [hsum]
      have : poolAfter rate (w :: ws) pool = poolAfter rate ws (pool - e) := by
        simp [poolAfter, he]
      rw [this]
      linarith
    · intro p hp
      have hmem : p = (w, ((⌊e⌋ : ℤ) : ℚ)) ∨ p ∈ credList rate ws (pool - e) := by
        simpa [credList, he] using hp
      rcases hmem with rfl | hp2
      · constructor
        · exact le_trans hfl (le_trans (min_le_left _ _) (min_le_left _ _))
        · exact le_trans hfl (min_le_right _ _)
      · exact h4 p hp2

/-- Normal form of `handleResourceRelease` in terms of the accumulator-free
loop functions. -/
theorem handleResourceRelease_eq (researched : Team → ResourceType → Bool)
    (rateOf : ResourceType → ℚ) (rtype : ResourceType) (amount : ℚ)
    (cells : List (List RUnit)) :
    handleResourceRelease researched rateOf rtype amount cells =
      { newAmount :=
          if amount - (min (rateOf rtype * ((eligibleWorkers researched rtype cells).length : ℚ)) amount -
              poolAfter (rateOf rtype)
                (stableSortByKey RUnit.getCargoSpaceLeft (eligibleWorkers researched rtype cells))
                (min (rateOf rtype * ((eligibleWorkers researched rtype cells).length : ℚ)) amount)) <
              1 / 10 ^ 10 then 0
          else amount - (min (rateOf rtype * ((eligibleWorkers researched rtype cells).length : ℚ)) amount -
              poolAfter (rateOf rtype)
                (stableSortByKey RUnit.getCargoSpaceLeft (eligibleWorkers researched rtype cells))
                (min (rateOf rtype * ((eligibleWorkers researched rtype cells).length : ℚ)) amount))
        credits := credList (rateOf rtype)
          (stableSortByKey RUnit.getCargoSpaceLeft (eligibleWorkers researched rtype cells))
          (min (rateOf rtype * ((eligibleWorkers researched rtype cells).length : ℚ)) amount)
        amountDistributed :=
          min (rateOf rtype * ((eligibleWorkers researched rtype cells).length : ℚ)) amount -
            poolAfter (rateOf rtype)
              (stableSortByKey RUnit.getCargoSpaceLeft (eligibleWorkers researched rtype cells))
              (min (rateOf rtype * ((eligibleWorkers researched rtype cells).length : ℚ)) amount) } := by
  simp only [handleResourceRelease, eligibleWorkers]
  rw [goDistribute_credits, goDistribute_amount, goDistribute_pool]
  simp

/-- C6: on a cell with 40 uranium, collection rate 2 and three eligible
workers with free cargo spaces [5, 100, 100], `handleResourceRelease`
credits each worker `floor(min(space, 2, pool/(remaining workers))) = 2`
uranium (6 in total) and leaves 34 on the node; and in general it sorts the
eligible workers ascending by free cargo space and credits the `i`-th of
the `n` sorted workers (0-indexed) with the floor of
`min(its free space, the rate, remaining pool / (n - i))`, subtracting the
un-floored entitlement from the pool at each step. -/
theorem handleResourceRelease_scenario_and_formula :
    ((handleResourceRelease
        (fun _ t => match t with | ResourceType.uranium => true | _ => false)
        (fun t => match t with | ResourceType.uranium => (2 : ℚ) | _ => 1)
        ResourceType.uranium 40
        [[], [⟨"u_1", Team.A, true, ⟨95, 0, 0⟩, 100⟩],
          [⟨"u_2", Team.A, true, ⟨0, 0, 0⟩, 100⟩],
          [⟨"u_3", Team.A, true, ⟨0, 0, 0⟩, 100⟩]]).credits =
      [(⟨"u_1", Team.A, true, ⟨95, 0, 0⟩, 100⟩, 2),
        (⟨"u_2", Team.A, true, ⟨0, 0, 0⟩, 100⟩, 2),
        (⟨"u_3", Team.A, true, ⟨0, 0, 0⟩, 100⟩, 2)] ∧
      (handleResourceRelease
        (fun _ t => match t with | ResourceType.uranium => true | _ => false)
        (fun t => match t with | ResourceType.uranium => (2 : ℚ) | _ => 1)
        ResourceType.uranium 40
        [[], [⟨"u_1", Team.A, true, ⟨95, 0, 0⟩, 100⟩],
          [⟨"u_2", Team.A, true, ⟨0, 0, 0⟩, 100⟩],
          [⟨"u_3", Team.A, true, ⟨0, 0, 0⟩, 100⟩]]).newAmount = 34) ∧
    ∀ (researched : Team → ResourceType → Bool) (rateOf : ResourceType → ℚ)
      (rtype : ResourceType) (amount : ℚ) (cells : List (List RUnit)),
      List.Perm (stableSortByKey RUnit.getCargoSpaceLeft (eligibleWorkers researched rtype cells))
        (eligibleWorkers researched rtype cells) ∧
      (stableSortByKey RUnit.getCargoSpaceLeft (eligibleWorkers researched rtype cells)).Pairwise
        (fun a b => a.getCargoSpaceLeft ≤ b.getCargoSpaceLeft) ∧
      (handleResourceRelease researched rateOf rtype amount cells).credits.map Prod.fst =
        stableSortByKey RUnit.getCargoSpaceLeft (eligibleWorkers researched rtype cells) ∧
      ∀ i, i < (stableSortByKey RUnit.getCargoSpaceLeft (eligibleWorkers researched rtype cells)).length →
        ((handleResourceRelease researched rateOf rtype amount cells).credits.getD i default).2 =
          ((⌊claimEntitlement (rateOf rtype)
            (((stableSortByKey RUnit.getCargoSpaceLeft (eligibleWorkers researched rtype cells)).map
              RUnit.getCargoSpaceLeft).getD i 0)
            (claimPools (rateOf rtype)
              ((stableSortByKey RUnit.getCargoSpaceLeft (eligibleWorkers researched rtype cells)).map
                RUnit.getCargoSpaceLeft)
              (min (rateOf rtype * ((eligibleWorkers researched rtype cells).length : ℚ)) amount) i)
            ((stableSortByKey RUnit.getCargoSpaceLeft (eligibleWorkers researched rtype cells)).length -
              i)⌋ : ℤ) : ℚ) := by
  constructor
  · constructor
    · rw [handleResourceRelease_eq]
      norm_num [eligibleWorkers, stableSortByKey, insertSorted, credList,
        RUnit.getCargoSpaceLeft, min_def]
    · rw [handleResourceRelease_eq]
      norm_num [eligibleWorkers, stableSortByKey, insertSorted, poolAfter,
        RUnit.getCargoSpaceLeft, min_def]
  · intro researched rateOf rtype amount cells
    refine ⟨stableSortByKey_perm _ _, stableSortByKey_sorted _ _, ?_, ?_⟩
    · rw [handleResourceRelease_eq]
      exact credList_workers _ _ _
    · intro i hi
      rw [handleResourceRelease_eq]
      exact credList_claim_formula _ _ _ i hi

/-- Witness for the universally quantified half of C6, applied at the
concrete 40-uranium scenario and worker index 0. -/
theorem handleResourceRelease_scenario_and_formula_witness :
    0 < (stableSortByKey RUnit.getCargoSpaceLeft (eligibleWorkers
        (fun _ t => match t with | ResourceType.uranium => true | _ => false)
        ResourceType.uranium
        [[], [⟨"u_1", Team.A, true, ⟨95, 0, 0⟩, 100⟩],
          [⟨"u_2", Team.A, true, ⟨0, 0, 0⟩, 100⟩],
          [⟨"u_3", Team.A, true, ⟨0, 0, 0⟩, 100⟩]])).length ∧
    ((handleResourceRelease
        (fun _ t => match t with | ResourceType.uranium => true | _ => false)
        (fun t => match t with | ResourceType.uranium => (2 : ℚ) | _ => 1)
        ResourceType.uranium 40
        [[], [⟨"u_1", Team.A, true, ⟨95, 0, 0⟩, 100⟩],
          [⟨"u_2", Team.A, true, ⟨0, 0, 0⟩, 100⟩],
          [⟨"u_3", Team.A, true, ⟨0, 0, 0⟩, 100⟩]]).credits.getD 0 default).2 =
      ((⌊claimEntitlement ((fun t => match t with | ResourceType.uranium => (2 : ℚ) | _ => 1)
          ResourceType.uranium)
        (((stableSortByKey RUnit.getCargoSpaceLeft (eligibleWorkers
            (fun _ t => match t with | ResourceType.uranium => true | _ => false)
            ResourceType.uranium
            [[], [⟨"u_1", Team.A, true, ⟨95, 0, 0⟩, 100⟩],
              [⟨"u_2", Team.A, true, ⟨0, 0, 0⟩, 100⟩],
              [⟨"u_3", Team.A, true, ⟨0, 0, 0⟩, 100⟩]])).map RUnit.getCargoSpaceLeft).getD 0 0)
        (claimPools ((fun t => match t with | ResourceType.uranium => (2 : ℚ) | _ => 1)
            ResourceType.uranium)
          ((stableSortByKey RUnit.getCargoSpaceLeft (eligibleWorkers
            (fun _ t => match t with | ResourceType.uranium => true | _ => false)
            ResourceType.uranium
            [[], [⟨"u_1", Team.A, true, ⟨95, 0, 0⟩, 100⟩],
              [⟨"u_2", Team.A, true, ⟨0, 0, 0⟩, 100⟩],
              [⟨"u_3", Team.A, true, ⟨0, 0, 0⟩, 100⟩]])).map RUnit.getCargoSpaceLeft)
          (min (((fun t => match t with | ResourceType.uranium => (2 : ℚ) | _ => 1)
              ResourceType.uranium) * ((eligibleWorkers
            (fun _ t => match t with | ResourceType.uranium => true | _ => false)
            ResourceType.uranium
            [[], [⟨"u_1", Team.A, true, ⟨95, 0, 0⟩, 100⟩],
              [⟨"u_2", Team.A, true, ⟨0, 0, 0⟩, 100⟩],
              [⟨"u_3", Team.A, true, ⟨0, 0, 0⟩, 100⟩]]).length : ℚ)) 40) 0)
        ((stableSortByKey RUnit.getCargoSpaceLeft (eligibleWorkers
            (fun _ t => match t with | ResourceType.uranium => true | _ => false)
            ResourceType.uranium
            [[], [⟨"u_1", Team.A, true, ⟨95, 0, 0⟩, 100⟩],
              [⟨"u_2", Team.A, true, ⟨0, 0, 0⟩, 100⟩],
              [⟨"u_3", Team.A, true, ⟨0, 0, 0⟩, 100⟩]])).length - 0)⌋ : ℤ) : ℚ) := by
  have hlen : 0 < (stableSortByKey RUnit.getCargoSpaceLeft (eligibleWorkers
      (fun _ t => match t with | ResourceType.uranium => true | _ => false)
      ResourceType.uranium
      [[], [⟨"u_1", Team.A, true, ⟨95, 0, 0⟩, 100⟩],
        [⟨"u_2", Team.A, true, ⟨0, 0, 0⟩, 100⟩],
        [⟨"u_3", Team.A, true, ⟨0, 0, 0⟩, 100⟩]])).length := by
    norm_num [stableSortByKey, eligibleWorkers, insertSorted, RUnit.getCargoSpaceLeft, min_def]
  exact ⟨hlen, (handleResourceRelease_scenario_and_formula.2
    (fun _ t => match t with | ResourceType.uranium => true | _ => false)
    (fun t => match t with | ResourceType.uranium => (2 : ℚ) | _ => 1)
    ResourceType.uranium 40
    [[], [⟨"u_1", Team.A, true, ⟨95, 0, 0⟩, 100⟩],
      [⟨"u_2", Team.A, true, ⟨0, 0, 0⟩, 100⟩],
      [⟨"u_3", Team.A, true, ⟨0, 0, 0⟩, 100⟩]]).2.2.2 0 hlen⟩

theorem runChecks_frameOK (g : VGame) (acc : VAcc)
    (checks : List (Bool × String)) (accept : VGame × VResult × VAcc)
    (haccept : FrameOK g acc accept) :
    FrameOK g acc (runChecks g acc checks accept) := by
  induction checks with
  | nil => exact haccept
  | cons c rest ih =>
    simp only [runChecks]
    split
    · exact ⟨rfl, fun _ _ => rfl⟩
    · exact ih

theorem frameOK_warn (g : VGame) (acc : VAcc) (m : String) :
    FrameOK g acc (g, VResult.warn m, acc) :=
  ⟨rfl, fun _ _ => rfl⟩

theorem frameOK_accept (g : VGame) (acc acc2 : VAcc) (a : VAction) :
    FrameOK g acc (g, VResult.action a, acc2) :=
  ⟨rfl, fun _ h => by cases h⟩

theorem frameOK_debug (g : VGame) (acc acc2 : VAcc) :
    FrameOK g acc (g, VResult.debug, acc2) :=
  ⟨rfl, fun _ h => by cases h⟩

theorem validatePillage_frameOK (g : VGame) (team : Team) (args : List String)
    (acc : VAcc) : FrameOK g acc (validatePillage g team args acc) := by
  simp only [validatePillage]
  repeat' first
    | exact frameOK_warn _ _ _
    | exact frameOK_accept _ _ _ _
    | apply runChecks_frameOK
    | split

theorem validateBuildCity_frameOK (g : VGame) (team : Team) (args : List String)
    (acc : VAcc) : FrameOK g acc (validateBuildCity g team args acc) := by
  simp only [validateBuildCity]
  repeat' first
    | exact frameOK_warn _ _ _
    | exact frameOK_accept _ _ _ _
    | apply runChecks_frameOK
    | split

theorem validateBuildUnit_frameOK (g : VGame) (team : Team) (action : String)
    (args : List String) (acc : VAcc) :
    FrameOK g acc (validateBuildUnit g team action args acc) := by
  simp only [validateBuildUnit]
  repeat' first
    | exact frameOK_warn _ _ _
    | exact frameOK_accept _ _ _ _
    | apply runChecks_frameOK
    | split

theorem validateMove_frameOK (g : VGame) (team : Team) (args : List String)
    (acc : VAcc) : FrameOK g acc (validateMove g team args acc) := by
  simp only [validateMove]
  repeat' first
    | exact frameOK_warn _ _ _
    | exact frameOK_accept _ _ _ _
    | apply runChecks_frameOK
    | split

theorem validateResearch_frameOK (g : VGame) (team : Team) (args : List String)
    (acc : VAcc) : FrameOK g acc (validateResearch g team args acc) := by
  simp only [validateResearch]
  repeat' first
    | exact frameOK_warn _ _ _
    | exact frameOK_accept _ _ _ _
    | apply runChecks_frameOK
    | split

theorem validateTransfer_frameOK (g : VGame) (team : Team) (args : List String)
    (acc : VAcc) : FrameOK g acc (validateTransfer g team args acc) := by
  simp only [validateTransfer]
  repeat' first
    | exact frameOK_warn _ _ _
    | exact frameOK_accept _ _ _ _
    | apply runChecks_frameOK
    | split

theorem validateParsed_frameOK (g : VGame) (team : Team) (action : String)
    (args : List String) (acc : VAcc) :
    FrameOK g acc (validateParsed g team action args acc) := by
  simp only [validateParsed]
  repeat' first
    | exact frameOK_warn _ _ _
    | exact frameOK_debug _ _ _
    | exact validatePillage_frameOK _ _ _ _
    | exact validateBuildCity_frameOK _ _ _ _
    | exact validateBuildUnit_frameOK _ _ _ _ _
    | exact validateMove_frameOK _ _ _ _
    | exact validateResearch_frameOK _ _ _ _
    | exact validateTransfer_frameOK _ _ _ _
    | split

/-- C8: `validateCommand` mutates nothing except the per-team accumulator —
the game state (map, resource cells, units, cities, team states, stats, id
counters, turn) is returned unchanged for every raw command, and when the
command is rejected (a `MatchWarn` diagnostic is thrown) the accumulator is
returned exactly as it was. -/
theorem validateCommand_no_mutation (g : VGame) (cmd : VCommand) (acc : VAcc) :
    (validateCommand g cmd acc).1 = g ∧
    ∀ msg, (validateCommand g cmd acc).2.1 = VResult.warn msg →
      (validateCommand g cmd acc).2.2 = acc := by
  unfold validateCommand
  cases jsSplitSpaces cmd.command with
  | nil => exact ⟨rfl, fun _ _ => rfl⟩
  | cons a as => exact validateParsed_frameOK g cmd.agentID a as acc

/-- Witness for C8 at a concrete game state, an unknown-verb command (which
is rejected) and the initial accumulator. -/
theorem validateCommand_no_mutation_witness :
    (validateCommand
      ⟨⟨fun _ => true, fun _ => ⟨none, false⟩⟩,
        ⟨0, [], true, false, false⟩, ⟨0, [], true, false, false⟩, [],
        ⟨0, ⟨0, 0, 0⟩, 0, 0, 0, 0, 0⟩, ⟨0, ⟨0, 0, 0⟩, 0, 0, 0, 0, 0⟩, 0, 0, 0, 100⟩
      ⟨Team.A, "zzz"⟩ genInitialAcc).1 =
      ⟨⟨fun _ => true, fun _ => ⟨none, false⟩⟩,
        ⟨0, [], true, false, false⟩, ⟨0, [], true, false, false⟩, [],
        ⟨0, ⟨0, 0, 0⟩, 0, 0, 0, 0, 0⟩, ⟨0, ⟨0, 0, 0⟩, 0, 0, 0, 0, 0⟩, 0, 0, 0, 100⟩ ∧
    (validateCommand
      ⟨⟨fun _ => true, fun _ => ⟨none, false⟩⟩,
        ⟨0, [], true, false, false⟩, ⟨0, [], true, false, false⟩, [],
        ⟨0, ⟨0, 0, 0⟩, 0, 0, 0, 0, 0⟩, ⟨0, ⟨0, 0, 0⟩, 0, 0, 0, 0, 0⟩, 0, 0, 0, 100⟩
      ⟨Team.A, "zzz"⟩ genInitialAcc).2.2 = genInitialAcc :=
  ⟨(validateCommand_no_mutation _ _ _).1,
    (validateCommand_no_mutation _ _ _).2 "malformed command" (by decide)⟩

/-- C9: every command whose verb token is one of the debug-annotation verbs
(`dc`, `dx`, `dl`, `dt`, `dst`) is accepted unconditionally by
`validateCommand` — no check is performed on the remaining tokens, no
diagnostic can be thrown, no `Action` object is produced (the `null`
return), and the accumulator is not touched. -/
theorem validateCommand_debug_bypass (g : VGame) (cmd : VCommand) (acc : VAcc)
    (v : String) (rest : List String)
    (hsplit : jsSplitSpaces cmd.command = v :: rest)
    (hv : v ∈ ["dc", "dx", "dl", "dt", "dst"]) :
    validateCommand g cmd acc = (g, VResult.debug, acc) := by
  unfold validateCommand
  rw [hsplit]
  fin_cases hv <;> simp [validateParsed]

/-- Witness for C9: a `dst` command with arbitrary extra tokens (which would
be malformed for any validated verb) is accepted with no action and an
untouched accumulator. -/
theorem validateCommand_debug_bypass_witness :
    validateCommand
      ⟨⟨fun _ => true, fun _ => ⟨none, false⟩⟩,
        ⟨0, [], true, false, false⟩, ⟨0, [], true, false, false⟩, [],
        ⟨0, ⟨0, 0, 0⟩, 0, 0, 0, 0, 0⟩, ⟨0, ⟨0, 0, 0⟩, 0, 0, 0, 0, 0⟩, 0, 0, 0, 100⟩
      ⟨Team.B, "dst hello world"⟩ genInitialAcc =
      (⟨⟨fun _ => true, fun _ => ⟨none, false⟩⟩,
        ⟨0, [], true, false, false⟩, ⟨0, [], true, false, false⟩, [],
        ⟨0, ⟨0, 0, 0⟩, 0, 0, 0, 0, 0⟩, ⟨0, ⟨0, 0, 0⟩, 0, 0, 0, 0, 0⟩, 0, 0, 0, 100⟩,
        VResult.debug, genInitialAcc) :=
  validateCommand_debug_bypass _ _ _ "dst" ["hello", "world"] (by decide) (by decide)

theorem workerUnitCapReached_eq (g : VGame) (team : Team) (off : ℕ) :
    workerUnitCapReached g team off =
      decide (teamCityTileCount g team ≤ (g.teamState team).units.length + off) := rfl

theorem cartUnitCapReached_eq (g : VGame) (team : Team) (off : ℕ) :
    cartUnitCapReached g team off =
      decide (teamCityTileCount g team ≤ (g.teamState team).units.length + off) := rfl

/-- Reduction of the build-unit branch once every non-cap check passes: the
outcome is decided by the per-type cap predicate alone, and acceptance bumps
only that type's pending counter. -/
theorem validateBuildUnit_reduces (g : VGame) (team : Team) (action : String)
    (xs ys : String) (acc : VAcc) (x y : Int) (citytile : VCityTile)
    (hx : jsParseInt xs = some x) (hy : jsParseInt ys = some y)
    (hin : g.map.inMap (x, y) = true)
    (hct : (g.map.cellAt (x, y)).citytile = some citytile)
    (hcteam : citytile.team = team)
    (hplaced : (acc.get team).actionsPlaced.contains citytile.tileId = false)
    (hbuild : citytile.canBuildUnit = true) :
    validateBuildUnit g team action [xs, ys] acc =
      if (if action = "bc" then cartUnitCapReached g team (acc.get team).cartsBuilt
          else workerUnitCapReached g team (acc.get team).workersBuilt) then
        (g, VResult.warn (if action = "bc" then "cart unit cap reached"
          else "worker unit cap reached"), acc)
      else if action = "bc" then
        (g, VResult.action (VAction.spawnCart team x y),
          acc.setTeam team { (acc.get team).addPlaced citytile.tileId with
            cartsBuilt := (acc.get team).cartsBuilt + 1 })
      else
        (g, VResult.action (VAction.spawnWorker team x y),
          acc.setTeam team { (acc.get team).addPlaced citytile.tileId with
            workersBuilt := (acc.get team).workersBuilt + 1 }) := by
  simp only [validateBuildUnit, List.getD_cons_zero, List.getD_cons_succ,
    List.length_cons, List.length_nil]
  rw [hx, hy]
  simp only [hin, Bool.not_true, Bool.false_eq_true, if_false, hct, runChecks,
    hcteam, ne_eq, decide_not, hplaced, hbuild, Bool.not_false, decide_True,
    Bool.not_true, Bool.false_eq_true, if_false, if_true, not_true,
    reduceCtorEq]
  simp

/-- The build-worker instance of the reduction. -/
theorem validateBuildUnit_reduces_bw (g : VGame) (team : Team)
    (xs ys : String) (acc : VAcc) (x y : Int) (citytile : VCityTile)
    (hx : jsParseInt xs = some x) (hy : jsParseInt ys = some y)
    (hin : g.map.inMap (x, y) = true)
    (hct : (g.map.cellAt (x, y)).citytile = some citytile)
    (hcteam : citytile.team = team)
    (hplaced : (acc.get team).actionsPlaced.contains citytile.tileId = false)
    (hbuild : citytile.canBuildUnit = true) :
    validateBuildUnit g team "bw" [xs, ys] acc =
      if workerUnitCapReached g team (acc.get team).workersBuilt then
        (g, VResult.warn "worker unit cap reached", acc)
      else
        (g, VResult.action (VAction.spawnWorker team x y),
          acc.setTeam team { (acc.get team).addPlaced citytile.tileId with
            workersBuilt := (acc.get team).workersBuilt + 1 }) :=
  (validateBuildUnit_reduces g team "bw" xs ys acc x y citytile
    hx hy hin hct hcteam hplaced hbuild).trans (by rfl)

/-- The build-cart instance of the reduction. -/
theorem validateBuildUnit_reduces_bc (g : VGame) (team : Team)
    (xs ys : String) (acc : VAcc) (x y : Int) (citytile : VCityTile)
    (hx : jsParseInt xs = some x) (hy : jsParseInt ys = some y)
    (hin : g.map.inMap (x, y) = true)
    (hct : (g.map.cellAt (x, y)).citytile = some citytile)
    (hcteam : citytile.team = team)
    (hplaced : (acc.get team).actionsPlaced.contains citytile.tileId = false)
    (hbuild : citytile.canBuildUnit = true) :
    validateBuildUnit g team "bc" [xs, ys] acc =
      if cartUnitCapReached g team (acc.get team).cartsBuilt then
        (g, VResult.warn "cart unit cap reached", acc)
      else
        (g, VResult.action (VAction.spawnCart team x y),
          acc.setTeam team { (acc.get team).addPlaced citytile.tileId with
            cartsBuilt := (acc.get team).cartsBuilt + 1 }) :=
  (validateBuildUnit_reduces g team "bc" xs ys acc x y citytile
    hx hy hin hct hcteam hplaced hbuild).trans (by rfl)

/-- C1 (amended): the two cap predicates compute the same bound — live
units plus offset at least the team's total owned city-tile count — but
`validateCommand` feeds each build verb only its own per-type pending
counter.  A `bw` command that passes every other check is rejected iff
live + pending *workers* ≥ city tiles, and a `bc` command iff
live + pending *carts* ≥ city tiles; on acceptance only that type's
pending counter (plus the tile's exclusivity entry) is updated, so the
combined pending total of both types can exceed the cap. -/
theorem validate_build_cap_per_type (g : VGame) (team : Team) (acc : VAcc)
    (cmd : VCommand) (a0 xs ys : String) (x y : Int) (citytile : VCityTile)
    (hsplit : jsSplitSpaces cmd.command = [a0, xs, ys])
    (hteamid : cmd.agentID = team)
    (hx : jsParseInt xs = some x) (hy : jsParseInt ys = some y)
    (hin : g.map.inMap (x, y) = true)
    (hct : (g.map.cellAt (x, y)).citytile = some citytile)
    (hcteam : citytile.team = team)
    (hplaced : (acc.get team).actionsPlaced.contains citytile.tileId = false)
    (hbuild : citytile.canBuildUnit = true) :
    (a0 = "bw" →
      ((validateCommand g cmd acc).2.1 = VResult.warn "worker unit cap reached" ↔
        teamCityTileCount g team ≤
          (g.teamState team).units.length + (acc.get team).workersBuilt) ∧
      ((g.teamState team).units.length + (acc.get team).workersBuilt <
          teamCityTileCount g team →
        (validateCommand g cmd acc).2.1 = VResult.action (VAction.spawnWorker team x y) ∧
        (validateCommand g cmd acc).2.2 = acc.setTeam team
          { (acc.get team).addPlaced citytile.tileId with
            workersBuilt := (acc.get team).workersBuilt + 1 })) ∧
    (a0 = "bc" →
      ((validateCommand g cmd acc).2.1 = VResult.warn "cart unit cap reached" ↔
        teamCityTileCount g team ≤
          (g.teamState team).units.length + (acc.get team).cartsBuilt) ∧
      ((g.teamState team).units.length + (acc.get team).cartsBuilt <
          teamCityTileCount g team →
        (validateCommand g cmd acc).2.1 = VResult.action (VAction.spawnCart team x y) ∧
        (validateCommand g cmd acc).2.2 = acc.setTeam team
          { (acc.get team).addPlaced citytile.tileId with
            cartsBuilt := (acc.get team).cartsBuilt + 1 })) := by
  constructor
  · intro ha
    subst ha
    subst hteamid
    have hred : validateCommand g cmd acc =
        validateBuildUnit g cmd.agentID "bw" [xs, ys] acc := by
      unfold validateCommand
      rw [hsplit]
      rfl
    rw [hred, validateBuildUnit_reduces_bw g cmd.agentID xs ys acc x y citytile
      hx hy hin hct hcteam hplaced hbuild]
    rw [workerUnitCapReached_eq]
    by_cases hcap : teamCityTileCount g cmd.agentID ≤
        (g.teamState cmd.agentID).units.length + (acc.get cmd.agentID).workersBuilt
    · rw [if_pos (decide_eq_true hcap)]
      exact ⟨iff_of_true rfl hcap, fun hlt => absurd hcap (by omega)⟩
    · rw [if_neg (by simpa using hcap)]
      exact ⟨iff_of_false (by simp) hcap, fun _ => ⟨rfl, rfl⟩⟩
  · intro ha
    subst ha
    subst hteamid
    have hred : validateCommand g cmd acc =
        validateBuildUnit g cmd.agentID "bc" [xs, ys] acc := by
      unfold validateCommand
      rw [hsplit]
      rfl
    rw [hred, validateBuildUnit_reduces_bc g cmd.agentID xs ys acc x y citytile
      hx hy hin hct hcteam hplaced hbuild]
    rw [cartUnitCapReached_eq]
    by_cases hcap : teamCityTileCount g cmd.agentID ≤
        (g.teamState cmd.agentID).units.length + (acc.get cmd.agentID).cartsBuilt
    · rw [if_pos (decide_eq_true hcap)]
      exact ⟨iff_of_true rfl hcap, fun hlt => absurd hcap (by omega)⟩
    · rw [if_neg (by simpa using hcap)]
      exact ⟨iff_of_false (by simp) hcap, fun _ => ⟨rfl, rfl⟩⟩

/-- Counterexample to C1 as stated: with 2 owned city tiles and 1 live
unit, `bw 0 0` is accepted (pending builds become 1, so live + all pending
builds = 2 ≥ 2), and the subsequent `bc 1 0` is *also* accepted — the cart
build only checks the cart pending count, so the claimed shared-pool
rejection does not happen, and live + total accepted pending builds reaches
3 > 2. -/
theorem validate_build_cap_counterexample :
    (validateCommand c1Game ⟨Team.A, "bw 0 0"⟩ genInitialAcc).2.1 =
      VResult.action (VAction.spawnWorker Team.A 0 0) ∧
    teamCityTileCount c1Game Team.A = 2 ∧
    (c1Game.teamState Team.A).units.length = 1 ∧
    (c1AccAfterWorker.get Team.A).workersBuilt +
      (c1AccAfterWorker.get Team.A).cartsBuilt = 1 ∧
    (validateCommand c1Game ⟨Team.A, "bc 1 0"⟩ c1AccAfterWorker).2.1 =
      VResult.action (VAction.spawnCart Team.A 1 0) := by
  refine ⟨?_, ?_, ?_, ?_, ?_⟩ <;> decide

/-- Witness for the amended C1 at the concrete two-tile state: the worker
cap is not reached (1 + 0 < 2), the command is accepted, and only the
worker pending counter is bumped. -/
theorem validate_build_cap_per_type_witness :
    ((validateCommand c1Game ⟨Team.A, "bw 0 0"⟩ genInitialAcc).2.1 =
        VResult.warn "worker unit cap reached" ↔
      teamCityTileCount c1Game Team.A ≤
        (c1Game.teamState Team.A).units.length +
          (genInitialAcc.get Team.A).workersBuilt) ∧
    ((c1Game.teamState Team.A).units.length +
        (genInitialAcc.get Team.A).workersBuilt < teamCityTileCount c1Game Team.A →
      (validateCommand c1Game ⟨Team.A, "bw 0 0"⟩ genInitialAcc).2.1 =
        VResult.action (VAction.spawnWorker Team.A 0 0) ∧
      (validateCommand c1Game ⟨Team.A, "bw 0 0"⟩ genInitialAcc).2.2 =
        genInitialAcc.setTeam Team.A
          { (genInitialAcc.get Team.A).addPlaced "ct_0_0" with
            workersBuilt := (genInitialAcc.get Team.A).workersBuilt + 1 }) :=
  (validate_build_cap_per_type c1Game Team.A genInitialAcc ⟨Team.A, "bw 0 0"⟩
    "bw" "0" "0" 0 0 ⟨Team.A, "c_1", 0, true, true, "ct_0_0"⟩
    (by decide) rfl (by decide) (by decide) (by decide) (by decide)
    (by decide) (by decide) (by decide)).1 rfl

theorem amGet_eq_some_mem {m : AMap} {c : Int × Int} {v : List MAction}
    (h : amGet m c = some v) : (c, v) ∈ m := by
  unfold amGet at h
  rcases hf : m.find? (fun p => decide (p.1 = c)) with _ | p
  · rw [hf] at h
    cases h
  · rw [hf] at h
    cases h
    have hm := List.mem_of_find?_eq_some hf
    have hp := List.find?_some hf
    simp only [decide_eq_true_eq] at hp
    rw [← hp]
    simpa using hm

theorem amGet_none_iff {m : AMap} {c : Int × Int} :
    amGet m c = none ↔ c ∉ amKeys m := by
  induction m with
  | nil => simp [amGet, amKeys]
  | cons p rest ih =>
    by_cases hp : p.1 = c
    · subst hp
      rw [show amGet (p :: rest) p.1 = some p.2 from by
        unfold amGet
        rw [List.find?_cons_of_pos _ (by simp)]]
      simp [amKeys]
    · rw [show amGet (p :: rest) c = amGet rest c from by
        unfold amGet
        rw [List.find?_cons_of_neg _ (by simp [hp])]]
      have hcp : ¬ c = p.1 := fun hh => hp hh.symm
      simp [amKeys, ih, hcp]

theorem amGet_mem_keys {m : AMap} {c : Int × Int} {v : List MAction}
    (h : amGet m c = some v) : c ∈ amKeys m := by
  by_contra hc
  rw [← amGet_none_iff] at hc
  rw [h] at hc
  cases hc

theorem amKeys_nodup_get {m : AMap} (hnd : (amKeys m).Nodup)
    {p : (Int × Int) × List MAction} (hp : p ∈ m) : amGet m p.1 = some p.2 := by
  induction m with
  | nil => cases hp
  | cons q rest ih =>
    rcases List.mem_cons.mp hp with rfl | hp2
    · unfold amGet
      rw [List.find?_cons_of_pos _ (by simp)]
    · have hnd2 : (amKeys rest).Nodup := (List.nodup_cons.mp hnd).2
      have hq1 : ¬ q.1 = p.1 := by
        intro hcontra
        have hmem : p.1 ∈ amKeys rest := List.mem_map_of_mem (fun r => r.1) hp2
        rw [← hcontra] at hmem
        exact (List.nodup_cons.mp hnd).1 hmem
      rw [show amGet (q :: rest) p.1 = amGet rest p.1 from by
        unfold amGet
        rw [List.find?_cons_of_neg _ (by simp [hq1])]]
      exact ih hnd2 hp2

theorem amGet_amSet_self (m : AMap) (c : Int × Int) (v : List MAction) :
    amGet (amSet m c v) c = some v := by
  induction m with
  | nil =>
    unfold amSet amGet
    rw [List.find?_cons_of_pos _ (by simp)]
  | cons p rest ih =>
    by_cases hp : p.1 = c
    · simp only [amSet, if_pos hp]
      unfold amGet
      rw [List.find?_cons_of_pos _ (by simp)]
    · simp only [amSet, if_neg hp]
      rw [show amGet (p :: amSet rest c v) c = amGet (amSet rest c v) c from by
        unfold amGet
        rw [List.find?_cons_of_neg _ (by simp [hp])]]
      exact ih

theorem amGet_amSet_other (m : AMap) (c c2 : Int × Int) (v : List MAction)
    (h : ¬ c2 = c) : amGet (amSet m c v) c2 = amGet m c2 := by
  have hcc : ¬ (c = c2) := fun hh => h hh.symm
  induction m with
  | nil =>
    unfold amSet amGet
    rw [List.find?_cons_of_neg _ (by simp [hcc])]
  | cons p rest ih =>
    by_cases hp : p.1 = c
    · simp only [amSet, if_pos hp]
      have hpc2 : ¬ (p.1 = c2) := by rw [hp]; exact hcc
      rw [show amGet ((c, v) :: rest) c2 = amGet rest c2 from by
        unfold amGet
        rw [List.find?_cons_of_neg _ (by simp [hcc])]]
      rw [show amGet (p :: rest) c2 = amGet rest c2 from by
        unfold amGet
        rw [List.find?_cons_of_neg _ (by simp [hpc2])]]
    · simp only [amSet, if_neg hp]
      by_cases hp2 : p.1 = c2
      · rw [show amGet (p :: amSet rest c v) c2 = some p.2 from by
          unfold amGet
          rw [List.find?_cons_of_pos _ (by simp [hp2])]]
        rw [show amGet (p :: rest) c2 = some p.2 from by
          unfold amGet
          rw [List.find?_cons_of_pos _ (by simp [hp2])]]
      · rw [show amGet (p :: amSet rest c v) c2 = amGet (amSet rest c v) c2 from by
          unfold amGet
          rw [List.find?_cons_of_neg _ (by simp [hp2])]]
        rw [show amGet (p :: rest) c2 = amGet rest c2 from by
          unfold amGet
          rw [List.find?_cons_of_neg _ (by simp [hp2])]]
        exact ih

theorem amKeys_amSet (m : AMap) (c : Int × Int) (v : List MAction) :
    amKeys (amSet m c v) = if c ∈ amKeys m then amKeys m else amKeys m ++ [c] := by
  induction m with
  | nil => simp [amSet, amKeys]
  | cons p rest ih =>
    by_cases hp : p.1 = c
    · subst hp
      simp [amSet, amKeys]
    · have hcp : ¬ c = p.1 := fun hh => hp hh.symm
      simp only [amSet, if_neg hp, amKeys, List.map_cons, List.mem_cons, hcp,
        false_or]
      rw [show List.map (fun p => p.1) (amSet rest c v) = amKeys (amSet rest c v)
        from rfl]
      rw [ih]
      rw [show List.map (fun p => p.1) rest = amKeys rest from rfl]
      split <;> simp

theorem buildMap_eq_foldl (actions : List MAction) :
    buildMap actions = actions.foldl buildStep [] := rfl

theorem foldl_buildStep_get (as : List MAction) (m : AMap) (c : Int × Int) :
    amGet (as.foldl buildStep m) c =
      if origActs as c = [] then amGet m c
      else some ((amGet m c).getD [] ++ origActs as c) := by
  induction as generalizing m with
  | nil => simp [origActs]
  | cons a as ih =>
    rw [List.foldl_cons, ih]
    have hstep : amGet (buildStep m a) a.newcell =
        some ((amGet m a.newcell).getD [] ++ [a]) := by
      unfold buildStep
      rcases hg : amGet m a.newcell with _ | l0
      · simp [amGet_amSet_self]
      · simp [amGet_amSet_self]
    by_cases hc : a.newcell = c
    · subst hc
      have horig : origActs (a :: as) a.newcell = a :: origActs as a.newcell := by
        simp [origActs]
      rw [horig, hstep]
      by_cases has : origActs as a.newcell = []
      · simp [has]
      · simp only [has, if_false, Option.getD_some]
        rw [if_neg (by simp)]
        simp
    · have horig : origActs (a :: as) c = origActs as c := by
        simp [origActs, hc]
      have hother : amGet (buildStep m a) c = amGet m c := by
        unfold buildStep
        have hcc : ¬ c = a.newcell := fun hh => hc hh.symm
        rcases amGet m a.newcell with _ | l0
        · exact amGet_amSet_other m a.newcell c [a] hcc
        · exact amGet_amSet_other m a.newcell c (l0 ++ [a]) hcc
      rw [horig, hother]

theorem buildMap_get (actions : List MAction) (c : Int × Int) :
    amGet (buildMap actions) c =
      if origActs actions c = [] then none else some (origActs actions c) := by
  rw [buildMap_eq_foldl, foldl_buildStep_get]
  rcases h : origActs actions c with _ | ⟨a, l⟩ <;> simp [amGet, List.find?]

theorem buildStep_keys_nodup {m : AMap} (h : (amKeys m).Nodup) (a : MAction) :
    (amKeys (buildStep m a)).Nodup := by
  have key : ∀ v, (amKeys (amSet m a.newcell v)).Nodup := by
    intro v
    rw [amKeys_amSet]
    by_cases hmem : a.newcell ∈ amKeys m
    · rw [if_pos hmem]
      exact h
    · rw [if_neg hmem]
      rw [List.nodup_append]
      refine ⟨h, List.nodup_singleton _, fun x hx hx2 => ?_⟩
      simp only [List.mem_singleton] at hx2
      exact hmem (hx2 ▸ hx)
  unfold buildStep
  rcases amGet m a.newcell with _ | l0 <;> apply key

theorem buildStep_length_le (m : AMap) (a : MAction) :
    (buildStep m a).length ≤ m.length + 1 := by
  have hkeys : ∀ v, (amSet m a.newcell v).length ≤ m.length + 1 := by
    intro v
    have := amKeys_amSet m a.newcell v
    have hlen : (amKeys (amSet m a.newcell v)).length =
        (amSet m a.newcell v).length := by simp [amKeys]
    have hlen2 : (amKeys m).length = m.length := by simp [amKeys]
    rw [this] at hlen
    split at hlen
    · omega
    · simp only [List.length_append, List.length_cons, List.length_nil] at hlen
      omega
  unfold buildStep
  rcases amGet m a.newcell with _ | l0 <;> apply hkeys

theorem buildMap_keys_nodup (actions : List MAction) :
    (amKeys (buildMap actions)).Nodup := by
  rw [buildMap_eq_foldl]
  have : ∀ (as : List MAction) (m : AMap), (amKeys m).Nodup →
      (amKeys (as.foldl buildStep m)).Nodup := by
    intro as
    induction as with
    | nil => intro m h; exact h
    | cons a as ih => intro m h; exact ih _ (buildStep_keys_nodup h a)
  exact this actions [] (by simp [amKeys])

theorem buildMap_length_le (actions : List MAction) :
    (buildMap actions).length ≤ actions.length := by
  rw [buildMap_eq_foldl]
  have : ∀ (as : List MAction) (m : AMap),
      (as.foldl buildStep m).length ≤ m.length + as.length := by
    intro as
    induction as with
    | nil => simp
    | cons a as ih =>
      intro m
      calc ((a :: as).foldl buildStep m).length = (as.foldl buildStep (buildStep m a)).length := rfl
        _ ≤ (buildStep m a).length + as.length := ih _
        _ ≤ m.length + 1 + as.length := by
            have := buildStep_length_le m a
            omega
        _ = m.length + (a :: as).length := by simp [List.length_cons]; omega
  have h := this actions []
  simpa using h

/-! `removeKeys` lemmas. -/
theorem removeKeys_nil (m : AMap) : removeKeys m [] = m := by
  unfold removeKeys
  simp

theorem amDelete_removeKeys (m : AMap) (D : List (Int × Int)) (c : Int × Int) :
    amDelete (removeKeys m D) c = removeKeys m (c :: D) := by
  unfold amDelete removeKeys
  rw [List.filter_filter]
  apply List.filter_congr
  intro p _
  by_cases h1 : p.1 = c <;> by_cases h2 : p.1 ∈ D <;> simp [h1, h2]

theorem mem_keys_removeKeys {m : AMap} {D : List (Int × Int)} {c : Int × Int} :
    c ∈ amKeys (removeKeys m D) ↔ c ∈ amKeys m ∧ c ∉ D := by
  simp only [amKeys, removeKeys, List.mem_map, List.mem_filter]
  constructor
  · rintro ⟨p, ⟨hp, hpd⟩, rfl⟩
    simp only [decide_eq_true_eq] at hpd
    exact ⟨⟨p, hp, rfl⟩, hpd⟩
  · rintro ⟨⟨p, hp, rfl⟩, hd⟩
    exact ⟨p, ⟨hp, by simpa using hd⟩, rfl⟩

theorem amGet_removeKeys (m : AMap) (D : List (Int × Int)) (c : Int × Int) :
    amGet (removeKeys m D) c = if c ∈ D then none else amGet m c := by
  by_cases hcD : c ∈ D
  · rw [if_pos hcD]
    rw [amGet_none_iff, mem_keys_removeKeys]
    intro ⟨_, h2⟩
    exact h2 hcD
  · rw [if_neg hcD]
    induction m with
    | nil => simp [removeKeys]
    | cons p rest ih =>
      by_cases hpD : p.1 ∈ D
      · have hpc : ¬ p.1 = c := fun hh => hcD (hh ▸ hpD)
        rw [show removeKeys (p :: rest) D = removeKeys rest D from by
          unfold removeKeys
          rw [List.filter_cons_of_neg (by simpa using hpD)]]
        rw [ih]
        rw [show amGet (p :: rest) c = amGet rest c from by
          unfold amGet
          rw [List.find?_cons_of_neg _ (by simp [hpc])]]
      · rw [show removeKeys (p :: rest) D = p :: removeKeys rest D from by
          unfold removeKeys
          rw [List.filter_cons_of_pos (by simpa using hpD)]]
        by_cases hpc : p.1 = c
        · rw [show amGet (p :: removeKeys rest D) c = some p.2 from by
            unfold amGet
            rw [List.find?_cons_of_pos _ (by simp [hpc])]]
          rw [show amGet (p :: rest) c = some p.2 from by
            unfold amGet
            rw [List.find?_cons_of_pos _ (by simp [hpc])]]
        · rw [show amGet (p :: removeKeys rest D) c = amGet (removeKeys rest D) c from by
            unfold amGet
            rw [List.find?_cons_of_neg _ (by simp [hpc])]]
          rw [show amGet (p :: rest) c = amGet rest c from by
            unfold amGet
            rw [List.find?_cons_of_neg _ (by simp [hpc])]]
          exact ih

theorem removeKeys_length_le (m : AMap) (D : List (Int × Int)) :
    (removeKeys m D).length ≤ m.length :=
  List.length_filter_le _ m

theorem removeKeys_cons_length_lt {m : AMap} {D : List (Int × Int)}
    {c : Int × Int} (h : c ∈ amKeys (removeKeys m D)) :
    (removeKeys m (c :: D)).length < (removeKeys m D).length := by
  rw [← amDelete_removeKeys]
  unfold amDelete
  rcases List.mem_map.mp h with ⟨p, hp, rfl⟩
  calc ((removeKeys m D).filter (fun q => ¬ q.1 = p.1)).length
      < (removeKeys m D).length := by
        apply List.length_filter_lt_length_iff_exists.mpr
        exact ⟨p, hp, by simp⟩

theorem removeKeys_length_mono (m : AMap) {D D2 : List (Int × Int)}
    (h : ∀ c ∈ D, c ∈ D2) :
    (removeKeys m D2).length ≤ (removeKeys m D).length := by
  unfold removeKeys
  induction m with
  | nil => simp
  | cons p rest ih =>
    by_cases h2 : p.1 ∈ D2
    · rw [List.filter_cons_of_neg (by simpa using h2)]
      by_cases h1 : p.1 ∈ D
      · rw [List.filter_cons_of_neg (by simpa using h1)]
        exact ih
      · rw [List.filter_cons_of_pos (by simpa using h1)]
        exact le_trans ih (Nat.le_succ _)
    · have h1 : p.1 ∉ D := fun hh => h2 (h _ hh)
      rw [List.filter_cons_of_pos (by simpa using h2),
        List.filter_cons_of_pos (by simpa using h1)]
      simpa using ih

theorem mem_origActs {actions : List MAction} {c : Int × Int} {b : MAction} :
    b ∈ origActs actions c ↔ b ∈ actions ∧ b.newcell = c := by
  simp [origActs]

theorem target_mem_keys {actions : List MAction} {b : MAction}
    (hb : b ∈ actions) : b.newcell ∈ amKeys (buildMap actions) := by
  have hne : origActs actions b.newcell ≠ [] := by
    intro h
    have : b ∈ origActs actions b.newcell := mem_origActs.mpr ⟨hb, rfl⟩
    rw [h] at this
    cases this
  have := buildMap_get actions b.newcell
  rw [if_neg hne] at this
  exact amGet_mem_keys this

theorem revertAction_spec (ctx : MCtx) (actions : List MAction) :
    ∀ (fuel : ℕ) (D : List (Int × Int)) (a : MAction) (P : List MAction),
      (removeKeys (buildMap actions) D).length < fuel →
      a ∈ actions → Dead ctx actions a.newcell →
      PCE ctx actions (buildMap actions) D (a :: P) →
      ∃ Dnew : List (Int × Int),
        revertAction ctx fuel (removeKeys (buildMap actions) D) a =
          removeKeys (buildMap actions) Dnew ∧
        (∀ c ∈ D, c ∈ Dnew) ∧
        (∀ c ∈ Dnew, c ∈ D ∨ Dead ctx actions c) ∧
        (ctx.isCityTile (morig ctx a) = true ∨ morig ctx a ∈ Dnew ∨
          morig ctx a ∉ amKeys (buildMap actions)) ∧
        PCE ctx actions (buildMap actions) Dnew P := by
  intro fuel
  induction fuel with
  | zero =>
    intro D a P hfuel
    exact absurd hfuel (Nat.not_lt_zero _)
  | succ fuel ih =>
    intro D a P hfuel ha hdead hpce
    rcases hcity : ctx.isCityTile (morig ctx a) with _ | _
    · -- origin is not a city tile: the entry is deleted and propagation runs
      have hunfold : revertAction ctx (fuel + 1) (removeKeys (buildMap actions) D) a =
          (match amGet (removeKeys (buildMap actions) D) (morig ctx a) with
            | none => amDelete (removeKeys (buildMap actions) D) (morig ctx a)
            | some l => l.foldl (fun mm b => revertAction ctx fuel mm b)
                (amDelete (removeKeys (buildMap actions) D) (morig ctx a))) := by
        have hcity2 : ctx.isCityTile (ctx.unitPos a.team a.unitid) = false := hcity
        simp only [revertAction, hcity2, Bool.false_eq_true, if_false]
        rfl
      rcases hget : amGet (removeKeys (buildMap actions) D) (morig ctx a) with _ | l
      · -- no actions target the origin (or its entry was already deleted)
        rw [amGet_removeKeys] at hget
        refine ⟨morig ctx a :: D, ?_, ?_, ?_, ?_, ?_⟩
        · rw [hunfold]
          rw [show amGet (removeKeys (buildMap actions) D) (morig ctx a) = none from by
            rw [amGet_removeKeys]
            exact hget]
          exact amDelete_removeKeys _ _ _
        · exact fun c hc => List.mem_cons_of_mem _ hc
        · intro c hc
          rcases List.mem_cons.mp hc with rfl | hc2
          · exact Or.inr (Dead.backward a ha hdead hcity)
          · exact Or.inl hc2
        · exact Or.inr (Or.inl (List.mem_cons_self _ _))
        · intro b hb htgt hbcity
          by_cases hDmem : morig ctx a ∈ D
          · have htgt2 : b.newcell ∈ D := by
              rcases List.mem_cons.mp htgt with heq | h2
              · rw [heq]
                exact hDmem
              · exact h2
            rcases hpce b hb htgt2 hbcity with hP | h | h
            · rcases List.mem_cons.mp hP with rfl | hP2
              · exact Or.inr (Or.inl (List.mem_cons_self _ _))
              · exact Or.inl hP2
            · exact Or.inr (Or.inl (List.mem_cons_of_mem _ h))
            · exact Or.inr (Or.inr h)
          · rw [if_neg hDmem] at hget
            rcases List.mem_cons.mp htgt with heq | htgt2
            · exfalso
              have : origActs actions b.newcell ≠ [] := by
                intro hnil
                have hmem : b ∈ origActs actions b.newcell := mem_origActs.mpr ⟨hb, rfl⟩
                rw [hnil] at hmem
                cases hmem
              have hbg := buildMap_get actions b.newcell
              rw [if_neg this] at hbg
              rw [heq] at hbg
              rw [hget] at hbg
              cases hbg
            · rcases hpce b hb htgt2 hbcity with hP | h | h
              · rcases List.mem_cons.mp hP with rfl | hP2
                · exact Or.inr (Or.inl (List.mem_cons_self _ _))
                · exact Or.inl hP2
              · exact Or.inr (Or.inl (List.mem_cons_of_mem _ h))
              · exact Or.inr (Or.inr h)
      · -- live entry at the origin: delete it and revert all its actions
        have hget0 := hget
        rw [amGet_removeKeys] at hget0
        have hDnotmem : morig ctx a ∉ D := by
          intro hmem
          rw [if_pos hmem] at hget0
          cases hget0
        rw [if_neg hDnotmem] at hget0
        have hlne : origActs actions (morig ctx a) ≠ [] := by
          intro hnil
          have := buildMap_get actions (morig ctx a)
          rw [if_pos hnil, hget0] at this
          cases this
        have hleq : l = origActs actions (morig ctx a) := by
          have := buildMap_get actions (morig ctx a)
          rw [if_neg hlne, hget0] at this
          cases this
          rfl
        have hdeadorig : Dead ctx actions (morig ctx a) :=
          Dead.backward a ha hdead hcity
        have hkeymem : morig ctx a ∈ amKeys (removeKeys (buildMap actions) D) := by
          apply amGet_mem_keys hget
        have hm1len : (removeKeys (buildMap actions) (morig ctx a :: D)).length < fuel := by
          have h1 := removeKeys_cons_length_lt hkeymem
          omega
        -- fold lemma for the recursive reverts of the colliding actions
        have hfold : ∀ (lp : List MAction) (Dk : List (Int × Int)) (Pk : List MAction),
            (removeKeys (buildMap actions) Dk).length < fuel →
            (∀ b ∈ lp, b ∈ actions) →
            (∀ b ∈ lp, Dead ctx actions b.newcell) →
            (∀ c ∈ Dk, c ∈ D ∨ Dead ctx actions c) →
            PCE ctx actions (buildMap actions) Dk (lp ++ Pk) →
            ∃ D2, lp.foldl (fun mm b => revertAction ctx fuel mm b)
                (removeKeys (buildMap actions) Dk) =
                removeKeys (buildMap actions) D2 ∧
              (∀ c ∈ Dk, c ∈ D2) ∧
              (∀ c ∈ D2, c ∈ D ∨ Dead ctx actions c) ∧
              PCE ctx actions (buildMap actions) D2 Pk := by
          intro lp
          induction lp with
          | nil =>
            intro Dk Pk _ _ _ hdk hpk
            exact ⟨Dk, by simp, fun c hc => hc, hdk, by simpa using hpk⟩
          | cons b lp2 ihl =>
            intro Dk Pk hlen hmem hdeads hdk hpk
            obtain ⟨D', heq', hsub', hdeath', hstar', hpce'⟩ :=
              ih Dk b (lp2 ++ Pk) hlen (hmem b (List.mem_cons_self _ _))
                (hdeads b (List.mem_cons_self _ _)) (by simpa using hpk)
            have hlen' : (removeKeys (buildMap actions) D').length < fuel := by
              have := removeKeys_length_mono (buildMap actions) hsub'
              omega
            obtain ⟨D2, heq2, hsub2, hdeath2, hpce2⟩ :=
              ihl D' Pk hlen' (fun b2 hb2 => hmem b2 (List.mem_cons_of_mem _ hb2))
                (fun b2 hb2 => hdeads b2 (List.mem_cons_of_mem _ hb2))
                (fun c hc => (hdeath' c hc).elim (fun h => hdk c h) Or.inr)
                hpce'
            refine ⟨D2, ?_, fun c hc => hsub2 c (hsub' c hc), hdeath2, hpce2⟩
            rw [List.foldl_cons, heq', heq2]
        obtain ⟨D2, heq2, hsub2, hdeath2, hpce2⟩ := hfold l (morig ctx a :: D) P
          hm1len
          (fun b hb => (mem_origActs.mp (hleq ▸ hb)).1)
          (fun b hb => by
            rw [(mem_origActs.mp (hleq ▸ hb)).2]
            exact hdeadorig)
          (fun c hc => by
            rcases List.mem_cons.mp hc with rfl | hc2
            · exact Or.inr hdeadorig
            · exact Or.inl hc2)
          (by
            intro b hb htgt hbcity
            rcases List.mem_cons.mp htgt with heq | htgt2
            · refine Or.inl (List.mem_append_left _ ?_)
              rw [hleq]
              exact mem_origActs.mpr ⟨hb, heq⟩
            · rcases hpce b hb htgt2 hbcity with hP | h | h
              · rcases List.mem_cons.mp hP with rfl | hP2
                · exact Or.inr (Or.inl (List.mem_cons_self _ _))
                · exact Or.inl (List.mem_append_right _ hP2)
              · exact Or.inr (Or.inl (List.mem_cons_of_mem _ h))
              · exact Or.inr (Or.inr h))
        refine ⟨D2, ?_, fun c hc => hsub2 c (List.mem_cons_of_mem _ hc), hdeath2,
          Or.inr (Or.inl (hsub2 _ (List.mem_cons_self _ _))), hpce2⟩
        rw [hunfold, hget]
        rw [show (match some l with
            | none => amDelete (removeKeys (buildMap actions) D) (morig ctx a)
            | some l2 => List.foldl (fun mm b => revertAction ctx fuel mm b)
                (amDelete (removeKeys (buildMap actions) D) (morig ctx a)) l2) =
          List.foldl (fun mm b => revertAction ctx fuel mm b)
            (amDelete (removeKeys (buildMap actions) D) (morig ctx a)) l from rfl]
        rw [amDelete_removeKeys]
        exact heq2
    · -- origin is a city tile: revertAction is a no-op
      refine ⟨D, ?_, fun c hc => hc, fun c hc => Or.inl hc, Or.inl rfl, ?_⟩
      · have hcity2 : ctx.isCityTile (ctx.unitPos a.team a.unitid) = true := hcity
        simp only [revertAction, hcity2, if_true]
      · intro b hb htgt hbcity
        rcases hpce b hb htgt hbcity with hP | h | h
        · rcases List.mem_cons.mp hP with rfl | hP2
          · rw [hbcity] at hcity
            cases hcity
          · exact Or.inl hP2
        · exact Or.inr (Or.inl h)
        · exact Or.inr (Or.inr h)

/-- Reverting a list of already-dead-targeted actions in sequence: the
deleted-key set grows by dead cells only, pending obligations are
discharged, and every reverted action's origin has been handled. -/
theorem foldRevert_spec (ctx : MCtx) (actions : List MAction) (fuel : ℕ) :
    ∀ (lp : List MAction) (Dk : List (Int × Int)) (Pk : List MAction),
      (removeKeys (buildMap actions) Dk).length < fuel →
      (∀ b ∈ lp, b ∈ actions) →
      (∀ b ∈ lp, Dead ctx actions b.newcell) →
      PCE ctx actions (buildMap actions) Dk (lp ++ Pk) →
      ∃ D2, lp.foldl (fun mm b => revertAction ctx fuel mm b)
          (removeKeys (buildMap actions) Dk) =
          removeKeys (buildMap actions) D2 ∧
        (∀ c ∈ Dk, c ∈ D2) ∧
        (∀ c ∈ D2, c ∈ Dk ∨ Dead ctx actions c) ∧
        PCE ctx actions (buildMap actions) D2 Pk ∧
        (∀ b ∈ lp, ctx.isCityTile (morig ctx b) = true ∨ morig ctx b ∈ D2 ∨
          morig ctx b ∉ amKeys (buildMap actions)) := by
  intro lp
  induction lp with
  | nil =>
    intro Dk Pk _ _ _ hpk
    exact ⟨Dk, by simp, fun c hc => hc, fun c hc => Or.inl hc, by simpa using hpk,
      by simp⟩
  | cons b lp2 ihl =>
    intro Dk Pk hlen hmem hdeads hpk
    obtain ⟨D', heq', hsub', hdeath', hstar', hpce'⟩ :=
      revertAction_spec ctx actions fuel Dk b (lp2 ++ Pk) hlen
        (hmem b (List.mem_cons_self _ _)) (hdeads b (List.mem_cons_self _ _))
        (by simpa using hpk)
    have hlen' : (removeKeys (buildMap actions) D').length < fuel := by
      have := removeKeys_length_mono (buildMap actions) hsub'
      omega
    obtain ⟨D2, heq2, hsub2, hdeath2, hpce2, hstar2⟩ :=
      ihl D' Pk hlen' (fun b2 hb2 => hmem b2 (List.mem_cons_of_mem _ hb2))
        (fun b2 hb2 => hdeads b2 (List.mem_cons_of_mem _ hb2)) hpce'
    refine ⟨D2, ?_, fun c hc => hsub2 c (hsub' c hc), ?_, hpce2, ?_⟩
    · rw [List.foldl_cons, heq', heq2]
    · intro c hc
      rcases hdeath2 c hc with h | h
      · rcases hdeath' c h with h2 | h2
        · exact Or.inl h2
        · exact Or.inr h2
      · exact Or.inr h
    · intro b2 hb2
      rcases List.mem_cons.mp hb2 with rfl | hb3
      · rcases hstar' with h | h | h
        · exact Or.inl h
        · exact Or.inr (Or.inl (hsub2 _ h))
        · exact Or.inr (Or.inr h)
      · exact hstar2 b2 hb3

/-- Deleting the destinations of a list of actions, as the loop's final
`forEach` does. -/
theorem foldDelete_spec (actions : List MAction) :
    ∀ (lp : List MAction) (Dk : List (Int × Int)),
      lp.foldl (fun mm a => amDelete mm a.newcell)
        (removeKeys (buildMap actions) Dk) =
      removeKeys (buildMap actions) ((lp.map (fun a => a.newcell)).reverse ++ Dk) := by
  intro lp
  induction lp with
  | nil => simp
  | cons b lp2 ihl =>
    intro Dk
    rw [List.foldl_cons, amDelete_removeKeys, ihl (b.newcell :: Dk)]
    congr 1
    simp

/-- One iteration of the pruning loop: the deleted-key set grows by dead
cells only, stays propagation-closed, and if the static revert condition
holds at the visited cell then that cell's entry is gone afterwards. -/
theorem movementStep_spec (ctx : MCtx) (actions : List MAction)
    (D : List (Int × Int)) (cell : Int × Int)
    (hdead : ∀ c ∈ D, Dead ctx actions c)
    (hpce : PCE ctx actions (buildMap actions) D []) :
    ∃ D2, movementStep ctx (movIds actions) (actions.length + 1)
        (removeKeys (buildMap actions) D) cell =
        removeKeys (buildMap actions) D2 ∧
      (∀ c ∈ D, c ∈ D2) ∧
      (∀ c ∈ D2, Dead ctx actions c) ∧
      PCE ctx actions (buildMap actions) D2 [] ∧
      (Trigger ctx actions cell → cell ∈ D2 ∨ cell ∉ amKeys (buildMap actions)) := by
  have hfuel : (removeKeys (buildMap actions) D).length < actions.length + 1 := by
    have h1 := removeKeys_length_le (buildMap actions) D
    have h2 := buildMap_length_le actions
    omega
  rcases hget : amGet (removeKeys (buildMap actions) D) cell with _ | l
  · -- no live entry at this cell: the step does nothing
    refine ⟨D, ?_, fun c hc => hc, hdead, hpce, ?_⟩
    · simp only [movementStep, hget]
      simp
    · intro _
      rw [amGet_removeKeys] at hget
      by_cases hC : cell ∈ D
      · exact Or.inl hC
      · rw [if_neg hC] at hget
        exact Or.inr (amGet_none_iff.mp hget)
  · have hget0 := hget
    rw [amGet_removeKeys] at hget0
    have hDnot : cell ∉ D := by
      intro h
      rw [if_pos h] at hget0
      cases hget0
    rw [if_neg hDnot] at hget0
    have hlne : origActs actions cell ≠ [] := by
      intro hnil
      have := buildMap_get actions cell
      rw [if_pos hnil, hget0] at this
      cases this
    have hleq : l = origActs actions cell := by
      have := buildMap_get actions cell
      rw [if_neg hlne, hget0] at this
      cases this
      rfl
    -- the list of actions the loop body decides to revert
    set toRevert : List MAction :=
      (if l.length > 1 then
        if ctx.isCityTile cell then [] else l
      else if l.length = 1 then
        if ctx.isCityTile cell then []
        else if (ctx.cellUnits cell).length = 1 then
          if unitThereIsStill (movIds actions) (ctx.cellUnits cell) then l else []
        else []
      else []) with htr
    have hunfold : movementStep ctx (movIds actions) (actions.length + 1)
        (removeKeys (buildMap actions) D) cell =
        toRevert.foldl (fun mm a => amDelete mm a.newcell)
          (toRevert.foldl
            (fun mm a => revertAction ctx (actions.length + 1) mm a)
            (removeKeys (buildMap actions) D)) := by
      simp only [movementStep, hget]
    by_cases hrev : toRevert = l ∧ Trigger ctx actions cell
    · -- the revert branch fires
      obtain ⟨htrl, htrig⟩ := hrev
      have hdeadcell : Dead ctx actions cell := Dead.trigger cell htrig
      obtain ⟨D', heq', hsub', hdeath', hpce', hstar'⟩ :=
        foldRevert_spec ctx actions (actions.length + 1) l D [] hfuel
          (fun b hb => (mem_origActs.mp (hleq ▸ hb)).1)
          (fun b hb => by
            rw [(mem_origActs.mp (hleq ▸ hb)).2]
            exact hdeadcell)
          (by
            intro b hb htgt hbcity
            rcases hpce b hb htgt hbcity with hP | h | h
            · cases hP
            · exact Or.inr (Or.inl h)
            · exact Or.inr (Or.inr h))
      refine ⟨(l.map (fun a => a.newcell)).reverse ++ D', ?_, ?_, ?_, ?_, ?_⟩
      · rw [hunfold, htrl, heq', foldDelete_spec]
      · intro c hc
        exact List.mem_append_right _ (hsub' c hc)
      · intro c hc
        rcases List.mem_append.mp hc with h | h
        · rcases List.mem_map.mp (List.mem_reverse.mp h) with ⟨b, hb, rfl⟩
          rw [(mem_origActs.mp (hleq ▸ hb)).2]
          exact hdeadcell
        · rcases hdeath' c h with h2 | h2
          · exact hdead c h2
          · exact h2
      · intro b hb htgt hbcity
        rcases List.mem_append.mp htgt with h | h
        · -- the target is the visited cell: its actions' origins were handled
          rcases List.mem_map.mp (List.mem_reverse.mp h) with ⟨b2, hb2, heqc⟩
          have hbl : b ∈ l := by
            rw [hleq]
            exact mem_origActs.mpr ⟨hb, by rw [← heqc, (mem_origActs.mp (hleq ▸ hb2)).2]⟩
          rcases hstar' b hbl with h2 | h2 | h2
          · rw [h2] at hbcity
            cases hbcity
          · exact Or.inr (Or.inl (List.mem_append_right _ h2))
          · exact Or.inr (Or.inr h2)
        · rcases hpce' b hb h hbcity with hP | h2 | h2
          · cases hP
          · exact Or.inr (Or.inl (List.mem_append_right _ h2))
          · exact Or.inr (Or.inr h2)
      · intro _
        refine Or.inl (List.mem_append_left _ ?_)
        rw [List.mem_reverse]
        have hlnil : l ≠ [] := by
          intro h
          rw [h] at hleq
          exact hlne hleq.symm
        obtain ⟨b0, l0, hbl0⟩ := List.exists_cons_of_ne_nil hlnil
        apply List.mem_map.mpr
        refine ⟨b0, by rw [hbl0]; exact List.mem_cons_self _ _, ?_⟩
        have hb0 : b0 ∈ origActs actions cell := by
          rw [← hleq, hbl0]
          exact List.mem_cons_self _ _
        exact (mem_origActs.mp hb0).2
    · -- no revert at this cell: the step does nothing, and Trigger fails
      have hlnil : l ≠ [] := by
        intro h
        rw [h] at hleq
        exact hlne hleq.symm
      have hl1 : 1 ≤ l.length := by
        rcases l with _ | ⟨b0, l0⟩
        · exact absurd rfl hlnil
        · simp
      have htrigger_of_l : toRevert = l → Trigger ctx actions cell := by
        intro hteq
        by_cases h1 : l.length > 1
        · by_cases hc : ctx.isCityTile cell = true
          · rw [htr] at hteq
            simp [h1, hc] at hteq
            exact absurd hteq hlnil
          · have hcf : ctx.isCityTile cell = false := by
              revert hc
              cases ctx.isCityTile cell <;> simp
            exact ⟨hcf, Or.inl (by rw [← hleq]; exact h1)⟩
        · have h1e : l.length = 1 := by omega
          by_cases hc : ctx.isCityTile cell = true
          · rw [htr] at hteq
            simp [h1, h1e, hc] at hteq
            exact absurd hteq hlnil
          · have hcf : ctx.isCityTile cell = false := by
              revert hc
              cases ctx.isCityTile cell <;> simp
            by_cases hu : (ctx.cellUnits cell).length = 1
            · by_cases hs : unitThereIsStill (movIds actions) (ctx.cellUnits cell) = true
              · exact ⟨hcf, Or.inr ⟨by rw [← hleq]; exact h1e, hu, hs⟩⟩
              · rw [htr] at hteq
                simp [h1, h1e, hc, hu, hs] at hteq
                exact absurd hteq hlnil
            · rw [htr] at hteq
              simp [h1, h1e, hc, hu] at hteq
              exact absurd hteq hlnil
      have htrl_or : toRevert = l ∨ toRevert = [] := by
        rw [htr]
        by_cases h1 : l.length > 1 <;>
          by_cases hc : ctx.isCityTile cell = true <;>
          by_cases hu : (ctx.cellUnits cell).length = 1 <;>
          by_cases hs : unitThereIsStill (movIds actions) (ctx.cellUnits cell) = true <;>
          by_cases h1e : l.length = 1 <;>
          simp [h1, hc, hu, hs, h1e]
      have htrnil : toRevert = [] := by
        rcases htrl_or with h | h
        · exact absurd ⟨h, htrigger_of_l h⟩ hrev
        · exact h
      refine ⟨D, ?_, fun c hc => hc, hdead, hpce, ?_⟩
      · rw [hunfold, htrnil]
        simp
      · intro htrig
        obtain ⟨hcf, hd⟩ := htrig
        exfalso
        apply hrev
        refine ⟨?_, ⟨hcf, hd⟩⟩
        rcases hd with hgt | ⟨h1e, hu, hs⟩
        · rw [htr]
          have hgt' : l.length > 1 := by rw [hleq]; exact hgt
          simp [hgt', hcf]
        · rw [htr]
          have h1e' : l.length = 1 := by rw [hleq]; exact h1e
          have hn1 : ¬ (l.length > 1) := by omega
          simp [hn1, h1e', hcf, hu, hs]

theorem mem_removeKeys {m : AMap} {D : List (Int × Int)}
    {p : (Int × Int) × List MAction} :
    p ∈ removeKeys m D ↔ p ∈ m ∧ p.1 ∉ D := by
  simp [removeKeys, List.mem_filter]

/-- The whole pruning loop: starting from the freshly built map, it deletes
a propagation-closed set of dead cells, and afterwards no visited cell with
a live entry still satisfies the static revert condition. -/
theorem movementFold_spec (ctx : MCtx) (actions : List MAction) :
    ∀ (L : List (Int × Int)) (D : List (Int × Int)),
      (∀ c ∈ D, Dead ctx actions c) →
      PCE ctx actions (buildMap actions) D [] →
      ∃ Df, L.foldl (movementStep ctx (movIds actions) (actions.length + 1))
          (removeKeys (buildMap actions) D) = removeKeys (buildMap actions) Df ∧
        (∀ c ∈ D, c ∈ Df) ∧
        (∀ c ∈ Df, Dead ctx actions c) ∧
        PCE ctx actions (buildMap actions) Df [] ∧
        (∀ c ∈ L, Trigger ctx actions c → c ∈ Df ∨ c ∉ amKeys (buildMap actions)) := by
  intro L
  induction L with
  | nil =>
    intro D hdead hpce
    exact ⟨D, by simp, fun c hc => hc, hdead, hpce, by simp⟩
  | cons c0 L2 ihl =>
    intro D hdead hpce
    obtain ⟨D2, heq2, hsub2, hdead2, hpce2, htrig2⟩ :=
      movementStep_spec ctx actions D c0 hdead hpce
    obtain ⟨Df, heqf, hsubf, hdeadf, hpcef, htrigf⟩ := ihl D2 hdead2 hpce2
    refine ⟨Df, ?_, fun c hc => hsubf c (hsub2 c hc), hdeadf, hpcef, ?_⟩
    · rw [List.foldl_cons, heq2, heqf]
    · intro c hc htrig
      rcases List.mem_cons.mp hc with rfl | hc2
      · rcases htrig2 htrig with h | h
        · exact Or.inl (hsubf c h)
        · exact Or.inr h
      · exact htrigf c hc2 htrig

theorem foldl_append_eq {m : AMap} :
    ∀ (init : List MAction),
      m.foldl (fun acc p => acc ++ p.2) init = init ++ (m.map (fun p => p.2)).flatten := by
  induction m with
  | nil => intro init; simp
  | cons p rest ih =>
    intro init
    rw [List.foldl_cons, ih]
    simp

theorem mem_result_iff {m : AMap} {x : MAction} :
    x ∈ m.foldl (fun acc p => acc ++ p.2) [] ↔ ∃ p ∈ m, x ∈ p.2 := by
  rw [foldl_append_eq]
  simp only [List.nil_append, List.mem_flatten, List.mem_map]
  constructor
  · rintro ⟨l, ⟨p, hp, rfl⟩, hx⟩
    exact ⟨p, hp, hx⟩
  · rintro ⟨p, hp, hx⟩
    exact ⟨p.2, ⟨p, hp, rfl⟩, hx⟩

/-- The final-state characterization of `handleMovementActions`: an action
survives the pruning pass iff it was in the batch and its destination cell
is not dead. -/
theorem handleMovementActions_char (ctx : MCtx) (actions : List MAction)
    (x : MAction) :
    x ∈ handleMovementActions ctx actions ↔
      x ∈ actions ∧ ¬ Dead ctx actions x.newcell := by
  obtain ⟨Df, heqf, _, hdeadf, hpcef, htrigf⟩ :=
    movementFold_spec ctx actions (amKeys (buildMap actions)) []
      (by simp) (by intro b _ h; cases h)
  rw [removeKeys_nil] at heqf
  have hresult : handleMovementActions ctx actions =
      (removeKeys (buildMap actions) Df).foldl (fun acc p => acc ++ p.2) [] := by
    show (List.foldl (movementStep ctx (movIds actions) (actions.length + 1))
        (buildMap actions) (amKeys (buildMap actions))).foldl
        (fun acc p => acc ++ p.2) [] = _
    rw [heqf]
  -- no dead cell keeps an entry in the final map
  have hcomplete : ∀ c, Dead ctx actions c →
      c ∉ amKeys (removeKeys (buildMap actions) Df) := by
    intro c hdc
    induction hdc with
    | trigger c htrig =>
      intro hmem
      rcases mem_keys_removeKeys.mp hmem with ⟨hk, hnd⟩
      rcases htrigf c hk htrig with h | h
      · exact hnd h
      · exact h hk
    | backward a ha hd hcity ih =>
      have hak : a.newcell ∈ amKeys (buildMap actions) := target_mem_keys ha
      have haD : a.newcell ∈ Df := by
        by_contra hnd
        exact ih (mem_keys_removeKeys.mpr ⟨hak, hnd⟩)
      rcases hpcef a ha haD hcity with hP | h | h
      · cases hP
      · intro hmem
        exact (mem_keys_removeKeys.mp hmem).2 h
      · intro hmem
        exact h (mem_keys_removeKeys.mp hmem).1
  rw [hresult, mem_result_iff]
  constructor
  · rintro ⟨p, hp, hxp⟩
    rcases mem_removeKeys.mp hp with ⟨hp0, hpD⟩
    have hget := amKeys_nodup_get (buildMap_keys_nodup actions) hp0
    have hne : origActs actions p.1 ≠ [] := by
      intro hnil
      have := buildMap_get actions p.1
      rw [if_pos hnil, hget] at this
      cases this
    have hp2 : p.2 = origActs actions p.1 := by
      have h2 := buildMap_get actions p.1
      rw [if_neg hne, hget] at h2
      exact Option.some.inj h2
    rw [hp2] at hxp
    rcases mem_origActs.mp hxp with ⟨hxa, hxc⟩
    refine ⟨hxa, ?_⟩
    intro hdx
    apply hcomplete x.newcell hdx
    rw [hxc]
    exact mem_keys_removeKeys.mpr ⟨List.mem_map_of_mem _ hp0, hpD⟩
  · rintro ⟨hxa, hnd⟩
    have hne : origActs actions x.newcell ≠ [] := by
      intro hnil
      have : x ∈ origActs actions x.newcell := mem_origActs.mpr ⟨hxa, rfl⟩
      rw [hnil] at this
      cases this
    have hget : amGet (buildMap actions) x.newcell = some (origActs actions x.newcell) := by
      have := buildMap_get actions x.newcell
      rwa [if_neg hne] at this
    have hp0 : (x.newcell, origActs actions x.newcell) ∈ buildMap actions :=
      amGet_eq_some_mem hget
    have hpD : x.newcell ∉ Df := by
      intro h
      exact hnd (hdeadf _ h)
    exact ⟨(x.newcell, origActs actions x.newcell),
      mem_removeKeys.mpr ⟨hp0, hpD⟩, mem_origActs.mpr ⟨hxa, rfl⟩⟩

theorem contains_congr {m1 m2 : List String} (h : ∀ u, u ∈ m1 ↔ u ∈ m2)
    (u : String) : m1.contains u = m2.contains u := by
  by_cases hu : u ∈ m1
  · rw [show m1.contains u = true from List.elem_eq_true_of_mem hu,
      show m2.contains u = true from List.elem_eq_true_of_mem ((h u).mp hu)]
  · have hu2 : u ∉ m2 := fun hh => hu ((h u).mpr hh)
    have e1 : m1.contains u = false := by
      cases hcc : m1.contains u
      · rfl
      · exact absurd (List.mem_of_elem_eq_true hcc) hu
    have e2 : m2.contains u = false := by
      cases hcc : m2.contains u
      · rfl
      · exact absurd (List.mem_of_elem_eq_true hcc) hu2
    rw [e1, e2]

theorem unitThereIsStill_congr {m1 m2 : List String}
    (h : ∀ u, u ∈ m1 ↔ u ∈ m2) (us : List String) :
    unitThereIsStill m1 us = unitThereIsStill m2 us := by
  have gen : ∀ (us : List String) (b : Bool),
      us.foldl (fun b uid => if m1.contains uid then false else b) b =
      us.foldl (fun b uid => if m2.contains uid then false else b) b := by
    intro us
    induction us with
    | nil => intro b; rfl
    | cons u us2 ih =>
      intro b
      rw [List.foldl_cons, List.foldl_cons, contains_congr h u]
      exact ih _
  exact gen us true

theorem trigger_perm {ctx : MCtx} {actions actions2 : List MAction}
    (hperm : List.Perm actions actions2) (c : Int × Int) :
    Trigger ctx actions c ↔ Trigger ctx actions2 c := by
  have hlen : (origActs actions c).length = (origActs actions2 c).length :=
    (hperm.filter _).length_eq
  have hmov : ∀ u, u ∈ movIds actions ↔ u ∈ movIds actions2 :=
    fun u => (hperm.map (fun a => a.unitid)).mem_iff
  unfold Trigger
  rw [hlen, unitThereIsStill_congr hmov]

theorem dead_perm {ctx : MCtx} {actions actions2 : List MAction}
    (hperm : List.Perm actions actions2) (c : Int × Int)
    (hd : Dead ctx actions c) : Dead ctx actions2 c := by
  induction hd with
  | trigger c htrig => exact Dead.trigger c ((trigger_perm hperm c).mp htrig)
  | backward a ha _ hcity ih =>
    exact Dead.backward a (hperm.subset ha) ih hcity

/-- C2: `handleMovementActions` is confluent — for every batch of move
actions and every permutation of that batch, membership in the returned
pruned set is the same; shuffling the input order never changes the
accepted set. -/
theorem handleMovementActions_confluent (ctx : MCtx)
    (actions actions2 : List MAction) (hperm : List.Perm actions actions2)
    (x : MAction) :
    x ∈ handleMovementActions ctx actions ↔
      x ∈ handleMovementActions ctx actions2 := by
  rw [handleMovementActions_char, handleMovementActions_char]
  constructor
  · rintro ⟨hx, hnd⟩
    exact ⟨hperm.subset hx, fun hd => hnd (dead_perm hperm.symm _ hd)⟩
  · rintro ⟨hx, hnd⟩
    exact ⟨hperm.symm.subset hx, fun hd => hnd (dead_perm hperm _ hd)⟩

/-- Witness for C2: two independent moves, swapped. -/
theorem handleMovementActions_confluent_witness :
    ⟨Team.A, "A", ((1 : Int), (0 : Int))⟩ ∈ handleMovementActions
      ⟨fun _ => false,
        fun _ uid => if uid = "A" then (0, 0) else (2, 0),
        fun c => if c = ((0 : Int), (0 : Int)) then ["A"]
          else if c = ((2 : Int), (0 : Int)) then ["B"] else []⟩
      [⟨Team.A, "A", (1, 0)⟩, ⟨Team.A, "B", (3, 0)⟩] ↔
    ⟨Team.A, "A", ((1 : Int), (0 : Int))⟩ ∈ handleMovementActions
      ⟨fun _ => false,
        fun _ uid => if uid = "A" then (0, 0) else (2, 0),
        fun c => if c = ((0 : Int), (0 : Int)) then ["A"]
          else if c = ((2 : Int), (0 : Int)) then ["B"] else []⟩
      [⟨Team.A, "B", (3, 0)⟩, ⟨Team.A, "A", (1, 0)⟩] :=
  handleMovementActions_confluent _
    [⟨Team.A, "A", (1, 0)⟩, ⟨Team.A, "B", (3, 0)⟩]
    [⟨Team.A, "B", (3, 0)⟩, ⟨Team.A, "A", (1, 0)⟩]
    (List.Perm.swap _ _ []) _

theorem two_mem_one_lt_length {α : Type} {l : List α} {a b : α}
    (ha : a ∈ l) (hb : b ∈ l) (hne : a ≠ b) : 1 < l.length := by
  rcases l with _ | ⟨x, l2⟩
  · cases ha
  · rcases l2 with _ | ⟨y, l3⟩
    · rcases List.mem_singleton.mp ha with rfl
      rcases List.mem_singleton.mp hb with rfl
      exact absurd rfl hne
    · simp

theorem still_false_exists {mov us : List String}
    (h : unitThereIsStill mov us = false) : ∃ u ∈ us, u ∈ mov := by
  have gen : ∀ (us : List String) (b : Bool),
      us.foldl (fun b uid => if mov.contains uid then false else b) b = false →
      b = false ∨ ∃ u ∈ us, u ∈ mov := by
    intro us
    induction us with
    | nil => intro b hb; exact Or.inl hb
    | cons u us2 ih =>
      intro b hb
      rw [List.foldl_cons] at hb
      rcases ih _ hb with h2 | h2
      · by_cases hc : mov.contains u = true
        · exact Or.inr ⟨u, List.mem_cons_self _ _, List.mem_of_elem_eq_true hc⟩
        · rw [if_neg hc] at h2
          exact Or.inl h2
      · obtain ⟨u2, hu2, hm⟩ := h2
        exact Or.inr ⟨u2, List.mem_cons_of_mem _ hu2, hm⟩
  rcases gen us true h with h2 | h2
  · cases h2
  · exact h2

theorem length_one_mem_eq {α : Type} {l : List α} {a : α}
    (hlen : l.length = 1) (ha : a ∈ l) : l = [a] := by
  rcases l with _ | ⟨x, l2⟩
  · cases ha
  · rcases l2 with _ | ⟨y, l3⟩
    · rcases List.mem_singleton.mp ha with rfl
      rfl
    · simp at hlen

/-- C3: the pruned set is collision-free with recursive backward reversion —
no two accepted moves target the same non-city cell; an accepted move into
an occupied non-city cell implies the occupant has an accepted move
(assuming units sit on the cell their position names, and non-city cells
hold at most one unit); rejecting a move rejects every move into the
rejected unit's non-city origin; and in the A/B/C bump scenario all three
moves are rejected. -/
theorem handleMovementActions_collision_free :
    (∀ (ctx : MCtx) (actions : List MAction),
      ∀ a ∈ handleMovementActions ctx actions,
      ∀ b ∈ handleMovementActions ctx actions,
        ctx.isCityTile a.newcell = false → a.newcell = b.newcell → a = b) ∧
    (∀ (ctx : MCtx) (actions : List MAction),
      (∀ uid c, uid ∈ ctx.cellUnits c → ∀ t, ctx.unitPos t uid = c) →
      (∀ c, ctx.isCityTile c = false → (ctx.cellUnits c).length ≤ 1) →
      ∀ a ∈ handleMovementActions ctx actions,
        ctx.isCityTile a.newcell = false →
        ∀ uid ∈ ctx.cellUnits a.newcell,
          ∃ b ∈ handleMovementActions ctx actions, b.unitid = uid) ∧
    (∀ (ctx : MCtx) (actions : List MAction),
      ∀ a ∈ actions, a ∉ handleMovementActions ctx actions →
        ctx.isCityTile (morig ctx a) = false →
        ∀ b ∈ actions, b.newcell = morig ctx a →
          b ∉ handleMovementActions ctx actions) ∧
    handleMovementActions
      ⟨fun _ => false,
        fun _ uid => if uid = "A" then (0, 0) else if uid = "B" then (2, 0) else (0, 1),
        fun c => if c = ((0 : Int), (0 : Int)) then ["A"]
          else if c = ((2 : Int), (0 : Int)) then ["B"]
          else if c = ((0 : Int), (1 : Int)) then ["C"] else []⟩
      [⟨Team.A, "A", (1, 0)⟩, ⟨Team.A, "B", (1, 0)⟩, ⟨Team.A, "C", (0, 0)⟩] = [] := by
  refine ⟨?_, ?_, ?_, by decide⟩
  · intro ctx actions a ha b hb hcity heq
    obtain ⟨haA, hnda⟩ := (handleMovementActions_char ctx actions a).mp ha
    obtain ⟨hbA, hndb⟩ := (handleMovementActions_char ctx actions b).mp hb
    by_contra hne
    apply hnda
    apply Dead.trigger
    refine ⟨hcity, Or.inl ?_⟩
    exact two_mem_one_lt_length (mem_origActs.mpr ⟨haA, rfl⟩)
      (mem_origActs.mpr ⟨hbA, heq.symm⟩) hne
  · intro ctx actions hcoh hsingle a ha hcity uid huid
    obtain ⟨haA, hnda⟩ := (handleMovementActions_char ctx actions a).mp ha
    have hlenle := hsingle a.newcell hcity
    have hlenge : 0 < (ctx.cellUnits a.newcell).length :=
      List.length_pos.mpr (List.ne_nil_of_mem huid)
    have hlen1 : (ctx.cellUnits a.newcell).length = 1 := by omega
    have hcnt1 : (origActs actions a.newcell).length = 1 := by
      have hge : 0 < (origActs actions a.newcell).length :=
        List.length_pos.mpr (List.ne_nil_of_mem (mem_origActs.mpr ⟨haA, rfl⟩))
      by_contra hc
      apply hnda
      apply Dead.trigger
      exact ⟨hcity, Or.inl (by omega)⟩
    have hstill : unitThereIsStill (movIds actions) (ctx.cellUnits a.newcell) = false := by
      cases hs : unitThereIsStill (movIds actions) (ctx.cellUnits a.newcell)
      · rfl
      · exfalso
        apply hnda
        apply Dead.trigger
        exact ⟨hcity, Or.inr ⟨hcnt1, hlen1, hs⟩⟩
    obtain ⟨u, hu, hum⟩ := still_false_exists hstill
    have hcells : ctx.cellUnits a.newcell = [uid] := length_one_mem_eq hlen1 huid
    rw [hcells] at hu
    rcases List.mem_singleton.mp hu with rfl
    obtain ⟨b, hbA, hbid⟩ := List.mem_map.mp hum
    refine ⟨b, ?_, hbid⟩
    rw [handleMovementActions_char]
    refine ⟨hbA, ?_⟩
    intro hdb
    apply hnda
    have horig : morig ctx b = a.newcell := by
      unfold morig
      rw [hbid]
      exact hcoh u a.newcell huid b.team
    have := Dead.backward b hbA hdb (by rw [horig]; exact hcity)
    rwa [horig] at this
  · intro ctx actions a haA hanr hcity b hbA hbc
    have hda : Dead ctx actions a.newcell := by
      by_contra hnd
      exact hanr ((handleMovementActions_char ctx actions a).mpr ⟨haA, hnd⟩)
    have hdo : Dead ctx actions (morig ctx a) := Dead.backward a haA hda hcity
    intro hbr
    obtain ⟨_, hndb⟩ := (handleMovementActions_char ctx actions b).mp hbr
    rw [hbc] at hndb
    exact hndb hdo

/-- Witness for C3 at a concrete single-unit state: the unit standing on
the accepted move's destination (itself, a center move) has an accepted
move. -/
theorem handleMovementActions_collision_free_witness :
    (∀ uid c, uid ∈ (⟨fun _ => false, fun _ _ => ((0 : Int), (0 : Int)),
        fun c => if c = ((0 : Int), (0 : Int)) then ["A"] else []⟩ : MCtx).cellUnits c →
      ∀ t, (⟨fun _ => false, fun _ _ => ((0 : Int), (0 : Int)),
        fun c => if c = ((0 : Int), (0 : Int)) then ["A"] else []⟩ : MCtx).unitPos t uid = c) ∧
    (∃ b ∈ handleMovementActions
      ⟨fun _ => false, fun _ _ => ((0 : Int), (0 : Int)),
        fun c => if c = ((0 : Int), (0 : Int)) then ["A"] else []⟩
      [⟨Team.A, "A", (0, 0)⟩], b.unitid = "A") := by
  have hcoh : ∀ uid c, uid ∈ (⟨fun _ => false, fun _ _ => ((0 : Int), (0 : Int)),
      fun c => if c = ((0 : Int), (0 : Int)) then ["A"] else []⟩ : MCtx).cellUnits c →
      ∀ t, (⟨fun _ => false, fun _ _ => ((0 : Int), (0 : Int)),
      fun c => if c = ((0 : Int), (0 : Int)) then ["A"] else []⟩ : MCtx).unitPos t uid = c := by
    intro uid c hc t
    by_cases h : c = ((0 : Int), (0 : Int))
    · rw [h]
    · simp only [MCtx.cellUnits] at hc
      rw [if_neg h] at hc
      cases hc
  have hsingle : ∀ c, (⟨fun _ => false, fun _ _ => ((0 : Int), (0 : Int)),
      fun c => if c = ((0 : Int), (0 : Int)) then ["A"] else []⟩ : MCtx).isCityTile c = false →
      ((⟨fun _ => false, fun _ _ => ((0 : Int), (0 : Int)),
      fun c => if c = ((0 : Int), (0 : Int)) then ["A"] else []⟩ : MCtx).cellUnits c).length ≤ 1 := by
    intro c _
    simp only [MCtx.cellUnits]
    split <;> simp
  refine ⟨hcoh, ?_⟩
  exact handleMovementActions_collision_free.2.1
    ⟨fun _ => false, fun _ _ => ((0 : Int), (0 : Int)),
      fun c => if c = ((0 : Int), (0 : Int)) then ["A"] else []⟩
    [⟨Team.A, "A", (0, 0)⟩] hcoh hsingle
    ⟨Team.A, "A", (0, 0)⟩ (by decide) (by decide) "A" (by decide)

/-- C7: `handleResourceRelease` conserves mass — the floored credits sum to
at most `min(rate × eligible-worker-count, pre-distribution node amount)`,
the node amount afterwards is non-negative, no single worker is credited
more than its free cargo space or the per-unit rate, and a residual amount
strictly below `1e-10` is clamped to exactly `0`. -/
theorem handleResourceRelease_conserves_mass
    (researched : Team → ResourceType → Bool) (rateOf : ResourceType → ℚ)
    (rtype : ResourceType) (amount : ℚ) (cells : List (List RUnit))
    (hrate : 0 ≤ rateOf rtype) (hamount : 0 ≤ amount)
    (hspace : ∀ l ∈ cells, ∀ u ∈ l, 0 ≤ u.getCargoSpaceLeft) :
    ((handleResourceRelease researched rateOf rtype amount cells).credits.map Prod.snd).sum ≤
      min (rateOf rtype * ((eligibleWorkers researched rtype cells).length : ℚ)) amount ∧
    0 ≤ (handleResourceRelease researched rateOf rtype amount cells).newAmount ∧
    (∀ p ∈ (handleResourceRelease researched rateOf rtype amount cells).credits,
      p.2 ≤ p.1.getCargoSpaceLeft ∧ p.2 ≤ rateOf rtype) ∧
    (amount - (handleResourceRelease researched rateOf rtype amount cells).amountDistributed <
        1 / 10 ^ 10 →
      (handleResourceRelease researched rateOf rtype amount cells).newAmount = 0) := by
  have hel : ∀ u ∈ eligibleWorkers researched rtype cells, 0 ≤ u.getCargoSpaceLeft := by
    intro u hu
    have : ∀ (acc : List RUnit), (∀ v ∈ acc, 0 ≤ v.getCargoSpaceLeft) →
        ∀ (ls : List (List RUnit)), (∀ l ∈ ls, ∀ v ∈ l, 0 ≤ v.getCargoSpaceLeft) →
        ∀ v ∈ ls.foldl (fun acc units =>
          acc ++ units.filter (fun u => u.isWorkerType && researched u.team rtype)) acc,
        0 ≤ v.getCargoSpaceLeft := by
      intro acc hacc ls
      induction ls generalizing acc with
      | nil => intro _ v hv; exact hacc v hv
      | cons l ls ih =>
        intro hls v hv
        refine ih (acc ++ l.filter (fun u => u.isWorkerType && researched u.team rtype)) ?_
          (fun l2 hl2 => hls l2 (List.mem_cons_of_mem _ hl2)) v hv
        intro w hw
        rcases List.mem_append.mp hw with hw | hw
        · exact hacc w hw
        · exact hls l (List.mem_cons_self _ _) w (List.mem_of_mem_filter hw)
    exact this [] (by simp) cells hspace u hu
  have hsorted : ∀ u ∈ stableSortByKey RUnit.getCargoSpaceLeft
      (eligibleWorkers researched rtype cells), 0 ≤ u.getCargoSpaceLeft := by
    intro u hu
    exact hel u ((stableSortByKey_perm _ _).mem_iff.mp hu)
  set pool0 := min (rateOf rtype * ((eligibleWorkers researched rtype cells).length : ℚ)) amount
    with hpool0
  have hpool0nn : 0 ≤ pool0 := le_min (by positivity) hamount
  have hpool0le : pool0 ≤ amount := min_le_right _ _
  obtain ⟨hb1, hb2, hb3, hb4⟩ := credList_bounds (rateOf rtype) hrate
    (stableSortByKey RUnit.getCargoSpaceLeft (eligibleWorkers researched rtype cells))
    pool0 hpool0nn hsorted
  rw [handleResourceRelease_eq]
  refine ⟨?_, ?_, ?_, ?_⟩
  · exact le_trans hb3 (by linarith)
  · by_cases hclamp : amount - (pool0 - poolAfter (rateOf rtype)
        (stableSortByKey RUnit.getCargoSpaceLeft (eligibleWorkers researched rtype cells)) pool0) <
        1 / 10 ^ 10
    · simp only [← hpool0, if_pos hclamp]
      exact le_refl 0
    · simp only [← hpool0, if_neg hclamp]
      linarith
  · exact hb4
  · intro hres
    simp only [← hpool0] at hres ⊢
    rw [if_pos hres]

/-- Witness for C7 at the concrete 40-uranium scenario. -/
theorem handleResourceRelease_conserves_mass_witness :
    ((handleResourceRelease
        (fun _ t => match t with | ResourceType.uranium => true | _ => false)
        (fun t => match t with | ResourceType.uranium => (2 : ℚ) | _ => 1)
        ResourceType.uranium 40
        [[], [⟨"u_1", Team.A, true, ⟨95, 0, 0⟩, 100⟩],
          [⟨"u_2", Team.A, true, ⟨0, 0, 0⟩, 100⟩],
          [⟨"u_3", Team.A, true, ⟨0, 0, 0⟩, 100⟩]]).credits.map Prod.snd).sum ≤
      min ((2 : ℚ) * ((eligibleWorkers
        (fun _ t => match t with | ResourceType.uranium => true | _ => false)
        ResourceType.uranium
        [[], [⟨"u_1", Team.A, true, ⟨95, 0, 0⟩, 100⟩],
          [⟨"u_2", Team.A, true, ⟨0, 0, 0⟩, 100⟩],
          [⟨"u_3", Team.A, true, ⟨0, 0, 0⟩, 100⟩]]).length : ℚ)) 40 ∧
    0 ≤ (handleResourceRelease
        (fun _ t => match t with | ResourceType.uranium => true | _ => false)
        (fun t => match t with | ResourceType.uranium => (2 : ℚ) | _ => 1)
        ResourceType.uranium 40
        [[], [⟨"u_1", Team.A, true, ⟨95, 0, 0⟩, 100⟩],
          [⟨"u_2", Team.A, true, ⟨0, 0, 0⟩, 100⟩],
          [⟨"u_3", Team.A, true, ⟨0, 0, 0⟩, 100⟩]]).newAmount := by
  have h := handleResourceRelease_conserves_mass
    (fun _ t => match t with | ResourceType.uranium => true | _ => false)
    (fun t => match t with | ResourceType.uranium => (2 : ℚ) | _ => 1)
    ResourceType.uranium 40
    [[], [⟨"u_1", Team.A, true, ⟨95, 0, 0⟩, 100⟩],
      [⟨"u_2", Team.A, true, ⟨0, 0, 0⟩, 100⟩],
      [⟨"u_3", Team.A, true, ⟨0, 0, 0⟩, 100⟩]]
    (by norm_num) (by norm_num)
    (by
      intro l hl u hu
      simp only [List.mem_cons, List.mem_singleton] at hl
      rcases hl with rfl | rfl | rfl | rfl | h
      · simp at hu
      all_goals first
        | (simp only [List.mem_singleton] at hu; subst hu;
           norm_num [RUnit.getCargoSpaceLeft])
        | simp at h)
  exact ⟨h.1, h.2.1⟩

/-! Association-list lemmas for the generic map operations. -/
theorem alGet_eq_some_mem {α β : Type} [DecidableEq α] {m : List (α × β)}
    {k : α} {v : β} (h : alGet m k = some v) : (k, v) ∈ m := by
  unfold alGet at h
  cases hf : m.find? (fun p => p.1 = k) with
  | none => rw [hf] at h; cases h
  | some p =>
    rw [hf] at h
    obtain rfl : p.2 = v := Option.some.inj h
    have hmem := List.mem_of_find?_eq_some hf
    have hk := List.find?_some hf
    simp only [decide_eq_true_eq] at hk
    rw [← hk]
    exact hmem

theorem alGet_none_iff {α β : Type} [DecidableEq α] {m : List (α × β)} {k : α} :
    alGet m k = none ↔ k ∉ alKeys m := by
  unfold alGet alKeys
  cases hf : m.find? (fun p => p.1 = k) with
  | none =>
    simp only [true_iff]
    intro hmem
    obtain ⟨p, hp, hpk⟩ := List.mem_map.mp hmem
    have := List.find?_eq_none.mp hf p hp
    simp [hpk] at this
  | some p =>
    simp only [reduceCtorEq, false_iff, not_not]
    have hmem := List.mem_of_find?_eq_some hf
    have hk := List.find?_some hf
    simp only [decide_eq_true_eq] at hk
    exact List.mem_map.mpr ⟨p, hmem, hk⟩

theorem alGet_isSome_iff {α β : Type} [DecidableEq α] {m : List (α × β)} {k : α} :
    (alGet m k).isSome = true ↔ k ∈ alKeys m := by
  constructor
  · intro h
    by_contra hk
    rw [alGet_none_iff.mpr hk] at h
    cases h
  · intro hk
    cases hg : alGet m k with
    | none => exact absurd hk (alGet_none_iff.mp hg)
    | some v => rfl

theorem alKeys_nodup_get {α β : Type} [DecidableEq α] {m : List (α × β)}
    (hnd : (alKeys m).Nodup) {k : α} {v : β} (h : (k, v) ∈ m) :
    alGet m k = some v := by
  induction m with
  | nil => cases h
  | cons p rest ih =>
    unfold alGet
    rcases List.mem_cons.mp h with rfl | hrest
    · simp [List.find?_cons_of_pos]
    · have hk : p.1 ≠ k := by
        intro hkeq
        have : k ∈ alKeys rest := List.mem_map.mpr ⟨(k, v), hrest, rfl⟩
        rw [alKeys, List.map_cons] at hnd
        rw [hkeq] at hnd
        exact (List.nodup_cons.mp hnd).1 this
      rw [List.find?_cons_of_neg _ (by simp [hk])]
      have hnd2 : (alKeys rest).Nodup := by
        rw [alKeys, List.map_cons] at hnd
        exact (List.nodup_cons.mp hnd).2
      have := ih hnd2 hrest
      unfold alGet at this
      exact this

theorem alGet_alSet_self {α β : Type} [DecidableEq α] (m : List (α × β))
    (k : α) (v : β) : alGet (alSet m k v) k = some v := by
  induction m with
  | nil => simp [alSet, alGet]
  | cons p rest ih =>
    rw [alSet]
    by_cases hp : p.1 = k
    · rw [if_pos hp]
      simp [alGet]
    · rw [if_neg hp]
      unfold alGet
      rw [List.find?_cons_of_neg _ (by simp [hp])]
      unfold alGet at ih
      exact ih

theorem alGet_alSet_other {α β : Type} [DecidableEq α] (m : List (α × β))
    (k k2 : α) (v : β) (hne : k2 ≠ k) :
    alGet (alSet m k v) k2 = alGet m k2 := by
  induction m with
  | nil => simp [alSet, alGet, List.find?_cons_of_neg, hne, Ne.symm hne]
  | cons p rest ih =>
    rw [alSet]
    by_cases hp : p.1 = k
    · rw [if_pos hp]
      unfold alGet
      rw [List.find?_cons_of_neg _ (by simp [Ne.symm hne]),
        List.find?_cons_of_neg _ (by simp [hp ▸ Ne.symm hne])]
    · rw [if_neg hp]
      unfold alGet
      by_cases hp2 : p.1 = k2
      · rw [List.find?_cons_of_pos _ (by simp [hp2]),
          List.find?_cons_of_pos _ (by simp [hp2])]
      · rw [List.find?_cons_of_neg _ (by simp [hp2]),
          List.find?_cons_of_neg _ (by simp [hp2])]
        unfold alGet at ih
        exact ih

theorem alGet_alDelete_self {α β : Type} [DecidableEq α] (m : List (α × β))
    (k : α) : alGet (alDelete m k) k = none := by
  rw [alGet_none_iff]
  intro hk
  obtain ⟨p, hp, hpk⟩ := List.mem_map.mp hk
  have := (List.mem_filter.mp hp).2
  simp [hpk] at this

theorem alGet_alDelete_other {α β : Type} [DecidableEq α] (m : List (α × β))
    (k k2 : α) (hne : k2 ≠ k) :
    alGet (alDelete m k) k2 = alGet m k2 := by
  induction m with
  | nil => rfl
  | cons p rest ih =>
    unfold alDelete alGet
    by_cases hp : p.1 = k
    · rw [List.filter_cons_of_neg (by simp [hp]),
        List.find?_cons_of_neg _ (by simp [hp]; exact Ne.symm hne)]
      unfold alDelete alGet at ih
      exact ih
    · rw [List.filter_cons_of_pos (by simp [hp])]
      by_cases hp2 : p.1 = k2
      · rw [List.find?_cons_of_pos _ (by simp [hp2]),
          List.find?_cons_of_pos _ (by simp [hp2])]
      · rw [List.find?_cons_of_neg _ (by simp [hp2]),
          List.find?_cons_of_neg _ (by simp [hp2])]
        unfold alDelete alGet at ih
        exact ih

theorem alKeys_alSet_present {α β : Type} [DecidableEq α] (m : List (α × β))
    (k : α) (v : β) (h : k ∈ alKeys m) :
    alKeys (alSet m k v) = alKeys m := by
  induction m with
  | nil => cases h
  | cons p rest ih =>
    rw [alSet]
    by_cases hp : p.1 = k
    · rw [if_pos hp]
      simp [alKeys, hp]
    · rw [if_neg hp]
      have h2 : k ∈ alKeys rest := by
        rcases List.mem_cons.mp h with heq | h2
        · exact absurd heq.symm hp
        · exact h2
      rw [show alKeys (p :: alSet rest k v) = p.1 :: alKeys (alSet rest k v) from rfl,
        show alKeys (p :: rest) = p.1 :: alKeys rest from rfl, ih h2]

theorem alKeys_alSet_absent {α β : Type} [DecidableEq α] (m : List (α × β))
    (k : α) (v : β) (h : k ∉ alKeys m) :
    alKeys (alSet m k v) = alKeys m ++ [k] := by
  induction m with
  | nil => rfl
  | cons p rest ih =>
    rw [alSet]
    by_cases hp : p.1 = k
    · exact absurd (List.mem_cons_self _ _) (hp ▸ h)
    · rw [if_neg hp]
      have h2 : k ∉ alKeys rest := fun hh => h (List.mem_cons_of_mem _ hh)
      rw [show alKeys (p :: alSet rest k v) = p.1 :: alKeys (alSet rest k v) from rfl,
        ih h2]
      rfl

theorem alKeys_alDelete_sublist {α β : Type} [DecidableEq α] (m : List (α × β))
    (k : α) : (alKeys (alDelete m k)).Sublist (alKeys m) :=
  List.Sublist.map _ (List.filter_sublist m)

theorem alKeys_nodup_alSet {α β : Type} [DecidableEq α] (m : List (α × β))
    (k : α) (v : β) (h : (alKeys m).Nodup) : (alKeys (alSet m k v)).Nodup := by
  by_cases hk : k ∈ alKeys m
  · rw [alKeys_alSet_present m k v hk]; exact h
  · rw [alKeys_alSet_absent m k v hk]
    simp [List.nodup_append, h, hk]

theorem alKeys_nodup_alDelete {α β : Type} [DecidableEq α] (m : List (α × β))
    (k : α) (h : (alKeys m).Nodup) : (alKeys (alDelete m k)).Nodup :=
  (alKeys_alDelete_sublist m k).nodup h

theorem alGet_foldl_alDelete {α β : Type} [DecidableEq α] (ks : List α)
    (m : List (α × β)) (q : α) :
    alGet (ks.foldl (fun m k => alDelete m k) m) q =
      if q ∈ ks then none else alGet m q := by
  induction ks generalizing m with
  | nil => simp
  | cons k rest ih =>
    rw [List.foldl_cons, ih]
    by_cases hq : q ∈ rest
    · simp [hq, List.mem_cons]
    · by_cases hqk : q = k
      · simp [hq, hqk, alGet_alDelete_self]
      · simp [hq, hqk, alGet_alDelete_other m k q hqk]

theorem alKeys_nodup_foldl_alDelete {α β : Type} [DecidableEq α] (ks : List α)
    (m : List (α × β)) (h : (alKeys m).Nodup) :
    (alKeys (ks.foldl (fun m k => alDelete m k) m)).Nodup := by
  induction ks generalizing m with
  | nil => exact h
  | cons k rest ih =>
    rw [List.foldl_cons]
    exact ih _ (alKeys_nodup_alDelete m k h)

/-! Geometry of the canonical neighbor list. -/
theorem mem_adjacentPositions {inMap : Int × Int → Bool} {p q : Int × Int} :
    q ∈ adjacentPositions inMap p ↔ inMap q = true ∧
      (q = (p.1, p.2 - 1) ∨ q = (p.1 + 1, p.2) ∨
        q = (p.1, p.2 + 1) ∨ q = (p.1 - 1, p.2)) := by
  unfold adjacentPositions
  rw [List.mem_filter]
  constructor
  · rintro ⟨h1, h2⟩
    refine ⟨h2, ?_⟩
    simpa using h1
  · rintro ⟨h2, h1⟩
    exact ⟨by simpa using h1, h2⟩

theorem self_not_mem_adjacentPositions (inMap : Int × Int → Bool)
    (p : Int × Int) : p ∉ adjacentPositions inMap p := by
  intro h
  have := (mem_adjacentPositions.mp h).2
  rcases p with ⟨x, y⟩
  simp [Prod.mk.injEq] at this
  omega

theorem adjacentPositions_symm {inMap : Int × Int → Bool} {p q : Int × Int}
    (hin : inMap p = true) (h : q ∈ adjacentPositions inMap p) :
    p ∈ adjacentPositions inMap q := by
  rcases mem_adjacentPositions.mp h with ⟨hq, hcase⟩
  rw [mem_adjacentPositions]
  refine ⟨hin, ?_⟩
  rcases p with ⟨x, y⟩
  rcases q with ⟨a, b⟩
  simp [Prod.mk.injEq] at hcase ⊢
  omega

theorem nodup_adjacentPositions (inMap : Int × Int → Bool) (p : Int × Int) :
    (adjacentPositions inMap p).Nodup := by
  apply List.Nodup.filter
  rcases p with ⟨x, y⟩
  simp [List.nodup_cons, Prod.mk.injEq]
  omega

/-! The same-team adjacent tile list. -/
theorem mem_adjSameTeamCityTiles {inMap : Int × Int → Bool}
    {cls : List ((Int × Int) × CityTile)} {team : Team} {pos : Int × Int}
    {q : Int × Int} {t : CityTile} :
    (q, t) ∈ adjSameTeamCityTiles inMap cls team pos ↔
      q ∈ adjacentPositions inMap pos ∧ alGet cls q = some t ∧ t.team = team := by
  unfold adjSameTeamCityTiles
  rw [List.mem_filterMap]
  constructor
  · rintro ⟨r, hr, hf⟩
    cases hg : alGet cls r with
    | none => simp [hg] at hf
    | some t0 =>
      simp only [hg] at hf
      by_cases ht : t0.team = team
      · rw [if_pos ht] at hf
        have := Option.some.inj hf
        rw [Prod.mk.injEq] at this
        obtain ⟨rfl, rfl⟩ := this
        exact ⟨hr, hg, ht⟩
      · rw [if_neg ht] at hf
        cases hf
  · rintro ⟨hadj, hget, hteam⟩
    refine ⟨q, hadj, ?_⟩
    simp only [hget]
    rw [if_pos hteam]

theorem alKeys_filterMap_nodup {l : List (Int × Int)} (hl : l.Nodup)
    (f : Int × Int → Option ((Int × Int) × CityTile))
    (hf : ∀ q p, f q = some p → p.1 = q) :
    (alKeys (l.filterMap f)).Nodup := by
  induction l with
  | nil => exact List.nodup_nil
  | cons q rest ih =>
    have hq := (List.nodup_cons.mp hl).1
    have hrest := (List.nodup_cons.mp hl).2
    rw [List.filterMap_cons]
    cases hg : f q with
    | none => exact ih hrest
    | some p =>
      rw [show alKeys (p :: List.filterMap f rest) =
        p.1 :: alKeys (List.filterMap f rest) from rfl]
      rw [List.nodup_cons]
      refine ⟨?_, ih hrest⟩
      intro hmem
      obtain ⟨p2, hp2, hkey⟩ := List.mem_map.mp hmem
      obtain ⟨r, hrm, hfr⟩ := List.mem_filterMap.mp hp2
      have h1 := hf q p hg
      have h2 := hf r p2 hfr
      rw [h1, h2] at hkey
      exact hq (hkey ▸ hrm)

theorem adjSameTeamCityTiles_keys_nodup (inMap : Int × Int → Bool)
    (cls : List ((Int × Int) × CityTile)) (team : Team) (pos : Int × Int) :
    (alKeys (adjSameTeamCityTiles inMap cls team pos)).Nodup := by
  unfold adjSameTeamCityTiles
  apply alKeys_filterMap_nodup (nodup_adjacentPositions inMap pos)
  intro q p hp
  cases hg : alGet cls q with
  | none => simp [hg] at hp
  | some t0 =>
    simp only [hg] at hp
    by_cases ht : t0.team = team
    · rw [if_pos ht] at hp
      exact congrArg Prod.fst (Option.some.inj hp).symm
    · rw [if_neg ht] at hp
      cases hp

theorem recount_eq_length_adjSame (inMap : Int × Int → Bool)
    (cls : List ((Int × Int) × CityTile)) (team : Team) (pos : Int × Int) :
    recount inMap cls team pos = (adjSameTeamCityTiles inMap cls team pos).length := by
  unfold recount adjSameTeamCityTiles
  generalize adjacentPositions inMap pos = l
  induction l with
  | nil => rfl
  | cons q rest ih =>
    rw [List.filter_cons, List.filterMap_cons]
    cases hg : alGet cls q with
    | none => simpa [hg] using ih
    | some t => by_cases ht : t.team = team <;> simp [hg, ht, ih]

/-! The neighbor-counter bump fold. -/
theorem alGet_bumpAdjCounters (adj : List ((Int × Int) × CityTile))
    (cls : List ((Int × Int) × CityTile)) (q : Int × Int)
    (hnod : (alKeys adj).Nodup) :
    alGet (bumpAdjCounters adj cls) q =
      if q ∈ alKeys adj then
        (alGet cls q).map (fun t => ⟨t.team, t.cityid, t.adjacentCityTiles + 1⟩)
      else alGet cls q := by
  induction adj generalizing cls with
  | nil => simp [bumpAdjCounters, alKeys]
  | cons a rest ih =>
    have hnod2 : (alKeys rest).Nodup := (List.nodup_cons.mp hnod).2
    have ha : a.1 ∉ alKeys rest := (List.nodup_cons.mp hnod).1
    have hkeys : alKeys (a :: rest) = a.1 :: alKeys rest := rfl
    have hstep : bumpAdjCounters (a :: rest) cls = bumpAdjCounters rest
        (match alGet cls a.1 with
          | some t => alSet cls a.1 ⟨t.team, t.cityid, t.adjacentCityTiles + 1⟩
          | none => cls) := rfl
    rw [hstep, ih _ hnod2]
    by_cases hq : q ∈ alKeys rest
    · rw [if_pos hq, if_pos (hkeys ▸ List.mem_cons_of_mem _ hq)]
      have hqa : q ≠ a.1 := fun he => ha (he ▸ hq)
      cases hg : alGet cls a.1 with
      | none => simp only [hg]
      | some t =>
        simp only [hg]
        rw [alGet_alSet_other _ _ _ _ hqa]
    · rw [if_neg hq]
      by_cases hqa : q = a.1
      · rw [if_pos (by rw [hkeys, hqa]; exact List.mem_cons_self _ _)]
        cases hg : alGet cls a.1 with
        | none =>
          simp only [hg]
          rw [hqa, hg]
          rfl
        | some t =>
          simp only [hg]
          rw [hqa, alGet_alSet_self, hg]
          rfl
      · rw [if_neg (by rw [hkeys]; simp [hqa, hq])]
        cases hg : alGet cls a.1 with
        | none => simp only [hg]
        | some t =>
          simp only [hg]
          rw [alGet_alSet_other _ _ _ _ hqa]

/-! JS `Set` dedup order. -/
theorem mem_insertOrderDedupAux (seen : List String) (l : List String)
    (x : String) :
    x ∈ insertOrderDedupAux seen l ↔ x ∈ l ∧ x ∉ seen := by
  induction l generalizing seen with
  | nil => simp [insertOrderDedupAux]
  | cons y ys ih =>
    rw [insertOrderDedupAux]
    by_cases hc : seen.contains y = true
    · rw [if_pos hc, ih]
      have hy : y ∈ seen := List.mem_of_elem_eq_true hc
      constructor
      · rintro ⟨h1, h2⟩
        exact ⟨List.mem_cons_of_mem _ h1, h2⟩
      · rintro ⟨h1, h2⟩
        rcases List.mem_cons.mp h1 with rfl | h1
        · exact absurd hy h2
        · exact ⟨h1, h2⟩
    · rw [if_neg hc]
      have hy : y ∉ seen := fun hh => hc (List.elem_eq_true_of_mem hh)
      rw [List.mem_cons, ih]
      constructor
      · rintro (rfl | ⟨h1, h2⟩)
        · exact ⟨List.mem_cons_self _ _, hy⟩
        · refine ⟨List.mem_cons_of_mem _ h1, fun hh => h2 ?_⟩
          exact List.mem_append_left _ hh
      · rintro ⟨h1, h2⟩
        rcases List.mem_cons.mp h1 with rfl | h1
        · exact Or.inl rfl
        · by_cases hxy : x = y
          · exact Or.inl hxy
          · refine Or.inr ⟨h1, fun hh => ?_⟩
            rcases List.mem_append.mp hh with hh | hh
            · exact h2 hh
            · exact hxy (List.mem_singleton.mp hh)

theorem mem_insertOrderDedup (l : List String) (x : String) :
    x ∈ insertOrderDedup l ↔ x ∈ l := by
  rw [insertOrderDedup, mem_insertOrderDedupAux]
  simp

theorem nodup_insertOrderDedupAux (seen : List String) (l : List String) :
    (insertOrderDedupAux seen l).Nodup := by
  induction l generalizing seen with
  | nil => exact List.nodup_nil
  | cons y ys ih =>
    rw [insertOrderDedupAux]
    by_cases hc : seen.contains y = true
    · rw [if_pos hc]
      exact ih seen
    · rw [if_neg hc]
      rw [List.nodup_cons]
      refine ⟨?_, ih _⟩
      intro hmem
      have := (mem_insertOrderDedupAux _ _ _).mp hmem
      exact this.2 (List.mem_append_right _ (List.mem_singleton.mpr rfl))

theorem nodup_cityIdsFound (inMap : Int × Int → Bool)
    (cls : List ((Int × Int) × CityTile)) (team : Team) (pos : Int × Int) :
    (cityIdsFound inMap cls team pos).Nodup :=
  nodup_insertOrderDedupAux [] _

theorem mem_cityIdsFound {inMap : Int × Int → Bool}
    {cls : List ((Int × Int) × CityTile)} {team : Team} {pos : Int × Int}
    {id : String} :
    id ∈ cityIdsFound inMap cls team pos ↔
      ∃ q t, (q, t) ∈ adjSameTeamCityTiles inMap cls team pos ∧ t.cityid = id := by
  rw [cityIdsFound, mem_insertOrderDedup, List.mem_map]
  constructor
  · rintro ⟨p, hp, hid⟩
    exact ⟨p.1, p.2, hp, hid⟩
  · rintro ⟨q, t, hqt, hid⟩
    exact ⟨(q, t), hqt, hid⟩

/-! The per-city reassignment fold inside a merge. -/
theorem reassignFold_spec (survId : String) (qs : List (Int × Int))
    (cls : List ((Int × Int) × CityTile))
    (hqs : ∀ q ∈ qs, q ∈ alKeys cls) :
    ∃ cls2, qs.foldl (reassignCell survId) (some cls) = some cls2 ∧
      alKeys cls2 = alKeys cls ∧
      (∀ q t0, alGet cls q = some t0 →
        alGet cls2 q = some ⟨t0.team,
          if q ∈ qs then survId else t0.cityid, t0.adjacentCityTiles⟩) ∧
      (∀ q, alGet cls q = none → alGet cls2 q = none) := by
  induction qs generalizing cls with
  | nil =>
    refine ⟨cls, rfl, rfl, ?_, fun q h => h⟩
    intro q t0 h
    simp [h]
  | cons q0 qs2 ih =>
    have hq0 : q0 ∈ alKeys cls := hqs q0 (List.mem_cons_self _ _)
    obtain ⟨t00, ht00⟩ := Option.isSome_iff_exists.mp (alGet_isSome_iff.mpr hq0)
    have hstep : (q0 :: qs2).foldl (reassignCell survId) (some cls) =
        qs2.foldl (reassignCell survId)
          (some (alSet cls q0 ⟨t00.team, survId, t00.adjacentCityTiles⟩)) := by
      rw [List.foldl_cons]
      congr 1
      unfold reassignCell
      simp only [ht00]
    set cls1 := alSet cls q0 ⟨t00.team, survId, t00.adjacentCityTiles⟩ with hcls1
    have hkeys1 : alKeys cls1 = alKeys cls := alKeys_alSet_present cls q0 _ hq0
    have hqs2 : ∀ q ∈ qs2, q ∈ alKeys cls1 := by
      intro q hq
      rw [hkeys1]
      exact hqs q (List.mem_cons_of_mem _ hq)
    obtain ⟨cls2, hfold, hkeys2, hsome, hnone⟩ := ih cls1 hqs2
    refine ⟨cls2, by rw [hstep, hfold], by rw [hkeys2, hkeys1], ?_, ?_⟩
    · intro q t0 h
      by_cases hqq : q = q0
      · subst hqq
        obtain rfl : t00 = t0 := Option.some.inj (ht00 ▸ h)
        have h1 : alGet cls1 q = some ⟨t00.team, survId, t00.adjacentCityTiles⟩ :=
          alGet_alSet_self cls q _
        have := hsome q _ h1
        rw [this]
        by_cases hq2 : q ∈ qs2 <;>
          simp [hq2, List.mem_cons]
      · have h1 : alGet cls1 q = some t0 := by
          rw [hcls1, alGet_alSet_other _ _ _ _ hqq, h]
        have := hsome q _ h1
        rw [this]
        by_cases hq2 : q ∈ qs2
        · simp [hq2, List.mem_cons]
        · have hq3 : q ∉ q0 :: qs2 := by simp [List.mem_cons, hqq, hq2]
          simp [hq2, hq3]
    · intro q h
      have hqq : q ≠ q0 := by
        intro he
        rw [he, ht00] at h
        cases h
      apply hnone
      rw [hcls1, alGet_alSet_other _ _ _ _ hqq, h]

/-! The merge fold over `cityIdsFound`. -/
theorem if_mem_append_collapse (q : Int × Int) (A B : List (Int × Int))
    (s c : String) :
    (if q ∈ B then s else if q ∈ A then s else c) = if q ∈ A ++ B then s else c := by
  by_cases hA : q ∈ A
  · by_cases hB : q ∈ B <;> simp [hA, hB, List.mem_append]
  · by_cases hB : q ∈ B <;> simp [hA, hB, List.mem_append]

theorem mergeStep_some (survId : String) (cls : List ((Int × Int) × CityTile))
    (cts : List (String × City)) (city : City) (id : String) :
    mergeStep survId (some (cls, cts, city)) id =
      if id = survId then some (cls, cts, city)
      else match alGet cts id with
        | none => none
        | some oldcity =>
          match oldcity.citycells.foldl (reassignCell survId) (some cls) with
          | none => none
          | some cls2 =>
            some (cls2, alDelete cts oldcity.id,
              ⟨city.id, city.team, city.fuel + oldcity.fuel,
                city.citycells ++ oldcity.citycells⟩) := rfl

theorem mergeFold_spec (survId : String) (ids : List String)
    (cls : List ((Int × Int) × CityTile)) (cts : List (String × City))
    (city : City) (hnodup : ids.Nodup)
    (hcts : ∀ id ∈ ids, id ≠ survId → ∃ c, alGet cts id = some c ∧ c.id = id ∧
      ∀ q ∈ c.citycells, q ∈ alKeys cls) :
    ∃ cls2 cts2,
      ids.foldl (mergeStep survId) (some (cls, cts, city)) =
        some (cls2, cts2,
          ⟨city.id, city.team,
            city.fuel + ((ids.filter (fun i => i ≠ survId)).map (lookedUpFuel cts)).sum,
            city.citycells ++
              ((ids.filter (fun i => i ≠ survId)).map (lookedUpCells cts)).flatten⟩) ∧
      (∀ id ∈ ids, id ≠ survId → alGet cts2 id = none) ∧
      (∀ k, (k ∈ ids → k = survId) → alGet cts2 k = alGet cts k) ∧
      (alKeys cts2).Sublist (alKeys cts) ∧
      alKeys cls2 = alKeys cls ∧
      (∀ q t0, alGet cls q = some t0 →
        alGet cls2 q = some ⟨t0.team,
          if q ∈ ((ids.filter (fun i => i ≠ survId)).map (lookedUpCells cts)).flatten
          then survId else t0.cityid, t0.adjacentCityTiles⟩) ∧
      (∀ q, alGet cls q = none → alGet cls2 q = none) := by
  revert hnodup hcts
  induction ids generalizing cls cts city with
  | nil =>
    intro hnodup hcts
    refine ⟨cls, cts, ?_, by simp, fun k _ => rfl, List.Sublist.refl _, rfl, ?_,
      fun q h => h⟩
    · simp
    · intro q t0 h
      simp [h]
  | cons id ids2 ih =>
    intro hnodup hcts
    have hnodup2 : ids2.Nodup := (List.nodup_cons.mp hnodup).2
    have hid : id ∉ ids2 := (List.nodup_cons.mp hnodup).1
    rw [List.foldl_cons]
    by_cases hids : id = survId
    · have hskip : mergeStep survId (some (cls, cts, city)) id = some (cls, cts, city) := by
        rw [mergeStep_some, if_pos hids]
      have hfilter : (id :: ids2).filter (fun i => i ≠ survId) =
          ids2.filter (fun i => i ≠ survId) := by
        rw [List.filter_cons_of_neg]
        simp [hids]
      have hcts2 : ∀ i ∈ ids2, i ≠ survId → ∃ c, alGet cts i = some c ∧ c.id = i ∧
          ∀ q ∈ c.citycells, q ∈ alKeys cls :=
        fun i hi hni => hcts i (List.mem_cons_of_mem _ hi) hni
      obtain ⟨cls2, cts2, h1, h2, h3, h4, h5, h6, h7⟩ := ih cls cts city hnodup2 hcts2
      rw [hskip]
      refine ⟨cls2, cts2, by rw [hfilter]; exact h1, ?_, ?_, h4, h5, ?_, h7⟩
      · intro i hi hni
        rcases List.mem_cons.mp hi with rfl | hi2
        · exact absurd hids hni
        · exact h2 i hi2 hni
      · intro k hk
        exact h3 k (fun hk2 => hk (List.mem_cons_of_mem _ hk2))
      · simp only [hfilter]
        exact h6
    · obtain ⟨oldc, holdc, holdid, hocells⟩ := hcts id (List.mem_cons_self _ _) hids
      obtain ⟨cls1, hrfold, hrkeys, hrsome, hrnone⟩ :=
        reassignFold_spec survId oldc.citycells cls hocells
      have hstep : mergeStep survId (some (cls, cts, city)) id =
          some (cls1, alDelete cts id,
            ⟨city.id, city.team, city.fuel + oldc.fuel,
              city.citycells ++ oldc.citycells⟩) := by
        rw [mergeStep_some, if_neg hids]
        simp only [holdc, hrfold, holdid]
      rw [hstep]
      have hcts2 : ∀ i ∈ ids2, i ≠ survId → ∃ c, alGet (alDelete cts id) i = some c ∧
          c.id = i ∧ ∀ q ∈ c.citycells, q ∈ alKeys cls1 := by
        intro i hi hni
        obtain ⟨c, hc, hcid, hcc⟩ := hcts i (List.mem_cons_of_mem _ hi) hni
        have hne : i ≠ id := fun he => hid (he ▸ hi)
        refine ⟨c, ?_, hcid, ?_⟩
        · rw [alGet_alDelete_other cts id i hne]
          exact hc
        · intro q hq
          rw [hrkeys]
          exact hcc q hq
      obtain ⟨cls2, cts2, h1, h2, h3, h4, h5, h6, h7⟩ :=
        ih cls1 (alDelete cts id)
          ⟨city.id, city.team, city.fuel + oldc.fuel, city.citycells ++ oldc.citycells⟩
          hnodup2 hcts2
      have hfilter : (id :: ids2).filter (fun i => i ≠ survId) =
          id :: ids2.filter (fun i => i ≠ survId) := by
        rw [List.filter_cons_of_pos]
        simp [hids]
      have hmapF : (ids2.filter (fun i => i ≠ survId)).map (lookedUpFuel (alDelete cts id)) =
          (ids2.filter (fun i => i ≠ survId)).map (lookedUpFuel cts) := by
        apply List.map_congr_left
        intro i hi
        have hne : i ≠ id := fun he => hid (he ▸ (List.mem_filter.mp hi).1)
        unfold lookedUpFuel
        rw [alGet_alDelete_other cts id i hne]
      have hmapC : (ids2.filter (fun i => i ≠ survId)).map (lookedUpCells (alDelete cts id)) =
          (ids2.filter (fun i => i ≠ survId)).map (lookedUpCells cts) := by
        apply List.map_congr_left
        intro i hi
        have hne : i ≠ id := fun he => hid (he ▸ (List.mem_filter.mp hi).1)
        unfold lookedUpCells
        rw [alGet_alDelete_other cts id i hne]
      have hlookF : lookedUpFuel cts id = oldc.fuel := by
        unfold lookedUpFuel
        rw [holdc]
      have hlookC : lookedUpCells cts id = oldc.citycells := by
        unfold lookedUpCells
        rw [holdc]
      have hcityEq : (⟨city.id, city.team,
          (city.fuel + oldc.fuel) +
            ((ids2.filter (fun i => i ≠ survId)).map (lookedUpFuel (alDelete cts id))).sum,
          (city.citycells ++ oldc.citycells) ++
            ((ids2.filter (fun i => i ≠ survId)).map (lookedUpCells (alDelete cts id))).flatten⟩ : City) =
          ⟨city.id, city.team,
            city.fuel + (((id :: ids2).filter (fun i => i ≠ survId)).map (lookedUpFuel cts)).sum,
            city.citycells ++
              (((id :: ids2).filter (fun i => i ≠ survId)).map (lookedUpCells cts)).flatten⟩ := by
        rw [hfilter, List.map_cons, List.map_cons, List.sum_cons, List.flatten_cons,
          hmapF, hmapC, hlookF, hlookC, add_assoc, List.append_assoc]
      refine ⟨cls2, cts2,
        h1.trans (congrArg (fun c => some (cls2, cts2, c)) hcityEq), ?_, ?_, ?_, ?_, ?_, ?_⟩
      · intro i hi hni
        rcases List.mem_cons.mp hi with rfl | hi2
        · rw [h3 i (fun hm => absurd hm hid)]
          exact alGet_alDelete_self cts i
        · exact h2 i hi2 hni
      · intro k hk
        have hkid : k ≠ id := by
          intro he
          exact hids (he ▸ hk (he ▸ List.mem_cons_self _ _))
        rw [h3 k (fun hm => hk (List.mem_cons_of_mem _ hm)),
          alGet_alDelete_other cts id k hkid]
      · exact h4.trans (alKeys_alDelete_sublist cts id)
      · rw [h5, hrkeys]
      · intro q t0 h
        have h1q := hrsome q t0 h
        have h2q := h6 q _ h1q
        dsimp only at h2q
        rw [hmapC] at h2q
        have hFtot : (((id :: ids2).filter (fun i => i ≠ survId)).map (lookedUpCells cts)).flatten =
            oldc.citycells ++
              ((ids2.filter (fun i => i ≠ survId)).map (lookedUpCells cts)).flatten := by
          rw [hfilter, List.map_cons, List.flatten_cons, hlookC]
        rw [hFtot, h2q, if_mem_append_collapse]
      · intro q h
        exact h7 q (hrnone q h)

/-! Assembling `spawnCityTile` in the merge branch. -/
theorem spawnCityTile_cons (inMap : Int × Int → Bool) (st : CState)
    (team : Team) (pos : Int × Int) (cityidArg : Option String)
    (a0 : (Int × Int) × CityTile) (rest : List ((Int × Int) × CityTile))
    (hadj : adjSameTeamCityTiles inMap st.cellCT team pos = a0 :: rest) :
    spawnCityTile inMap st team pos cityidArg =
      match alGet st.cities a0.2.cityid with
      | none => none
      | some city0 =>
        match (cityIdsFound inMap st.cellCT team pos).foldl (mergeStep a0.2.cityid)
            (some (bumpAdjCounters (a0 :: rest)
                (alSet st.cellCT pos ⟨team, a0.2.cityid, (a0 :: rest).length⟩),
              st.cities,
              ⟨city0.id, city0.team, city0.fuel, city0.citycells ++ [pos]⟩)) with
        | none => none
        | some (cls3, cts3, city3) =>
          some ⟨cls3, alSet cts3 a0.2.cityid city3, st.globalCityIDCount⟩ := by
  simp only [spawnCityTile, hadj]

theorem alKeys_adjSame_subset {inMap : Int × Int → Bool}
    {cls : List ((Int × Int) × CityTile)} {team : Team} {pos : Int × Int}
    {k : Int × Int} (hk : k ∈ alKeys (adjSameTeamCityTiles inMap cls team pos)) :
    k ∈ adjacentPositions inMap pos := by
  obtain ⟨p, hp, hpk⟩ := List.mem_map.mp hk
  have := (mem_adjSameTeamCityTiles.mp hp).1
  rw [hpk] at this
  exact this

theorem mem_alKeys_alSet {α β : Type} [DecidableEq α] (m : List (α × β))
    (k2 : α) (v : β) {k : α} (h : k ∈ alKeys m) : k ∈ alKeys (alSet m k2 v) := by
  by_cases hp : k2 ∈ alKeys m
  · rw [alKeys_alSet_present m k2 v hp]
    exact h
  · rw [alKeys_alSet_absent m k2 v hp]
    exact List.mem_append_left _ h

theorem alKeys_bumpAdjCounters (adj : List ((Int × Int) × CityTile))
    (cls : List ((Int × Int) × CityTile)) :
    alKeys (bumpAdjCounters adj cls) = alKeys cls := by
  induction adj generalizing cls with
  | nil => rfl
  | cons a rest ih =>
    have hstep : bumpAdjCounters (a :: rest) cls = bumpAdjCounters rest
        (match alGet cls a.1 with
          | some t => alSet cls a.1 ⟨t.team, t.cityid, t.adjacentCityTiles + 1⟩
          | none => cls) := rfl
    rw [hstep]
    cases hg : alGet cls a.1 with
    | none =>
      simp only [hg]
      exact ih cls
    | some t =>
      simp only [hg]
      rw [ih _, alKeys_alSet_present]
      exact alGet_isSome_iff.mp (by rw [hg]; rfl)

/-- The full behavior of `spawnCityTile` in its merge branch, given the
first same-team neighbor, the survivor's registry entry, and registry
coherence for the other discovered ids. -/
theorem spawnCityTile_merge_law (inMap : Int × Int → Bool) (st : CState)
    (team : Team) (pos : Int × Int) (cityidArg : Option String)
    (a0 : (Int × Int) × CityTile) (rest : List ((Int × Int) × CityTile))
    (city0 : City)
    (hadj : adjSameTeamCityTiles inMap st.cellCT team pos = a0 :: rest)
    (hcity0 : alGet st.cities a0.2.cityid = some city0)
    (hcoh : ∀ id ∈ cityIdsFound inMap st.cellCT team pos, id ≠ a0.2.cityid →
      ∃ c, alGet st.cities id = some c ∧ c.id = id ∧
        ∀ q ∈ c.citycells, q ∈ alKeys st.cellCT) :
    ∃ st', spawnCityTile inMap st team pos cityidArg = some st' ∧
      st'.globalCityIDCount = st.globalCityIDCount ∧
      alGet st'.cellCT pos = some ⟨team, a0.2.cityid, (a0 :: rest).length⟩ ∧
      (∀ q t0, q ≠ pos → alGet st.cellCT q = some t0 →
        alGet st'.cellCT q = some ⟨t0.team,
          if q ∈ (((cityIdsFound inMap st.cellCT team pos).filter
              (fun i => i ≠ a0.2.cityid)).map (lookedUpCells st.cities)).flatten
            then a0.2.cityid else t0.cityid,
          if q ∈ alKeys (a0 :: rest) then t0.adjacentCityTiles + 1
            else t0.adjacentCityTiles⟩) ∧
      (∀ q, q ≠ pos → alGet st.cellCT q = none → alGet st'.cellCT q = none) ∧
      alGet st'.cities a0.2.cityid = some
        ⟨city0.id, city0.team,
          city0.fuel + (((cityIdsFound inMap st.cellCT team pos).filter
            (fun i => i ≠ a0.2.cityid)).map (lookedUpFuel st.cities)).sum,
          city0.citycells ++ [pos] ++ (((cityIdsFound inMap st.cellCT team pos).filter
            (fun i => i ≠ a0.2.cityid)).map (lookedUpCells st.cities)).flatten⟩ ∧
      (∀ id ∈ cityIdsFound inMap st.cellCT team pos, id ≠ a0.2.cityid →
        alGet st'.cities id = none) ∧
      (∀ k, k ≠ a0.2.cityid → k ∉ cityIdsFound inMap st.cellCT team pos →
        alGet st'.cities k = alGet st.cities k) ∧
      (∀ id ∈ cityIdsFound inMap st.cellCT team pos, id ≠ a0.2.cityid →
        ∀ q ∈ lookedUpCells st.cities id,
          ∃ t, alGet st'.cellCT q = some t ∧ t.cityid = a0.2.cityid) ∧
      (∀ k, k ∈ alKeys st'.cellCT ↔ k ∈ alKeys st.cellCT ∨ k = pos) ∧
      ((alKeys st.cellCT).Nodup → (alKeys st'.cellCT).Nodup) ∧
      ((alKeys st.cities).Nodup → (alKeys st'.cities).Nodup) := by
  have hfoundnodup := nodup_cityIdsFound inMap st.cellCT team pos
  have hkeysadj_nodup : (alKeys (a0 :: rest)).Nodup := by
    rw [← hadj]
    exact adjSameTeamCityTiles_keys_nodup inMap st.cellCT team pos
  have hposnotadj : pos ∉ alKeys (a0 :: rest) := by
    rw [← hadj]
    intro hmem
    exact self_not_mem_adjacentPositions inMap pos (alKeys_adjSame_subset hmem)
  have hkeys1 : ∀ q, q ∈ alKeys st.cellCT →
      q ∈ alKeys (alSet st.cellCT pos ⟨team, a0.2.cityid, (a0 :: rest).length⟩) :=
    fun q hq => mem_alKeys_alSet _ _ _ hq
  have hkeys2 : alKeys (bumpAdjCounters (a0 :: rest)
      (alSet st.cellCT pos ⟨team, a0.2.cityid, (a0 :: rest).length⟩)) =
      alKeys (alSet st.cellCT pos ⟨team, a0.2.cityid, (a0 :: rest).length⟩) :=
    alKeys_bumpAdjCounters _ _
  have hcts : ∀ id ∈ cityIdsFound inMap st.cellCT team pos, id ≠ a0.2.cityid →
      ∃ c, alGet st.cities id = some c ∧ c.id = id ∧
        ∀ q ∈ c.citycells, q ∈ alKeys (bumpAdjCounters (a0 :: rest)
          (alSet st.cellCT pos ⟨team, a0.2.cityid, (a0 :: rest).length⟩)) := by
    intro id hid hne
    obtain ⟨c, hc, hcid, hcc⟩ := hcoh id hid hne
    refine ⟨c, hc, hcid, ?_⟩
    intro q hq
    rw [hkeys2]
    exact hkeys1 q (hcc q hq)
  obtain ⟨cls3, cts3, hfold, h2, h3, h4, h5, h6, h7⟩ :=
    mergeFold_spec a0.2.cityid (cityIdsFound inMap st.cellCT team pos)
      (bumpAdjCounters (a0 :: rest)
        (alSet st.cellCT pos ⟨team, a0.2.cityid, (a0 :: rest).length⟩))
      st.cities
      ⟨city0.id, city0.team, city0.fuel, city0.citycells ++ [pos]⟩
      hfoundnodup hcts
  have hsurv3 : alGet cts3 a0.2.cityid = some city0 := by
    rw [h3 a0.2.cityid (fun _ => rfl)]
    exact hcity0
  have hspawn : spawnCityTile inMap st team pos cityidArg = some
      ⟨cls3, alSet cts3 a0.2.cityid
        ⟨city0.id, city0.team,
          city0.fuel + (((cityIdsFound inMap st.cellCT team pos).filter
            (fun i => i ≠ a0.2.cityid)).map (lookedUpFuel st.cities)).sum,
          (city0.citycells ++ [pos]) ++ (((cityIdsFound inMap st.cellCT team pos).filter
            (fun i => i ≠ a0.2.cityid)).map (lookedUpCells st.cities)).flatten⟩,
        st.globalCityIDCount⟩ := by
    rw [spawnCityTile_cons inMap st team pos cityidArg a0 rest hadj]
    simp only [hcity0, hfold]
  have hpos2 : alGet (bumpAdjCounters (a0 :: rest)
      (alSet st.cellCT pos ⟨team, a0.2.cityid, (a0 :: rest).length⟩)) pos =
      some ⟨team, a0.2.cityid, (a0 :: rest).length⟩ := by
    rw [alGet_bumpAdjCounters _ _ _ hkeysadj_nodup, if_neg hposnotadj,
      alGet_alSet_self]
  have hpos3 : alGet cls3 pos = some ⟨team, a0.2.cityid, (a0 :: rest).length⟩ := by
    have := h6 pos _ hpos2
    rw [this]
    dsimp only
    by_cases hp : pos ∈ (((cityIdsFound inMap st.cellCT team pos).filter
        (fun i => i ≠ a0.2.cityid)).map (lookedUpCells st.cities)).flatten
    · rw [if_pos hp]
    · rw [if_neg hp]
  have hcell3some : ∀ q t0, q ≠ pos → alGet st.cellCT q = some t0 →
      alGet cls3 q = some ⟨t0.team,
        if q ∈ (((cityIdsFound inMap st.cellCT team pos).filter
            (fun i => i ≠ a0.2.cityid)).map (lookedUpCells st.cities)).flatten
          then a0.2.cityid else t0.cityid,
        if q ∈ alKeys (a0 :: rest) then t0.adjacentCityTiles + 1
          else t0.adjacentCityTiles⟩ := by
    intro q t0 hqpos hq
    have hq1 : alGet (alSet st.cellCT pos ⟨team, a0.2.cityid, (a0 :: rest).length⟩) q =
        some t0 := by
      rw [alGet_alSet_other _ _ _ _ hqpos, hq]
    have hq2 : alGet (bumpAdjCounters (a0 :: rest)
        (alSet st.cellCT pos ⟨team, a0.2.cityid, (a0 :: rest).length⟩)) q =
        some ⟨t0.team, t0.cityid,
          if q ∈ alKeys (a0 :: rest) then t0.adjacentCityTiles + 1
            else t0.adjacentCityTiles⟩ := by
      rw [alGet_bumpAdjCounters _ _ _ hkeysadj_nodup]
      by_cases hqa : q ∈ alKeys (a0 :: rest)
      · rw [if_pos hqa, if_pos hqa, hq1]
        rfl
      · rw [if_neg hqa, if_neg hqa, hq1]
    have := h6 q _ hq2
    rw [this]
  have hcell3none : ∀ q, q ≠ pos → alGet st.cellCT q = none →
      alGet cls3 q = none := by
    intro q hqpos hq
    apply h7
    rw [alGet_bumpAdjCounters _ _ _ hkeysadj_nodup]
    by_cases hqa : q ∈ alKeys (a0 :: rest)
    · rw [if_pos hqa, alGet_alSet_other _ _ _ _ hqpos, hq]
      rfl
    · rw [if_neg hqa, alGet_alSet_other _ _ _ _ hqpos, hq]
  have hkeys3 : ∀ k, k ∈ alKeys cls3 ↔ k ∈ alKeys st.cellCT ∨ k = pos := by
    intro k
    rw [h5, hkeys2]
    by_cases hp : pos ∈ alKeys st.cellCT
    · rw [alKeys_alSet_present _ _ _ hp]
      constructor
      · exact Or.inl
      · rintro (hk | rfl)
        · exact hk
        · exact hp
    · rw [alKeys_alSet_absent _ _ _ hp, List.mem_append, List.mem_singleton]
  refine ⟨_, hspawn, rfl, hpos3, hcell3some, hcell3none, ?_, ?_, ?_, ?_, hkeys3, ?_, ?_⟩
  · show alGet (alSet cts3 a0.2.cityid _) a0.2.cityid = _
    rw [alGet_alSet_self]
  · intro id hid hne
    show alGet (alSet cts3 a0.2.cityid _) id = none
    rw [alGet_alSet_other _ _ _ _ hne]
    exact h2 id hid hne
  · intro k hk1 hk2
    show alGet (alSet cts3 a0.2.cityid _) k = _
    rw [alGet_alSet_other _ _ _ _ hk1]
    exact h3 k (fun hm => absurd hm hk2)
  · intro id hid hne q hq
    by_cases hqpos : q = pos
    · subst hqpos
      exact ⟨_, hpos3, rfl⟩
    · obtain ⟨c, hc, hcid, hcc⟩ := hcoh id hid hne
      have hqc : q ∈ c.citycells := by
        unfold lookedUpCells at hq
        rw [hc] at hq
        exact hq
      have hqk : q ∈ alKeys st.cellCT := hcc q hqc
      obtain ⟨t0, ht0⟩ := Option.isSome_iff_exists.mp (alGet_isSome_iff.mpr hqk)
      have hqflat : q ∈ (((cityIdsFound inMap st.cellCT team pos).filter
          (fun i => i ≠ a0.2.cityid)).map (lookedUpCells st.cities)).flatten := by
        rw [List.mem_flatten]
        refine ⟨lookedUpCells st.cities id, ?_, hq⟩
        exact List.mem_map.mpr ⟨id, List.mem_filter.mpr ⟨hid, by simp [hne]⟩, rfl⟩
      refine ⟨_, hcell3some q t0 hqpos ht0, ?_⟩
      dsimp only
      rw [if_pos hqflat]
  · intro hnd
    have h1 : (alKeys (alSet st.cellCT pos
        ⟨team, a0.2.cityid, (a0 :: rest).length⟩)).Nodup :=
      alKeys_nodup_alSet _ _ _ hnd
    have : alKeys cls3 = alKeys (alSet st.cellCT pos
        ⟨team, a0.2.cityid, (a0 :: rest).length⟩) := by
      rw [h5, hkeys2]
    show (alKeys cls3).Nodup
    rw [this]
    exact h1
  · intro hnd
    have hmem : a0.2.cityid ∈ alKeys cts3 :=
      alGet_isSome_iff.mp (by rw [hsurv3]; rfl)
    show (alKeys (alSet cts3 a0.2.cityid _)).Nodup
    rw [alKeys_alSet_present _ _ _ hmem]
    exact h4.nodup hnd

/-- C4: `spawnCityTile` with at least one same-team orthogonal neighbor
attaches the new tile to the city of the first same-team neighbor in
canonical order; for every other distinct same-team neighboring city id it
reassigns all of that city's tiles to the surviving id, adds its fuel to
the surviving city's fuel, and deletes it from the registry; and in the
concrete scenario of cities A (2 tiles, fuel fA) and B (1 tile, fuel fB)
both adjacent to a newly placed fourth tile, the result is one city with 4
tiles, fuel fA + fB, and the id of the first same-team neighbor in
canonical order. -/
theorem spawnCityTile_merge :
    (∀ (inMap : Int × Int → Bool) (st : CState) (team : Team) (pos : Int × Int)
      (cityidArg : Option String) (a0 : (Int × Int) × CityTile)
      (rest : List ((Int × Int) × CityTile)) (city0 : City),
      adjSameTeamCityTiles inMap st.cellCT team pos = a0 :: rest →
      alGet st.cities a0.2.cityid = some city0 →
      (∀ id ∈ cityIdsFound inMap st.cellCT team pos, id ≠ a0.2.cityid →
        ∃ c, alGet st.cities id = some c ∧ c.id = id ∧
          ∀ q ∈ c.citycells, q ∈ alKeys st.cellCT) →
      ∃ st', spawnCityTile inMap st team pos cityidArg = some st' ∧
        alGet st'.cellCT pos = some ⟨team, a0.2.cityid, (a0 :: rest).length⟩ ∧
        alGet st'.cities a0.2.cityid = some
          ⟨city0.id, city0.team,
            city0.fuel + (((cityIdsFound inMap st.cellCT team pos).filter
              (fun i => i ≠ a0.2.cityid)).map (lookedUpFuel st.cities)).sum,
            city0.citycells ++ [pos] ++ (((cityIdsFound inMap st.cellCT team pos).filter
              (fun i => i ≠ a0.2.cityid)).map (lookedUpCells st.cities)).flatten⟩ ∧
        (∀ id ∈ cityIdsFound inMap st.cellCT team pos, id ≠ a0.2.cityid →
          alGet st'.cities id = none ∧
          ∀ q ∈ lookedUpCells st.cities id,
            ∃ t, alGet st'.cellCT q = some t ∧ t.cityid = a0.2.cityid) ∧
        (∀ k, k ≠ a0.2.cityid → k ∉ cityIdsFound inMap st.cellCT team pos →
          alGet st'.cities k = alGet st.cities k)) ∧
    (∀ (fA fB : ℚ) (n : ℕ),
      spawnCityTile (fun _ => true)
        ⟨[((0, -1), ⟨Team.A, "c_A", 1⟩), ((0, -2), ⟨Team.A, "c_A", 1⟩),
            ((1, 0), ⟨Team.A, "c_B", 0⟩)],
          [("c_A", ⟨"c_A", Team.A, fA, [(0, -1), (0, -2)]⟩),
            ("c_B", ⟨"c_B", Team.A, fB, [(1, 0)]⟩)], n⟩
        Team.A (0, 0) none =
      some ⟨[((0, -1), ⟨Team.A, "c_A", 2⟩), ((0, -2), ⟨Team.A, "c_A", 1⟩),
          ((1, 0), ⟨Team.A, "c_A", 1⟩), ((0, 0), ⟨Team.A, "c_A", 2⟩)],
        [("c_A", ⟨"c_A", Team.A, fA + fB, [(0, -1), (0, -2), (0, 0), (1, 0)]⟩)],
        n⟩) := by
  constructor
  · intro inMap st team pos cityidArg a0 rest city0 hadj hcity0 hcoh
    obtain ⟨st', hspawn, _, hpos, _, _, hsurv, hdel, hother, hreassign, _, _, _⟩ :=
      spawnCityTile_merge_law inMap st team pos cityidArg a0 rest city0 hadj hcity0 hcoh
    exact ⟨st', hspawn, hpos, hsurv,
      fun id hid hne => ⟨hdel id hid hne, hreassign id hid hne⟩, hother⟩
  · intro fA fB n
    rfl

/-- Witness for C4: the general merge law applied at the concrete two-city
state (fuels 10 and 5). -/
theorem spawnCityTile_merge_witness :
    ∃ st', spawnCityTile (fun _ => true)
        ⟨[((0, -1), ⟨Team.A, "c_A", 1⟩), ((0, -2), ⟨Team.A, "c_A", 1⟩),
            ((1, 0), ⟨Team.A, "c_B", 0⟩)],
          [("c_A", ⟨"c_A", Team.A, (10 : ℚ), [(0, -1), (0, -2)]⟩),
            ("c_B", ⟨"c_B", Team.A, (5 : ℚ), [(1, 0)]⟩)], 0⟩
        Team.A (0, 0) none = some st' ∧
      alGet st'.cellCT (0, 0) = some ⟨Team.A, "c_A", 2⟩ ∧
      alGet st'.cities "c_B" = none := by
  have hcoh : ∀ id ∈ cityIdsFound (fun _ => true)
      ([((0, -1), ⟨Team.A, "c_A", 1⟩), ((0, -2), ⟨Team.A, "c_A", 1⟩),
        ((1, 0), ⟨Team.A, "c_B", 0⟩)]) Team.A (0, 0),
      id ≠ "c_A" →
      ∃ c, alGet [("c_A", (⟨"c_A", Team.A, (10 : ℚ), [(0, -1), (0, -2)]⟩ : City)),
          ("c_B", ⟨"c_B", Team.A, (5 : ℚ), [(1, 0)]⟩)] id = some c ∧ c.id = id ∧
        ∀ q ∈ c.citycells,
          q ∈ alKeys [((0, -1), (⟨Team.A, "c_A", 1⟩ : CityTile)),
            ((0, -2), ⟨Team.A, "c_A", 1⟩), ((1, 0), ⟨Team.A, "c_B", 0⟩)] := by
    intro id hid hne
    have hids : cityIdsFound (fun _ => true)
        ([((0, -1), ⟨Team.A, "c_A", 1⟩), ((0, -2), ⟨Team.A, "c_A", 1⟩),
          ((1, 0), ⟨Team.A, "c_B", 0⟩)]) Team.A (0, 0) = ["c_A", "c_B"] := by decide
    rw [hids] at hid
    rcases List.mem_cons.mp hid with rfl | hid2
    · exact absurd rfl hne
    · rcases List.mem_singleton.mp hid2 with rfl
      exact ⟨⟨"c_B", Team.A, (5 : ℚ), [(1, 0)]⟩, by decide, by decide, by decide⟩
  obtain ⟨st', hspawn, hpos, _, hperid, _⟩ :=
    spawnCityTile_merge.1 (fun _ => true)
      ⟨[((0, -1), ⟨Team.A, "c_A", 1⟩), ((0, -2), ⟨Team.A, "c_A", 1⟩),
          ((1, 0), ⟨Team.A, "c_B", 0⟩)],
        [("c_A", ⟨"c_A", Team.A, (10 : ℚ), [(0, -1), (0, -2)]⟩),
          ("c_B", ⟨"c_B", Team.A, (5 : ℚ), [(1, 0)]⟩)], 0⟩
      Team.A (0, 0) none ((0, -1), ⟨Team.A, "c_A", 1⟩)
      [((1, 0), ⟨Team.A, "c_B", 0⟩)] ⟨"c_A", Team.A, (10 : ℚ), [(0, -1), (0, -2)]⟩
      (by decide) (by decide) hcoh
  exact ⟨st', hspawn, hpos, (hperid "c_B" (by decide) (by decide)).1⟩

theorem mem_alSet {α β : Type} [DecidableEq α] {m : List (α × β)} {k : α}
    {v : β} {p : α × β} (h : p ∈ alSet m k v) : p ∈ m ∨ p = (k, v) := by
  induction m with
  | nil =>
    rw [alSet] at h
    exact Or.inr (List.mem_singleton.mp h)
  | cons q rest ih =>
    rw [alSet] at h
    by_cases hq : q.1 = k
    · rw [if_pos hq] at h
      rcases List.mem_cons.mp h with rfl | h2
      · exact Or.inr rfl
      · exact Or.inl (List.mem_cons_of_mem _ h2)
    · rw [if_neg hq] at h
      rcases List.mem_cons.mp h with rfl | h2
      · exact Or.inl (List.mem_cons_self _ _)
      · rcases ih h2 with h3 | h3
        · exact Or.inl (List.mem_cons_of_mem _ h3)
        · exact Or.inr h3

theorem foldl_mergeStep_none (survId : String) (ids : List String) :
    ids.foldl (mergeStep survId) none = none := by
  induction ids with
  | nil => rfl
  | cons i ids2 ih =>
    rw [List.foldl_cons, show mergeStep survId none i = none from rfl]
    exact ih

theorem mergeFold_fuel_zero (survId : String) (ids : List String) :
    ∀ (cls : List ((Int × Int) × CityTile)) (cts : List (String × City))
      (city : City)
      (res : List ((Int × Int) × CityTile) × List (String × City) × City),
      (∀ e ∈ cts, e.2.fuel = 0) → city.fuel = 0 →
      ids.foldl (mergeStep survId) (some (cls, cts, city)) = some res →
      (∀ e ∈ res.2.1, e.2.fuel = 0) ∧ res.2.2.fuel = 0 := by
  induction ids with
  | nil =>
    intro cls cts city res hcts hcity h
    cases Option.some.inj h
    exact ⟨hcts, hcity⟩
  | cons id ids2 ih =>
    intro cls cts city res hcts hcity h
    rw [List.foldl_cons, mergeStep_some] at h
    by_cases hid : id = survId
    · rw [if_pos hid] at h
      exact ih cls cts city res hcts hcity h
    · rw [if_neg hid] at h
      cases hg : alGet cts id with
      | none =>
        simp only [hg] at h
        rw [foldl_mergeStep_none] at h
        cases h
      | some oldc =>
        simp only [hg] at h
        cases hr : oldc.citycells.foldl (reassignCell survId) (some cls) with
        | none =>
          simp only [hr] at h
          rw [foldl_mergeStep_none] at h
          cases h
        | some cls1 =>
          simp only [hr] at h
          have holdfuel : oldc.fuel = 0 := hcts (id, oldc) (alGet_eq_some_mem hg)
          refine ih cls1 (alDelete cts oldc.id)
            ⟨city.id, city.team, city.fuel + oldc.fuel,
              city.citycells ++ oldc.citycells⟩ res ?_ ?_ h
          · intro e he
            exact hcts e (List.mem_of_mem_filter he)
          · show city.fuel + oldc.fuel = 0
            rw [hcity, holdfuel, add_zero]

theorem spawnCityTile_fuel_zero (inMap : Int × Int → Bool) (st : CState)
    (team : Team) (pos : Int × Int) (cityidArg : Option String) (st' : CState)
    (hcts : ∀ e ∈ st.cities, e.2.fuel = 0)
    (h : spawnCityTile inMap st team pos cityidArg = some st') :
    ∀ e ∈ st'.cities, e.2.fuel = 0 := by
  cases hadj : adjSameTeamCityTiles inMap st.cellCT team pos with
  | nil =>
    simp only [spawnCityTile, hadj] at h
    cases Option.some.inj h
    intro e he
    rcases mem_alSet he with h1 | rfl
    · exact hcts e h1
    · rfl
  | cons a0 rest =>
    rw [spawnCityTile_cons inMap st team pos cityidArg a0 rest hadj] at h
    cases hc0 : alGet st.cities a0.2.cityid with
    | none =>
      simp only [hc0] at h
      cases h
    | some city0 =>
      simp only [hc0] at h
      cases hf : (cityIdsFound inMap st.cellCT team pos).foldl (mergeStep a0.2.cityid)
          (some (bumpAdjCounters (a0 :: rest)
              (alSet st.cellCT pos ⟨team, a0.2.cityid, (a0 :: rest).length⟩),
            st.cities,
            ⟨city0.id, city0.team, city0.fuel, city0.citycells ++ [pos]⟩)) with
      | none =>
        simp only [hf] at h
        cases h
      | some res =>
        obtain ⟨cls3, cts3, city3⟩ := res
        simp only [hf] at h
        have hfuel1 : (⟨city0.id, city0.team, city0.fuel,
            city0.citycells ++ [pos]⟩ : City).fuel = 0 :=
          hcts (a0.2.cityid, city0) (alGet_eq_some_mem hc0)
        have hres := mergeFold_fuel_zero a0.2.cityid
          (cityIdsFound inMap st.cellCT team pos) _ st.cities _ (cls3, cts3, city3)
          hcts hfuel1 hf
        cases Option.some.inj h
        intro e he
        rcases mem_alSet he with h1 | rfl
        · exact hres.1 e h1
        · exact hres.2

theorem spawnSequence_fuel_zero_aux (ps : List (Int × Int)) :
    ∀ (sto : Option CState),
      (∀ st0 ∈ sto, ∀ e ∈ st0.cities, e.2.fuel = 0) →
      ∀ st ∈ ps.foldl (fun sto p =>
          match sto with
          | none => none
          | some st => spawnCityTile (fun _ => true) st Team.A p none) sto,
        ∀ e ∈ st.cities, e.2.fuel = 0 := by
  induction ps with
  | nil => intro sto h; exact h
  | cons p ps2 ih =>
    intro sto h
    rw [List.foldl_cons]
    apply ih
    intro st0 hst0
    cases sto with
    | none => cases hst0
    | some st1 =>
      cases hs : spawnCityTile (fun _ => true) st1 Team.A p none with
      | none =>
        rw [show (match some st1 with
          | none => none
          | some st => spawnCityTile (fun _ => true) st Team.A p none) =
            spawnCityTile (fun _ => true) st1 Team.A p none from rfl, hs] at hst0
        cases hst0
      | some st2 =>
        rw [show (match some st1 with
          | none => none
          | some st => spawnCityTile (fun _ => true) st Team.A p none) =
            spawnCityTile (fun _ => true) st1 Team.A p none from rfl, hs] at hst0
        cases hst0
        exact spawnCityTile_fuel_zero _ st1 _ p _ st0 (h st1 rfl) hs

/-- C5: city formation via `spawnCityTile` is insertion-order independent
in final result: for each of the 3! insertion orders of a straight triple
and of an L-shaped triple of touching same-team tiles placed on an empty
map, the result is exactly one city containing all three tiles; and every
city formed by any spawn sequence from the empty state has fuel 0 — the
sum of the merged cities' (zero) pre-existing fuel. -/
theorem spawnCityTile_insertion_order_independent :
    (∀ (ps : List (Int × Int)) (st : CState), spawnSequence ps = some st →
      ∀ e ∈ st.cities, e.2.fuel = 0) ∧
    (∀ l ∈ [[((0 : Int), (0 : Int)), (1, 0), (2, 0)], [(0, 0), (2, 0), (1, 0)],
        [(1, 0), (0, 0), (2, 0)], [(1, 0), (2, 0), (0, 0)],
        [(2, 0), (0, 0), (1, 0)], [(2, 0), (1, 0), (0, 0)],
        [(0, 0), (1, 0), (1, 1)], [(0, 0), (1, 1), (1, 0)],
        [(1, 0), (0, 0), (1, 1)], [(1, 0), (1, 1), (0, 0)],
        [(1, 1), (0, 0), (1, 0)], [(1, 1), (1, 0), (0, 0)]],
      (spawnSequence l).isSome = true ∧
      ∀ st ∈ spawnSequence l, st.cities.length = 1 ∧
        ∀ e ∈ st.cities, (∀ p ∈ l, p ∈ e.2.citycells) ∧
          e.2.citycells.length = 3) := by
  constructor
  · intro ps st h
    exact spawnSequence_fuel_zero_aux ps (some ⟨[], [], 0⟩)
      (fun st0 h0 => by cases Option.some.inj h0; intro e he; cases he)
      st (Option.mem_def.mpr h)
  · decide

/-- Witness for C5: the fuel-zero law at a one-spawn sequence, and the
order-independence property at the straight-line insertion order. -/
theorem spawnCityTile_insertion_order_independent_witness :
    (∀ e ∈ (⟨[((0, 0), ⟨Team.A, "c_1", 0⟩)],
        [("c_1", ⟨"c_1", Team.A, 0, [(0, 0)]⟩)], 1⟩ : CState).cities,
      e.2.fuel = 0) ∧
    ((spawnSequence [(0, 0), (1, 0), (2, 0)]).isSome = true ∧
      ∀ st ∈ spawnSequence [(0, 0), (1, 0), (2, 0)], st.cities.length = 1 ∧
        ∀ e ∈ st.cities,
          (∀ p ∈ [((0 : Int), (0 : Int)), (1, 0), (2, 0)], p ∈ e.2.citycells) ∧
          e.2.citycells.length = 3) :=
  ⟨spawnCityTile_insertion_order_independent.1 [(0, 0)] _ rfl,
    spawnCityTile_insertion_order_independent.2 [(0, 0), (1, 0), (2, 0)] (by decide)⟩

/-! Injectivity of the generated city ids. -/
theorem digitVal_digitChar {d : ℕ} (h : d < 10) : digitVal (digitChar d) = d := by
  interval_cases d <;> rfl

theorem natDigits_fuel (n : ℕ) :
    ∀ f1 f2, n < f1 → n < f2 → natDigits f1 n = natDigits f2 n := by
  induction n using Nat.strong_induction_on with
  | _ n ih =>
    intro f1 f2 h1 h2
    cases f1 with
    | zero => omega
    | succ f1p =>
      cases f2 with
      | zero => omega
      | succ f2p =>
        rw [natDigits, natDigits]
        by_cases hn : n < 10
        · rw [if_pos hn, if_pos hn]
        · rw [if_neg hn, if_neg hn]
          have hlt : n / 10 < n := Nat.div_lt_self (by omega) (by omega)
          rw [ih (n / 10) hlt f1p f2p (by omega) (by omega)]

theorem val_natDigits (n : ℕ) :
    ∀ (acc : ℕ) (f : ℕ), n < f →
      (natDigits f n).foldl (fun a c => a * 10 + digitVal c) acc =
        acc * 10 ^ (natDigits f n).length + n := by
  induction n using Nat.strong_induction_on with
  | _ n ih =>
    intro acc f hf
    cases f with
    | zero => omega
    | succ fp =>
      rw [natDigits]
      by_cases hn : n < 10
      · rw [if_pos hn]
        rw [List.foldl_cons, List.foldl_nil, digitVal_digitChar hn]
        simp
      · rw [if_neg hn]
        have hlt : n / 10 < n := Nat.div_lt_self (by omega) (by omega)
        rw [List.foldl_append, ih (n / 10) hlt acc fp (by omega),
          List.foldl_cons, List.foldl_nil,
          digitVal_digitChar (Nat.mod_lt _ (by omega)),
          List.length_append, List.length_singleton]
        have hdm : n / 10 * 10 + n % 10 = n := by omega
        calc (acc * 10 ^ (natDigits fp (n / 10)).length + n / 10) * 10 + n % 10
            = acc * (10 ^ (natDigits fp (n / 10)).length * 10) +
              (n / 10 * 10 + n % 10) := by ring
          _ = acc * 10 ^ ((natDigits fp (n / 10)).length + 1) + n := by
              rw [hdm, pow_succ]

theorem cityIdOfCount_inj {n m : ℕ} (h : cityIdOfCount n = cityIdOfCount m) :
    n = m := by
  unfold cityIdOfCount at h
  have hlist : 'c' :: '_' :: natDigits (n + 1) n =
      'c' :: '_' :: natDigits (m + 1) m := congrArg String.data h
  have h2 : natDigits (n + 1) n = natDigits (m + 1) m := by
    injection hlist with h1 hrest
    injection hrest with h3 h4
  have hval := congrArg (fun l => l.foldl (fun a c => a * 10 + digitVal c) 0) h2
  simp only [] at hval
  rw [val_natDigits n 0 (n + 1) (by omega), val_natDigits m 0 (m + 1) (by omega)]
    at hval
  simpa using hval

theorem recount_eq (inMap : Int × Int → Bool)
    (cls : List ((Int × Int) × CityTile)) (team : Team) (pos : Int × Int) :
    recount inMap cls team pos =
      ((adjacentPositions inMap pos).filter (recountPred cls team)).length := rfl

theorem recount_congr {inMap : Int × Int → Bool}
    {cls cls' : List ((Int × Int) × CityTile)} {team : Team} {q : Int × Int}
    (h : ∀ r ∈ adjacentPositions inMap q,
      recountPred cls' team r = recountPred cls team r) :
    recount inMap cls' team q = recount inMap cls team q := by
  rw [recount_eq, recount_eq, List.filter_congr h]

theorem filter_length_flip {l : List (Int × Int)} (hnd : l.Nodup) {x : Int × Int}
    (hx : x ∈ l) (p p2 : Int × Int → Bool) (hp : p x = false) (hp2 : p2 x = true)
    (hother : ∀ r ∈ l, r ≠ x → p2 r = p r) :
    (l.filter p2).length = (l.filter p).length + 1 := by
  induction l with
  | nil => cases hx
  | cons y rest ih =>
    have hndr := (List.nodup_cons.mp hnd).2
    by_cases hyx : y = x
    · subst hyx
      rw [List.filter_cons_of_pos hp2, List.filter_cons_of_neg (by rw [hp]; simp)]
      have hagree : ∀ r ∈ rest, p2 r = p r := by
        intro r hr
        have : r ≠ y := fun he => (List.nodup_cons.mp hnd).1 (he ▸ hr)
        exact hother r (List.mem_cons_of_mem _ hr) this
      rw [List.filter_congr hagree]
      simp
    · have hxr : x ∈ rest := by
        rcases List.mem_cons.mp hx with rfl | hr
        · exact absurd rfl hyx
        · exact hr
      have hy : p2 y = p y := hother y (List.mem_cons_self _ _) hyx
      have hoth2 : ∀ r ∈ rest, r ≠ x → p2 r = p r :=
        fun r hr hne => hother r (List.mem_cons_of_mem _ hr) hne
      cases hpy : p y with
      | true =>
        rw [List.filter_cons_of_pos (by rw [hy, hpy]), List.filter_cons_of_pos hpy]
        simp only [List.length_cons]
        rw [ih hndr hxr hoth2]
      | false =>
        rw [List.filter_cons_of_neg (by rw [hy, hpy]; simp),
          List.filter_cons_of_neg (by rw [hpy]; simp)]
        exact ih hndr hxr hoth2

theorem CInv_init (inMap : Int × Int → Bool) : CInv inMap ⟨[], [], 0⟩ := by
  refine ⟨List.nodup_nil, List.nodup_nil, ?_, ?_, ?_, ?_, ?_, ?_⟩
  · intro q t h; cases h
  · intro q t h; cases h
  · intro q t h; cases h
  · intro id c h; cases h
  · intro q t q2 t2 h1 h2; cases h1
  · intro id c h; cases h

theorem CInv_destroy (inMap : Int × Int → Bool) (st st' : CState) (id : String)
    (hinv : CInv inMap st) (hd : destroyCity st id = some st') :
    CInv inMap st' := by
  obtain ⟨hnodC, hnodR, hmap, hcnt, ht2c, hc2t, hadj, hidb⟩ := hinv
  cases hcity : alGet st.cities id with
  | none =>
    simp only [destroyCity, hcity] at hd
    cases hd
  | some city =>
    simp only [destroyCity, hcity] at hd
    cases Option.some.inj hd
    have hcells := fun (q : Int × Int) =>
      alGet_foldl_alDelete city.citycells st.cellCT q
    have hA1 : ∀ q t, alGet st.cellCT q = some t → (q ∈ city.citycells ↔ t.cityid = id) := by
      intro q t ht
      constructor
      · intro hq
        obtain ⟨t2, ht2, hid2, _⟩ := (hc2t id city hcity).2 q hq
        obtain rfl : t = t2 := Option.some.inj (ht ▸ ht2)
        exact hid2
      · intro hid2
        obtain ⟨c, hc, hqc, _⟩ := ht2c q t ht
        rw [hid2, hcity] at hc
        cases Option.some.inj hc
        exact hqc
    have hsurv : ∀ q t, alGet (city.citycells.foldl (fun m q => alDelete m q)
        st.cellCT) q = some t → alGet st.cellCT q = some t ∧ q ∉ city.citycells := by
      intro q t h
      rw [hcells q] at h
      by_cases hq : q ∈ city.citycells
      · rw [if_pos hq] at h
        cases h
      · rw [if_neg hq] at h
        exact ⟨h, hq⟩
    refine ⟨alKeys_nodup_foldl_alDelete _ _ hnodC, alKeys_nodup_alDelete _ _ hnodR,
      ?_, ?_, ?_, ?_, ?_, ?_⟩
    · intro q t h
      exact hmap q t (hsurv q t h).1
    · intro q t h
      obtain ⟨horig, hq⟩ := hsurv q t h
      rw [hcnt q t horig]
      symm
      apply recount_congr
      intro r hr
      unfold recountPred
      rw [hcells r]
      by_cases hrc : r ∈ city.citycells
      · rw [if_pos hrc]
        cases hg : alGet st.cellCT r with
        | none => rfl
        | some tr =>
          have hrid : tr.cityid = id := (hA1 r tr hg).mp hrc
          by_cases hteam : tr.team = t.team
          · exfalso
            have hqt : t.cityid = tr.cityid := hadj q t r tr horig hg hr hteam.symm
            exact hq ((hA1 q t horig).mpr (hqt.trans hrid))
          · simp [hteam]
      · rw [if_neg hrc]
    · intro q t h
      obtain ⟨horig, hq⟩ := hsurv q t h
      obtain ⟨c, hc, hqc, hct⟩ := ht2c q t horig
      have hne : t.cityid ≠ id := fun he => hq ((hA1 q t horig).mpr he)
      refine ⟨c, ?_, hqc, hct⟩
      show alGet (alDelete st.cities id) t.cityid = some c
      rw [alGet_alDelete_other _ _ _ hne]
      exact hc
    · intro k c hk
      have hkne : k ≠ id := by
        intro he
        rw [he, alGet_alDelete_self] at hk
        cases hk
      rw [show (alGet (alDelete st.cities id) k : Option City) = alGet st.cities k
        from alGet_alDelete_other _ _ _ hkne] at hk
      obtain ⟨hcid, hcq⟩ := hc2t k c hk
      refine ⟨hcid, ?_⟩
      intro q hq
      obtain ⟨t, ht, htid, htt⟩ := hcq q hq
      refine ⟨t, ?_, htid, htt⟩
      rw [hcells q, if_neg]
      · exact ht
      · intro hmem
        exact hkne (htid.symm.trans ((hA1 q t ht).mp hmem))
    · intro q t q2 t2 h1 h2 hadj2 hteam
      exact hadj q t q2 t2 (hsurv q t h1).1 (hsurv q2 t2 h2).1 hadj2 hteam
    · intro k c hk
      have hkne : k ≠ id := by
        intro he
        rw [he, alGet_alDelete_self] at hk
        cases hk
      rw [show (alGet (alDelete st.cities id) k : Option City) = alGet st.cities k
        from alGet_alDelete_other _ _ _ hkne] at hk
      exact hidb k c hk

theorem CInv_spawn_new (inMap : Int × Int → Bool) (st st' : CState)
    (team : Team) (pos : Int × Int) (hinv : CInv inMap st)
    (hin : inMap pos = true) (hempty : alGet st.cellCT pos = none)
    (hadjnil : adjSameTeamCityTiles inMap st.cellCT team pos = [])
    (hs : spawnCityTile inMap st team pos none = some st') : CInv inMap st' := by
  obtain ⟨hnodC, hnodR, hmap, hcnt, ht2c, hc2t, hadj, hidb⟩ := hinv
  simp only [spawnCityTile, hadjnil] at hs
  cases Option.some.inj hs
  have hfresh : alGet st.cities (cityIdOfCount (st.globalCityIDCount + 1)) = none := by
    cases hg : alGet st.cities (cityIdOfCount (st.globalCityIDCount + 1)) with
    | none => rfl
    | some c =>
      obtain ⟨k, hk, heq⟩ := hidb _ c hg
      have := cityIdOfCount_inj heq.symm
      omega
  have hnoadj : ∀ r tr, r ∈ adjacentPositions inMap pos →
      alGet st.cellCT r = some tr → tr.team ≠ team := by
    intro r tr hr hg hteam
    have hmem : (r, tr) ∈ adjSameTeamCityTiles inMap st.cellCT team pos :=
      mem_adjSameTeamCityTiles.mpr ⟨hr, hg, hteam⟩
    rw [hadjnil] at hmem
    cases hmem
  refine ⟨alKeys_nodup_alSet _ _ _ hnodC, alKeys_nodup_alSet _ _ _ hnodR,
    ?_, ?_, ?_, ?_, ?_, ?_⟩
  · intro q t h
    by_cases hq : q = pos
    · exact hq ▸ hin
    · rw [alGet_alSet_other _ _ _ _ hq] at h
      exact hmap q t h
  · intro q t h
    by_cases hq : q = pos
    · subst hq
      rw [alGet_alSet_self] at h
      cases Option.some.inj h
      show (0 : ℕ) = _
      rw [recount_eq,
        List.filter_eq_nil_iff.mpr ?pf]
      case pf =>
        intro r hr
        have hrpos : r ≠ q := fun he => self_not_mem_adjacentPositions inMap q (he ▸ hr)
        unfold recountPred
        rw [alGet_alSet_other _ _ _ _ hrpos]
        cases hg : alGet st.cellCT r with
        | none => simp
        | some tr =>
          have := hnoadj r tr hr hg
          simp [this]
      rfl
    · rw [alGet_alSet_other _ _ _ _ hq] at h
      rw [hcnt q t h]
      symm
      apply recount_congr
      intro r hr
      unfold recountPred
      by_cases hrpos : r = pos
      · subst hrpos
        have htne : t.team ≠ team := by
          intro he
          have hq2 : q ∈ adjacentPositions inMap r :=
            adjacentPositions_symm (hmap q t h) hr
          have hmem : (q, t) ∈ adjSameTeamCityTiles inMap st.cellCT team r :=
            mem_adjSameTeamCityTiles.mpr ⟨hq2, h, he⟩
          rw [hadjnil] at hmem
          cases hmem
        rw [alGet_alSet_self, hempty]
        simp [Ne.symm htne]
      · rw [alGet_alSet_other _ _ _ _ hrpos]
  · intro q t h
    by_cases hq : q = pos
    · subst hq
      rw [alGet_alSet_self] at h
      cases Option.some.inj h
      exact ⟨⟨cityIdOfCount (st.globalCityIDCount + 1), team, 0, [q]⟩,
        alGet_alSet_self _ _ _, List.mem_singleton.mpr rfl, rfl⟩
    · rw [alGet_alSet_other _ _ _ _ hq] at h
      obtain ⟨c, hc, hqc, hct⟩ := ht2c q t h
      have hne : t.cityid ≠ cityIdOfCount (st.globalCityIDCount + 1) := by
        intro he
        rw [he, hfresh] at hc
        cases hc
      refine ⟨c, ?_, hqc, hct⟩
      rw [alGet_alSet_other _ _ _ _ hne]
      exact hc
  · intro k c hk
    by_cases hkn : k = cityIdOfCount (st.globalCityIDCount + 1)
    · subst hkn
      rw [alGet_alSet_self] at hk
      cases Option.some.inj hk
      refine ⟨rfl, ?_⟩
      intro q hq
      rcases List.mem_singleton.mp hq with rfl
      exact ⟨⟨team, cityIdOfCount (st.globalCityIDCount + 1), 0⟩,
        alGet_alSet_self _ _ _, rfl, rfl⟩
    · rw [alGet_alSet_other _ _ _ _ hkn] at hk
      obtain ⟨hcid, hcq⟩ := hc2t k c hk
      refine ⟨hcid, ?_⟩
      intro q hq
      obtain ⟨t, ht, htid, htt⟩ := hcq q hq
      have hqpos : q ≠ pos := by
        intro he
        rw [he, hempty] at ht
        cases ht
      refine ⟨t, ?_, htid, htt⟩
      rw [alGet_alSet_other _ _ _ _ hqpos]
      exact ht
  · intro q t q2 t2 h1 h2 hadjp hteam
    by_cases hq : q = pos
    · subst hq
      rw [alGet_alSet_self] at h1
      cases Option.some.inj h1
      by_cases hq2 : q2 = q
      · subst hq2
        rw [alGet_alSet_self] at h2
        cases Option.some.inj h2
        rfl
      · exfalso
        rw [alGet_alSet_other _ _ _ _ hq2] at h2
        have hmem : (q2, t2) ∈ adjSameTeamCityTiles inMap st.cellCT team q :=
          mem_adjSameTeamCityTiles.mpr ⟨hadjp, h2, hteam.symm⟩
        rw [hadjnil] at hmem
        cases hmem
    · rw [alGet_alSet_other _ _ _ _ hq] at h1
      by_cases hq2 : q2 = pos
      · exfalso
        subst hq2
        rw [alGet_alSet_self] at h2
        cases Option.some.inj h2
        have hqa : q ∈ adjacentPositions inMap q2 :=
          adjacentPositions_symm (hmap q t h1) hadjp
        have hmem : (q, t) ∈ adjSameTeamCityTiles inMap st.cellCT team q2 :=
          mem_adjSameTeamCityTiles.mpr ⟨hqa, h1, hteam⟩
        rw [hadjnil] at hmem
        cases hmem
      · rw [alGet_alSet_other _ _ _ _ hq2] at h2
        exact hadj q t q2 t2 h1 h2 hadjp hteam
  · intro k c hk
    by_cases hkn : k = cityIdOfCount (st.globalCityIDCount + 1)
    · exact ⟨st.globalCityIDCount + 1, le_refl _, hkn⟩
    · rw [alGet_alSet_other _ _ _ _ hkn] at hk
      obtain ⟨k2, hk2, heq⟩ := hidb k c hk
      exact ⟨k2, show k2 ≤ st.globalCityIDCount + 1 by omega, heq⟩

theorem CInv_spawn_merge (inMap : Int × Int → Bool) (st st' : CState)
    (team : Team) (pos : Int × Int) (a0 : (Int × Int) × CityTile)
    (rest : List ((Int × Int) × CityTile)) (hinv : CInv inMap st)
    (hin : inMap pos = true) (hempty : alGet st.cellCT pos = none)
    (hadj : adjSameTeamCityTiles inMap st.cellCT team pos = a0 :: rest)
    (hs : spawnCityTile inMap st team pos none = some st') : CInv inMap st' := by
  obtain ⟨hnodC, hnodR, hmap, hcnt, ht2c, hc2t, hadjinv, hidb⟩ := hinv
  have hG1 : ∀ p ∈ a0 :: rest, alGet st.cellCT p.1 = some p.2 ∧ p.2.team = team ∧
      p.1 ∈ adjacentPositions inMap pos := by
    intro p hp
    rw [← hadj] at hp
    have h := mem_adjSameTeamCityTiles.mp hp
    exact ⟨h.2.1, h.2.2, h.1⟩
  have ha0 := hG1 a0 (List.mem_cons_self _ _)
  obtain ⟨city0, hc0, hposc0, hteamc0⟩ := ht2c a0.1 a0.2 ha0.1
  have hc0team : city0.team = team := hteamc0.trans ha0.2.1
  have hc0id : city0.id = a0.2.cityid := (hc2t a0.2.cityid city0 hc0).1
  have hfoundteam : ∀ id ∈ cityIdsFound inMap st.cellCT team pos,
      ∃ c, alGet st.cities id = some c ∧ c.team = team ∧ c.id = id ∧
        ∀ q ∈ c.citycells, ∃ t0, alGet st.cellCT q = some t0 ∧ t0.cityid = id ∧
          t0.team = c.team := by
    intro id hid
    obtain ⟨q, t, hqt, htid⟩ := mem_cityIdsFound.mp hid
    have hg := mem_adjSameTeamCityTiles.mp hqt
    obtain ⟨c, hc, hqc, hct⟩ := ht2c q t hg.2.1
    rw [htid] at hc
    have h2 := hc2t id c hc
    exact ⟨c, hc, hct.trans hg.2.2, h2.1, h2.2⟩
  have hcoh : ∀ id ∈ cityIdsFound inMap st.cellCT team pos, id ≠ a0.2.cityid →
      ∃ c, alGet st.cities id = some c ∧ c.id = id ∧
        ∀ q ∈ c.citycells, q ∈ alKeys st.cellCT := by
    intro id hid _
    obtain ⟨c, hc, _, hcid, hcq⟩ := hfoundteam id hid
    refine ⟨c, hc, hcid, ?_⟩
    intro q hq
    obtain ⟨t0, ht0, _, _⟩ := hcq q hq
    exact alGet_isSome_iff.mp (by rw [ht0]; rfl)
  obtain ⟨st2, hspawn, hcount, hposget, hcellsome, hcellnone, hsurvget, hdels,
    hothers, hreass, hkeysiff, hndC2, hndR2⟩ :=
    spawnCityTile_merge_law inMap st team pos none a0 rest city0 hadj hc0 hcoh
  obtain rfl : st2 = st' := Option.some.inj (hspawn.symm.trans hs)
  have hflat : ∀ q, q ∈ (((cityIdsFound inMap st.cellCT team pos).filter
      (fun i => i ≠ a0.2.cityid)).map (lookedUpCells st.cities)).flatten ↔
      ∃ t0, alGet st.cellCT q = some t0 ∧
        t0.cityid ∈ cityIdsFound inMap st.cellCT team pos ∧
        t0.cityid ≠ a0.2.cityid := by
    intro q
    constructor
    · intro hq
      obtain ⟨l, hl, hql⟩ := List.mem_flatten.mp hq
      obtain ⟨id, hidf, rfl⟩ := List.mem_map.mp hl
      have hidm := List.mem_filter.mp hidf
      have hidne : id ≠ a0.2.cityid := by simpa using hidm.2
      obtain ⟨c, hc, _, _, hcq⟩ := hfoundteam id hidm.1
      have hcells : lookedUpCells st.cities id = c.citycells := by
        unfold lookedUpCells
        rw [hc]
      rw [hcells] at hql
      obtain ⟨t0, ht0, htid, _⟩ := hcq q hql
      refine ⟨t0, ht0, ?_, ?_⟩
      · rw [htid]; exact hidm.1
      · rw [htid]; exact hidne
    · rintro ⟨t0, ht0, hidf, hidne⟩
      obtain ⟨c, hc, _, _, _⟩ := hfoundteam _ hidf
      obtain ⟨c2, hc2, hqc2, _⟩ := ht2c q t0 ht0
      obtain rfl : c = c2 := Option.some.inj (hc.symm.trans hc2)
      rw [List.mem_flatten]
      refine ⟨lookedUpCells st.cities t0.cityid, ?_, ?_⟩
      · exact List.mem_map.mpr ⟨t0.cityid,
          List.mem_filter.mpr ⟨hidf, by simp [hidne]⟩, rfl⟩
      · show q ∈ lookedUpCells st.cities t0.cityid
        unfold lookedUpCells
        rw [hc]
        exact hqc2
  have hteamflat : ∀ q t0, alGet st.cellCT q = some t0 →
      q ∈ (((cityIdsFound inMap st.cellCT team pos).filter
        (fun i => i ≠ a0.2.cityid)).map (lookedUpCells st.cities)).flatten →
      t0.team = team := by
    intro q t0 ht0 hq
    obtain ⟨t1, ht1, hidf, _⟩ := (hflat q).mp hq
    obtain rfl : t0 = t1 := Option.some.inj (ht0.symm.trans ht1)
    obtain ⟨c, hc, hcteam, _, _⟩ := hfoundteam _ hidf
    obtain ⟨c2, hc2, _, hct2⟩ := ht2c q t0 ht0
    obtain rfl : c = c2 := Option.some.inj (hc.symm.trans hc2)
    rw [← hcteam, hct2]
  have hmemflat_team : ∀ q t0, alGet st.cellCT q = some t0 → t0.team = team →
      q ∈ adjacentPositions inMap pos → q ∈ alKeys (a0 :: rest) := by
    intro q t0 ht0 hteam hq
    have hmem : (q, t0) ∈ adjSameTeamCityTiles inMap st.cellCT team pos :=
      mem_adjSameTeamCityTiles.mpr ⟨hq, ht0, hteam⟩
    rw [hadj] at hmem
    exact List.mem_map.mpr ⟨(q, t0), hmem, rfl⟩
  have hkeyadj_tile : ∀ q, q ∈ alKeys (a0 :: rest) →
      ∃ t0, alGet st.cellCT q = some t0 ∧ t0.team = team ∧
        q ∈ adjacentPositions inMap pos := by
    intro q hq
    obtain ⟨p, hp, rfl⟩ := List.mem_map.mp hq
    obtain ⟨h1, h2, h3⟩ := hG1 p hp
    exact ⟨p.2, h1, h2, h3⟩
  refine ⟨hndC2 hnodC, hndR2 hnodR, ?_, ?_, ?_, ?_, ?_, ?_⟩
  · intro q t h
    by_cases hq : q = pos
    · exact hq ▸ hin
    · cases horig : alGet st.cellCT q with
      | none => rw [hcellnone q hq horig] at h; cases h
      | some t0 => exact hmap q t0 horig
  · intro q t h
    by_cases hq : q = pos
    · subst hq
      obtain rfl : (⟨team, a0.2.cityid, (a0 :: rest).length⟩ : CityTile) = t :=
        Option.some.inj (hposget.symm.trans h)
      show (a0 :: rest).length = recount inMap st2.cellCT team q
      have hrc : recount inMap st2.cellCT team q = recount inMap st.cellCT team q := by
        apply recount_congr
        intro r hr
        have hrq : r ≠ q := fun he => self_not_mem_adjacentPositions inMap q (he ▸ hr)
        unfold recountPred
        cases horig : alGet st.cellCT r with
        | none => rw [hcellnone r hrq horig]
        | some t0 => rw [hcellsome r t0 hrq horig]
      rw [hrc, recount_eq_length_adjSame inMap st.cellCT team q, hadj]
    · cases horig : alGet st.cellCT q with
      | none => rw [hcellnone q hq horig] at h; cases h
      | some t0 =>
        obtain rfl := Option.some.inj ((hcellsome q t0 hq horig).symm.trans h)
        dsimp only
        by_cases hka : q ∈ alKeys (a0 :: rest)
        · rw [if_pos hka]
          obtain ⟨t1, ht1, hteam1, hqadj⟩ := hkeyadj_tile q hka
          obtain rfl : t0 = t1 := Option.some.inj (horig.symm.trans ht1)
          have hposadj : pos ∈ adjacentPositions inMap q :=
            adjacentPositions_symm hin hqadj
          have hflip := filter_length_flip (nodup_adjacentPositions inMap q)
            hposadj (recountPred st.cellCT t0.team) (recountPred st2.cellCT t0.team)
            (by unfold recountPred; rw [hempty])
            (by unfold recountPred; rw [hposget]; simp [hteam1])
            ?hoth
          case hoth =>
            intro r hr hrpos
            unfold recountPred
            cases horig2 : alGet st.cellCT r with
            | none => rw [hcellnone r hrpos horig2]
            | some t2 => rw [hcellsome r t2 hrpos horig2]
          rw [recount_eq, hflip, ← recount_eq, hcnt q t0 horig]
        · rw [if_neg hka]
          rw [hcnt q t0 horig]
          symm
          apply recount_congr
          intro r hr
          unfold recountPred
          by_cases hrpos : r = pos
          · subst hrpos
            have htne : t0.team ≠ team := by
              intro he
              exact hka (hmemflat_team q t0 horig he
                (adjacentPositions_symm (hmap q t0 horig) hr))
            rw [hposget, hempty]
            simp [Ne.symm htne]
          · cases horig2 : alGet st.cellCT r with
            | none => rw [hcellnone r hrpos horig2]
            | some t2 => rw [hcellsome r t2 hrpos horig2]
  · intro q t h
    by_cases hq : q = pos
    · subst hq
      obtain rfl : (⟨team, a0.2.cityid, (a0 :: rest).length⟩ : CityTile) = t :=
        Option.some.inj (hposget.symm.trans h)
      refine ⟨_, hsurvget, ?_, ?_⟩
      · exact List.mem_append_left _ (List.mem_append_right _
          (List.mem_singleton.mpr rfl))
      · show city0.team = team
        exact hc0team
    · cases horig : alGet st.cellCT q with
      | none => rw [hcellnone q hq horig] at h; cases h
      | some t0 =>
        obtain rfl := Option.some.inj ((hcellsome q t0 hq horig).symm.trans h)
        dsimp only
        by_cases hf : q ∈ (((cityIdsFound inMap st.cellCT team pos).filter
            (fun i => i ≠ a0.2.cityid)).map (lookedUpCells st.cities)).flatten
        · rw [if_pos hf]
          refine ⟨_, hsurvget, List.mem_append_right _ hf, ?_⟩
          show city0.team = t0.team
          rw [hc0team, hteamflat q t0 horig hf]
        · rw [if_neg hf]
          by_cases hsid : t0.cityid = a0.2.cityid
          · rw [hsid]
            obtain ⟨c2, hc2, hqc2, hct2⟩ := ht2c q t0 horig
            rw [hsid] at hc2
            obtain rfl : city0 = c2 := Option.some.inj (hc0.symm.trans hc2)
            refine ⟨_, hsurvget, ?_, hct2⟩
            exact List.mem_append_left _ (List.mem_append_left _ hqc2)
          · have hnf : t0.cityid ∉ cityIdsFound inMap st.cellCT team pos := by
              intro hmem
              exact hf ((hflat q).mpr ⟨t0, horig, hmem, hsid⟩)
            obtain ⟨c2, hc2, hqc2, hct2⟩ := ht2c q t0 horig
            refine ⟨c2, ?_, hqc2, hct2⟩
            rw [hothers t0.cityid hsid hnf]
            exact hc2
  · intro k c hk
    by_cases hks : k = a0.2.cityid
    · subst hks
      obtain rfl := Option.some.inj (hsurvget.symm.trans hk)
      refine ⟨?_, ?_⟩
      · show city0.id = a0.2.cityid
        exact hc0id
      · intro q hq
        rcases List.mem_append.mp hq with hq1 | hqflat
        · rcases List.mem_append.mp hq1 with hq0 | hqpos
          · obtain ⟨t0, ht0, htid, htt⟩ := (hc2t a0.2.cityid city0 hc0).2 q hq0
            have hqpos : q ≠ pos := by
              intro he
              rw [he, hempty] at ht0
              cases ht0
            refine ⟨_, hcellsome q t0 hqpos ht0, ?_, ?_⟩
            · dsimp only
              by_cases hf : q ∈ (((cityIdsFound inMap st.cellCT team pos).filter
                  (fun i => i ≠ a0.2.cityid)).map (lookedUpCells st.cities)).flatten
              · rw [if_pos hf]
              · rw [if_neg hf]
                exact htid
            · show t0.team = city0.team
              exact htt
          · rcases List.mem_singleton.mp hqpos with rfl
            refine ⟨_, hposget, rfl, ?_⟩
            show team = city0.team
            exact hc0team.symm
        · obtain ⟨t0, ht0, hidf, hidne⟩ := (hflat q).mp hqflat
          have hqpos : q ≠ pos := by
            intro he
            rw [he, hempty] at ht0
            cases ht0
          refine ⟨_, hcellsome q t0 hqpos ht0, ?_, ?_⟩
          · dsimp only
            rw [if_pos hqflat]
          · show t0.team = city0.team
            rw [hteamflat q t0 ht0 hqflat, hc0team]
    · have hnf : k ∉ cityIdsFound inMap st.cellCT team pos := by
        intro hmem
        rw [hdels k hmem hks] at hk
        cases hk
      rw [hothers k hks hnf] at hk
      obtain ⟨hcid, hcq⟩ := hc2t k c hk
      refine ⟨hcid, ?_⟩
      intro q hq
      obtain ⟨t0, ht0, htid, htt⟩ := hcq q hq
      have hqpos : q ≠ pos := by
        intro he
        rw [he, hempty] at ht0
        cases ht0
      refine ⟨_, hcellsome q t0 hqpos ht0, ?_, htt⟩
      dsimp only
      have hf : q ∉ (((cityIdsFound inMap st.cellCT team pos).filter
          (fun i => i ≠ a0.2.cityid)).map (lookedUpCells st.cities)).flatten := by
        intro hmem
        obtain ⟨t1, ht1, hidf, hidne⟩ := (hflat q).mp hmem
        obtain rfl : t0 = t1 := Option.some.inj (ht0.symm.trans ht1)
        rw [htid] at hidf
        exact hnf hidf
      rw [if_neg hf]
      exact htid
  · intro q t q2 t2 h1 h2 hadjp hteam
    by_cases hq : q = pos
    · subst hq
      obtain rfl : (⟨team, a0.2.cityid, (a0 :: rest).length⟩ : CityTile) = t :=
        Option.some.inj (hposget.symm.trans h1)
      by_cases hq2 : q2 = q
      · subst hq2
        obtain rfl := Option.some.inj (h1.symm.trans h2)
        rfl
      · cases horig2 : alGet st.cellCT q2 with
        | none => rw [hcellnone q2 hq2 horig2] at h2; cases h2
        | some t02 =>
          obtain rfl := Option.some.inj ((hcellsome q2 t02 hq2 horig2).symm.trans h2)
          have hteam02 : t02.team = team := hteam.symm
          have hidf : t02.cityid ∈ cityIdsFound inMap st.cellCT team q := by
            have hmem : (q2, t02) ∈ adjSameTeamCityTiles inMap st.cellCT team q :=
              mem_adjSameTeamCityTiles.mpr ⟨hadjp, horig2, hteam02⟩
            rw [hadj] at hmem
            exact mem_cityIdsFound.mpr ⟨q2, t02, by rw [hadj]; exact hmem, rfl⟩
          show a0.2.cityid = _
          dsimp only
          by_cases hf : q2 ∈ (((cityIdsFound inMap st.cellCT team q).filter
              (fun i => i ≠ a0.2.cityid)).map (lookedUpCells st.cities)).flatten
          · rw [if_pos hf]
          · rw [if_neg hf]
            by_cases hsid : t02.cityid = a0.2.cityid
            · exact hsid.symm
            · exact absurd ((hflat q2).mpr ⟨t02, horig2, hidf, hsid⟩) hf
    · cases horig : alGet st.cellCT q with
      | none => rw [hcellnone q hq horig] at h1; cases h1
      | some t0 =>
        obtain rfl := Option.some.inj ((hcellsome q t0 hq horig).symm.trans h1)
        by_cases hq2 : q2 = pos
        · subst hq2
          obtain rfl : (⟨team, a0.2.cityid, (a0 :: rest).length⟩ : CityTile) = t2 :=
            Option.some.inj (hposget.symm.trans h2)
          have hteam0 : t0.team = team := hteam
          have hidf : t0.cityid ∈ cityIdsFound inMap st.cellCT team q2 := by
            have hqa : q ∈ adjacentPositions inMap q2 :=
              adjacentPositions_symm (hmap q t0 horig) hadjp
            have hmem : (q, t0) ∈ adjSameTeamCityTiles inMap st.cellCT team q2 :=
              mem_adjSameTeamCityTiles.mpr ⟨hqa, horig, hteam0⟩
            rw [hadj] at hmem
            exact mem_cityIdsFound.mpr ⟨q, t0, by rw [hadj]; exact hmem, rfl⟩
          show _ = a0.2.cityid
          dsimp only
          by_cases hf : q ∈ (((cityIdsFound inMap st.cellCT team q2).filter
              (fun i => i ≠ a0.2.cityid)).map (lookedUpCells st.cities)).flatten
          · rw [if_pos hf]
          · rw [if_neg hf]
            by_cases hsid : t0.cityid = a0.2.cityid
            · exact hsid
            · exact absurd ((hflat q).mpr ⟨t0, horig, hidf, hsid⟩) hf
        · cases horig2 : alGet st.cellCT q2 with
          | none => rw [hcellnone q2 hq2 horig2] at h2; cases h2
          | some t02 =>
            obtain rfl := Option.some.inj ((hcellsome q2 t02 hq2 horig2).symm.trans h2)
            have hteam0 : t0.team = t02.team := hteam
            have hcid0 : t0.cityid = t02.cityid :=
              hadjinv q t0 q2 t02 horig horig2 hadjp hteam0
            show (⟨t0.team, _, _⟩ : CityTile).cityid = (⟨t02.team, _, _⟩ : CityTile).cityid
            dsimp only
            by_cases hc0m : t0.cityid ∈ cityIdsFound inMap st.cellCT team pos ∧
                t0.cityid ≠ a0.2.cityid
            · rw [if_pos ((hflat q).mpr ⟨t0, horig, hc0m.1, hc0m.2⟩),
                if_pos ((hflat q2).mpr ⟨t02, horig2, hcid0 ▸ hc0m.1, hcid0 ▸ hc0m.2⟩)]
            · have hf1 : q ∉ (((cityIdsFound inMap st.cellCT team pos).filter
                  (fun i => i ≠ a0.2.cityid)).map (lookedUpCells st.cities)).flatten := by
                intro hmem
                obtain ⟨t1, ht1, hidf, hidne⟩ := (hflat q).mp hmem
                obtain rfl : t0 = t1 := Option.some.inj (horig.symm.trans ht1)
                exact hc0m ⟨hidf, hidne⟩
              have hf2 : q2 ∉ (((cityIdsFound inMap st.cellCT team pos).filter
                  (fun i => i ≠ a0.2.cityid)).map (lookedUpCells st.cities)).flatten := by
                intro hmem
                obtain ⟨t1, ht1, hidf, hidne⟩ := (hflat q2).mp hmem
                obtain rfl : t02 = t1 := Option.some.inj (horig2.symm.trans ht1)
                exact hc0m ⟨hcid0 ▸ hidf, hcid0 ▸ hidne⟩
              rw [if_neg hf1, if_neg hf2]
              exact hcid0
  · intro k c hk
    rw [hcount]
    by_cases hks : k = a0.2.cityid
    · subst hks
      exact hidb a0.2.cityid city0 hc0
    · have hnf : k ∉ cityIdsFound inMap st.cellCT team pos := by
        intro hmem
        rw [hdels k hmem hks] at hk
        cases hk
      rw [hothers k hks hnf] at hk
      exact hidb k c hk

theorem CInv_reach (inMap : Int × Int → Bool) (st : CState)
    (h : CReach inMap st) : CInv inMap st := by
  induction h with
  | init => exact CInv_init inMap
  | spawn st st2 team pos hin hempty hre hs ih =>
    cases hadj : adjSameTeamCityTiles inMap st.cellCT team pos with
    | nil => exact CInv_spawn_new inMap st st2 team pos ih hin hempty hadj hs
    | cons a0 rest =>
      exact CInv_spawn_merge inMap st st2 team pos a0 rest ih hin hempty hadj hs
  | destroy st st2 id hre hd ih => exact CInv_destroy inMap st st2 id ih hd

/-- C10 (amended): in every state reachable from the city-free state by
spawning tiles on tile-free in-map cells and destroying registered cities,
every existing city tile's `adjacentCityTiles` counter equals the number
of its orthogonally adjacent cells currently holding a same-team city
tile. -/
theorem adjacency_counter_invariant (inMap : Int × Int → Bool) (st : CState)
    (h : CReach inMap st) :
    ∀ q t, alGet st.cellCT q = some t →
      t.adjacentCityTiles = recount inMap st.cellCT t.team q :=
  fun q t ht => (CInv_reach inMap st h).2.2.2.1 q t ht

/-- Counterexample to C10 as stated for arbitrary `spawnCityTile`
sequences: a third spawn onto the already-occupied cell (1, 0) bumps the
neighbor counter of (0, 0) again, leaving it at 2 while only one adjacent
same-team city tile exists. -/
theorem adjacency_counter_counterexample :
    (spawnSequence [(0, 0), (1, 0), (1, 0)]).isSome = true ∧
    ∀ st ∈ spawnSequence [(0, 0), (1, 0), (1, 0)],
      (alGet st.cellCT (0, 0)).isSome = true ∧
      ∀ t ∈ alGet st.cellCT (0, 0),
        t.adjacentCityTiles = 2 ∧
        recount (fun _ => true) st.cellCT t.team (0, 0) = 1 := by
  decide

/-- Witness for C10: the invariant read off a concrete two-spawn reachable
state at cell (0, 0). -/
theorem adjacency_counter_invariant_witness :
    (⟨Team.A, "c_1", 1⟩ : CityTile).adjacentCityTiles =
      recount (fun _ => true)
        (⟨[((0, 0), ⟨Team.A, "c_1", 1⟩), ((1, 0), ⟨Team.A, "c_1", 1⟩)],
          [("c_1", ⟨"c_1", Team.A, 0, [(0, 0), (1, 0)]⟩)], 1⟩ : CState).cellCT
        (⟨Team.A, "c_1", 1⟩ : CityTile).team (0, 0) :=
  adjacency_counter_invariant (fun _ => true)
    ⟨[((0, 0), ⟨Team.A, "c_1", 1⟩), ((1, 0), ⟨Team.A, "c_1", 1⟩)],
      [("c_1", ⟨"c_1", Team.A, 0, [(0, 0), (1, 0)]⟩)], 1⟩
    (CReach.spawn
      ⟨[((0, 0), ⟨Team.A, "c_1", 0⟩)], [("c_1", ⟨"c_1", Team.A, 0, [(0, 0)]⟩)], 1⟩
      ⟨[((0, 0), ⟨Team.A, "c_1", 1⟩), ((1, 0), ⟨Team.A, "c_1", 1⟩)],
        [("c_1", ⟨"c_1", Team.A, 0, [(0, 0), (1, 0)]⟩)], 1⟩
      Team.A (1, 0) rfl (by decide)
      (CReach.spawn ⟨[], [], 0⟩
        ⟨[((0, 0), ⟨Team.A, "c_1", 0⟩)], [("c_1", ⟨"c_1", Team.A, 0, [(0, 0)]⟩)], 1⟩
        Team.A (0, 0) rfl rfl CReach.init (by decide))
      (by decide))
    (0, 0) ⟨Team.A, "c_1", 1⟩ (by decide)

end Lux
